import Mathlib

/-!
# nfce-render: a shallow embedding of the DANFE generator

The Go sources embedded here are `xmlparser/parser.go` (schema model, accessors and
formatters), `internal/renderer/html.go` (the receipt template and its renderer),
`converter/pdf.go` (the PDF bridge), `nfce.go` (the generator), `danfe.go` and
`internal/danfe/danfe.go` (the entry points).

Conventions.
* A Go `string` or `[]byte` is a sequence of bytes, `Bytes`; a byte is a natural number
  below 256.  `len` is `List.length`, concatenation is `++`.
* A Go `error` is a `GoError`; a nil pointer is `none`.
* A function that can panic returns an `Option`; `none` is the panic.
* A function that assigns through a pointer it received returns the value behind the
  pointer after the call, next to its results.
* Functions of the Go standard library and of third-party modules (XML decoding, float
  formatting, time formatting, QR encoding, base64, the environment, the HTTP round trip)
  are the fields of a `Lib` value; the statements hold for every `Lib`, or name the
  behaviour of a library function they assume.

The file has three parts: the embedding of the sources; the definitions used to state the
properties (example values, and a reader of rendered HTML); the theorems.
-/

namespace NFCe

/-! ## Go strings and errors -/

/-- A Go string or byte slice: its sequence of bytes. -/
abbrev Bytes := List Nat

/-- The UTF-8 encoding of a rune (`utf8.AppendRune`): surrogates and values above
U+10FFFF are written as the replacement character U+FFFD. -/
def encodeRune (r : Nat) : Bytes :=
  if r < 0x80 then [r]
  else if r < 0x800 then [0xC0 + r / 64, 0x80 + r % 64]
  else if (0xD800 ≤ r ∧ r ≤ 0xDFFF) ∨ 0x10FFFF < r then [0xEF, 0xBF, 0xBD]
  else if r < 0x10000 then [0xE0 + r / 4096, 0x80 + (r / 64) % 64, 0x80 + r % 64]
  else [0xF0 + r / 262144, 0x80 + (r / 4096) % 64, 0x80 + (r / 64) % 64, 0x80 + r % 64]

/-- UTF-8 encoding of one code point (the encoding Go uses for string literals). -/
def utf8EncodeChar (c : Char) : Bytes :=
  encodeRune c.toNat

/-- The bytes of a Go string literal. -/
def utf8 (s : String) : Bytes :=
  (s.toList.map utf8EncodeChar).flatten

/-- A Go error value: a plain message (`errors.New`, `fmt.Errorf` without `%w`, or an
error produced by a library), or an error wrapping a cause (`fmt.Errorf` with `%w`). -/
inductive GoError where
  | plain (msg : Bytes)
  | wrap (msg : Bytes) (cause : GoError)
deriving DecidableEq, Repr

/-- The method `Error()`. -/
def GoError.Error : GoError → Bytes
  | .plain msg => msg
  | .wrap msg _ => msg

/-- The call `fmt.Errorf(pre + "%w", err)`: the message is `pre` followed by the message of
`err`, and the result unwraps to `err`. -/
def errorfW (pre : String) (err : GoError) : GoError :=
  .wrap (utf8 pre ++ err.Error) err

/-- The slice expression `s[lo:hi]` on a string; `none` is the run-time panic Go raises
when the bounds are not `lo ≤ hi ≤ len(s)`. -/
def goSlice (s : Bytes) (lo hi : Nat) : Option Bytes :=
  if lo ≤ hi ∧ hi ≤ s.length then some ((s.drop lo).take (hi - lo)) else none

/-! ## Formatters (`xmlparser/parser.go`) -/

/-- `FormatCNPJ` formats a CNPJ; `none` would be a slice-bounds panic. -/
def FormatCNPJ (cnpj : Bytes) : Option Bytes :=
  if cnpj.length ≠ 14 then some cnpj
  else do
    let a ← goSlice cnpj 0 2
    let b ← goSlice cnpj 2 5
    let c ← goSlice cnpj 5 8
    let d ← goSlice cnpj 8 12
    let e ← goSlice cnpj 12 14
    pure (a ++ utf8 "." ++ b ++ utf8 "." ++ c ++ utf8 "/" ++ d ++ utf8 "-" ++ e)

/-- `FormatCPF` formats a CPF; `none` would be a slice-bounds panic. -/
def FormatCPF (cpf : Bytes) : Option Bytes :=
  if cpf.length ≠ 11 then some cpf
  else do
    let a ← goSlice cpf 0 3
    let b ← goSlice cpf 3 6
    let c ← goSlice cpf 6 9
    let d ← goSlice cpf 9 11
    pure (a ++ utf8 "." ++ b ++ utf8 "." ++ c ++ utf8 "-" ++ d)

/-- `FormatCEP` formats a CEP; `none` would be a slice-bounds panic. -/
def FormatCEP (cep : Bytes) : Option Bytes :=
  if cep.length ≠ 8 then some cep
  else do
    let a ← goSlice cep 0 5
    let b ← goSlice cep 5 8
    pure (a ++ utf8 "-" ++ b)

/-- `GetPaymentMethodDescription` returns the description of a payment-method code. -/
def GetPaymentMethodDescription (tPag : Bytes) : Bytes :=
  if tPag = utf8 "01" then utf8 "Dinheiro"
  else if tPag = utf8 "02" then utf8 "Cheque"
  else if tPag = utf8 "03" then utf8 "Cartão de Crédito"
  else if tPag = utf8 "04" then utf8 "Cartão de Débito"
  else if tPag = utf8 "05" then utf8 "Crédito Loja"
  else if tPag = utf8 "10" then utf8 "Vale Alimentação"
  else if tPag = utf8 "11" then utf8 "Vale Refeição"
  else if tPag = utf8 "12" then utf8 "Vale Presente"
  else if tPag = utf8 "13" then utf8 "Vale Combustível"
  else if tPag = utf8 "14" then utf8 "Duplicata Mercantil"
  else if tPag = utf8 "15" then utf8 "Boleto Bancário"
  else if tPag = utf8 "16" then utf8 "Depósito Bancário"
  else if tPag = utf8 "17" then utf8 "Pagamento Instantâneo (PIX)"
  else if tPag = utf8 "18" then utf8 "Transferência bancária, Carteira Digital"
  else if tPag = utf8 "19" then utf8 "Programa de fidelidade, Cashback, Crédito Virtual"
  else if tPag = utf8 "90" then utf8 "Sem pagamento"
  else if tPag = utf8 "99" then utf8 "Outros"
  else utf8 "Não informado"

/-! ## Numbers and times -/

/-- A `float64` value: not-a-number, a signed infinity, or the finite value
`(-1)^negative * mantissa * 2^exponent` (the two zeros are the finite values with
mantissa 0). -/
inductive Float64 where
  | nan
  | inf (negative : Bool)
  | finite (negative : Bool) (mantissa : Nat) (exponent : Int)
deriving DecidableEq, Repr

namespace Float64

/-- The constant `0.0`, also the zero value of a `float64` field. -/
def zero : Float64 := .finite false 0 0

/-- A finite value as an integer number of units `2^e0`, for `e0` at most its exponent. -/
def unitsAt (negative : Bool) (mantissa : Nat) (exponent e0 : Int) : Int :=
  let m : Int := (mantissa : Int) * 2 ^ (exponent - e0).toNat
  if negative then -m else m

/-- The Go comparison `a < b` on `float64`: false whenever an operand is NaN. -/
def lt : Float64 → Float64 → Bool
  | .nan, _ => false
  | _, .nan => false
  | .inf n1, .inf n2 => n1 && !n2
  | .inf n1, .finite _ _ _ => n1
  | .finite _ _ _, .inf n2 => !n2
  | .finite n1 m1 e1, .finite n2 m2 e2 =>
    decide (unitsAt n1 m1 e1 (min e1 e2) < unitsAt n2 m2 e2 (min e1 e2))

/-- The Go comparison `a == b` on `float64`: false whenever an operand is NaN, and true
for the two zeros. -/
def eq : Float64 → Float64 → Bool
  | .nan, _ => false
  | _, .nan => false
  | .inf n1, .inf n2 => n1 == n2
  | .inf _, .finite _ _ _ => false
  | .finite _ _ _, .inf _ => false
  | .finite n1 m1 e1, .finite n2 m2 e2 =>
    decide (unitsAt n1 m1 e1 (min e1 e2) = unitsAt n2 m2 e2 (min e1 e2))

/-- The Go comparison `a > b` on `float64`. -/
def gt (a b : Float64) : Bool := lt b a

end Float64

/-- A `time.Time` value: an instant and the offset of its zone. -/
structure Time where
  unixNano : Int := 0
  zoneOffset : Int := 0
deriving DecidableEq, Repr

/-- Decimal digits of `n`, most significant first, with `fuel` bounding their number. -/
def decimalAux : Nat → Nat → Bytes → Bytes
  | 0, _, acc => acc
  | fuel + 1, n, acc =>
    if n < 10 then (48 + n) :: acc
    else decimalAux fuel (n / 10) ((48 + n % 10) :: acc)

/-- The verb `%d` on a non-negative `int`: its decimal digits. -/
def decimal (n : Nat) : Bytes :=
  decimalAux (n + 1) n []

/-- The call `printf "%02d" n` on a non-negative `int`: the decimal digits, padded with
zeros on the left to a width of two. -/
def sprintf02d (n : Nat) : Bytes :=
  let d := decimal n
  List.replicate (2 - d.length) 48 ++ d

/-- The template function `add`.  Its operands here are a slice index and 1, far below the
range of `int`, so the sum is the sum of natural numbers. -/
def add (a b : Nat) : Nat :=
  a + b

/-! ## Schema model (`xmlparser/parser.go`)

Every field has the zero value of its Go type as default.  The tax, transport and
billing sub-records (`Imposto`, `Transp`, `Cobr`) and the `XMLName` fields are decoded by
the Go code but read by none of its functions; they carry no field here. -/

structure Ide where
  CUF : Bytes := []
  CNF : Bytes := []
  NatOp : Bytes := []
  Mod : Bytes := []
  Serie : Bytes := []
  NNF : Bytes := []
  DHEmi : Time := {}
  DHSaiEnt : Option Time := none
  TpNF : Bytes := []
  IDDest : Bytes := []
  CMunFG : Bytes := []
  TpImp : Bytes := []
  TpEmis : Bytes := []
  CDV : Bytes := []
  TpAmb : Bytes := []
  FinNFe : Bytes := []
  IndFinal : Bytes := []
  IndPres : Bytes := []
  ProcEmi : Bytes := []
  VerProc : Bytes := []
deriving DecidableEq, Repr

structure EnderEmit where
  XLgr : Bytes := []
  Nro : Bytes := []
  XCpl : Bytes := []
  XBairro : Bytes := []
  CMun : Bytes := []
  XMun : Bytes := []
  UF : Bytes := []
  CEP : Bytes := []
  CPais : Bytes := []
  XPais : Bytes := []
  Fone : Bytes := []
deriving DecidableEq, Repr

structure Emit where
  CNPJ : Bytes := []
  XNome : Bytes := []
  XFant : Bytes := []
  EnderEmit : EnderEmit := {}
  IE : Bytes := []
  CRT : Bytes := []
deriving DecidableEq, Repr

structure EnderDest where
  XLgr : Bytes := []
  Nro : Bytes := []
  XCpl : Bytes := []
  XBairro : Bytes := []
  CMun : Bytes := []
  XMun : Bytes := []
  UF : Bytes := []
  CEP : Bytes := []
  CPais : Bytes := []
  XPais : Bytes := []
deriving DecidableEq, Repr

structure Dest where
  CNPJ : Bytes := []
  CPF : Bytes := []
  XNome : Bytes := []
  EnderDest : Option EnderDest := none
deriving DecidableEq, Repr

structure Prod where
  CProd : Bytes := []
  CEAN : Bytes := []
  XProd : Bytes := []
  NCM : Bytes := []
  CFOP : Bytes := []
  UCom : Bytes := []
  QCom : Float64 := Float64.zero
  VUnCom : Float64 := Float64.zero
  VProd : Float64 := Float64.zero
  CEANTrib : Bytes := []
  UTrib : Bytes := []
  QTrib : Float64 := Float64.zero
  VUnTrib : Float64 := Float64.zero
  IndTot : Bytes := []
deriving DecidableEq, Repr

structure Det where
  NItem : Bytes := []
  Prod : Prod := {}
deriving DecidableEq, Repr

structure ICMSTot where
  VBC : Float64 := Float64.zero
  VICMS : Float64 := Float64.zero
  VICMSDeson : Float64 := Float64.zero
  VFCPUFDest : Float64 := Float64.zero
  VICMSUFDest : Float64 := Float64.zero
  VICMSUFRemet : Float64 := Float64.zero
  VFCP : Float64 := Float64.zero
  VBCST : Float64 := Float64.zero
  VST : Float64 := Float64.zero
  VFCPST : Float64 := Float64.zero
  VFCPSTRet : Float64 := Float64.zero
  VProd : Float64 := Float64.zero
  VFrete : Float64 := Float64.zero
  VSeg : Float64 := Float64.zero
  VDesc : Float64 := Float64.zero
  VII : Float64 := Float64.zero
  VIPI : Float64 := Float64.zero
  VIPIDevol : Float64 := Float64.zero
  VPIS : Float64 := Float64.zero
  VCOFINS : Float64 := Float64.zero
  VOutro : Float64 := Float64.zero
  VNF : Float64 := Float64.zero
  VTotTrib : Float64 := Float64.zero
deriving DecidableEq, Repr

structure Total where
  ICMSTot : ICMSTot := {}
deriving DecidableEq, Repr

structure Card where
  TpIntegra : Bytes := []
  CNPJ : Bytes := []
  TBand : Bytes := []
  CAut : Bytes := []
deriving DecidableEq, Repr

structure DetPag where
  IndPag : Bytes := []
  TPag : Bytes := []
  XPag : Bytes := []
  VPag : Float64 := Float64.zero
  Card : Option Card := none
deriving DecidableEq, Repr

structure Pag where
  DetPag : List DetPag := []
  VTroco : Float64 := Float64.zero
deriving DecidableEq, Repr

structure InfAdic where
  InfAdFisco : Bytes := []
  InfCpl : Bytes := []
deriving DecidableEq, Repr

structure InfNFeSupl where
  QrCode : Bytes := []
  UrlChave : Bytes := []
deriving DecidableEq, Repr

structure InfProt where
  TpAmb : Bytes := []
  VerAplic : Bytes := []
  ChNFe : Bytes := []
  DhRecbto : Time := {}
  NProt : Bytes := []
  DigVal : Bytes := []
  CStat : Bytes := []
  XMotivo : Bytes := []
deriving DecidableEq, Repr

structure ProtNFe where
  Versao : Bytes := []
  InfProt : InfProt := {}
deriving DecidableEq, Repr

structure InfNFe where
  ID : Bytes := []
  Versao : Bytes := []
  Ide : Ide := {}
  Emit : Emit := {}
  Dest : Option Dest := none
  Det : List Det := []
  Total : Total := {}
  Pag : Pag := {}
  InfAdic : Option InfAdic := none
deriving DecidableEq, Repr

structure NFe where
  InfNFe : InfNFe := {}
  InfNFeSupl : Option InfNFeSupl := none
deriving DecidableEq, Repr

/-- The envelope `NFeProc`, root of the decoded document. -/
structure NFeProc where
  Versao : Bytes := []
  Xmlns : Bytes := []
  NFe : NFe := {}
  ProtNFe : ProtNFe := {}
deriving DecidableEq, Repr

/-! ## The library -/

/-- An HTTP response as `ConvertHTMLToPDF` observes it: the status code, and what
`io.ReadAll` returns for the body (the bytes read and the read error, if any). -/
structure HTTPResponse where
  StatusCode : Nat
  body : Bytes
  readErr : Option GoError

/-- The functions of the Go standard library and of third-party modules the code calls. -/
structure Lib where
  /-- `xml.Unmarshal(xmlContent, &nfe)`: the populated envelope, or the decoding error. -/
  xmlUnmarshal : Bytes → Except GoError NFeProc
  /-- `fmt.Sprintf("%.2f", value)`. -/
  sprintfFixed2 : Float64 → Bytes
  /-- `strconv.FormatFloat(value, 'f', -1, 64)`. -/
  formatFloat : Float64 → Bytes
  /-- `t.Format(layout)`, as `timeFormat layout t`. -/
  timeFormat : Bytes → Time → Bytes
  /-- `qrcode.Encode(content, qrcode.Medium, 256)`. -/
  qrcodeEncode : Bytes → Except GoError Bytes
  /-- `base64.StdEncoding.EncodeToString`. -/
  base64Encode : Bytes → Bytes
  /-- `os.Getenv`, read after `godotenv.Load()`. -/
  getenv : Bytes → Bytes
  /-- `http.NewRequest("POST", url, body)`: the error it reports, if any. -/
  httpNewRequest : Bytes → Option GoError
  /-- `client.Do(req)` for a multipart form posted to `url` with one file part
  (field name, file name, content) and the given value fields, in order. -/
  httpPostForm : Bytes → Bytes × Bytes × Bytes → List (Bytes × Bytes) →
    Except GoError HTTPResponse

/-! ## Accessors (`xmlparser/parser.go`) -/

/-- `IsNFCe` checks whether the document is an NFC-e (model 65). -/
def NFeProc.IsNFCe (nfe : NFeProc) : Bool :=
  nfe.NFe.InfNFe.Ide.Mod == utf8 "65"

/-- `GetQRCode` returns the QR code of the NFC-e. -/
def NFeProc.GetQRCode (nfe : NFeProc) : Bytes :=
  match nfe.NFe.InfNFeSupl with
  | some supl => supl.QrCode
  | none => utf8 ""

/-- `GetChaveAcesso` returns the access key. -/
def NFeProc.GetChaveAcesso (nfe : NFeProc) : Bytes :=
  nfe.ProtNFe.InfProt.ChNFe

/-- `GetNumeroNF` returns the document number. -/
def NFeProc.GetNumeroNF (nfe : NFeProc) : Bytes :=
  nfe.NFe.InfNFe.Ide.NNF

/-- `GetSerieNF` returns the document series. -/
def NFeProc.GetSerieNF (nfe : NFeProc) : Bytes :=
  nfe.NFe.InfNFe.Ide.Serie

/-- `GetDataEmissao` returns the issue date. -/
def NFeProc.GetDataEmissao (nfe : NFeProc) : Time :=
  nfe.NFe.InfNFe.Ide.DHEmi

/-- `GetValorTotal` returns the grand total. -/
def NFeProc.GetValorTotal (nfe : NFeProc) : Float64 :=
  nfe.NFe.InfNFe.Total.ICMSTot.VNF

/-- `FormatCurrency` formats a monetary value. -/
def FormatCurrency (lib : Lib) (value : Float64) : Bytes :=
  utf8 "R$ " ++ lib.sprintfFixed2 value

/-- `FormatQuantity` formats a quantity. -/
def FormatQuantity (lib : Lib) (value : Float64) : Bytes :=
  lib.formatFloat value

/-- `ParseXML` decodes the XML of the NF-e. -/
def ParseXML (lib : Lib) (xmlContent : Bytes) : Except GoError NFeProc :=
  match lib.xmlUnmarshal xmlContent with
  | .error err => .error (errorfW "erro ao fazer parse do XML: " err)
  | .ok nfe => .ok nfe

/-! ## Template machinery (`html/template`) -/

/-- The replacement `html/template` applies to one byte of a value printed in HTML text
(the table `htmlReplacementTable`); every other byte is copied. -/
def htmlEscapeByte (b : Nat) : Bytes :=
  if b = 0 then [0xEF, 0xBF, 0xBD]
  else if b = 34 then utf8 "&#34;"
  else if b = 38 then utf8 "&amp;"
  else if b = 39 then utf8 "&#39;"
  else if b = 43 then utf8 "&#43;"
  else if b = 60 then utf8 "&lt;"
  else if b = 62 then utf8 "&gt;"
  else [b]

/-- The escaper `html/template` appends to every action standing in HTML text. -/
def htmlEscape (s : Bytes) : Bytes :=
  (s.map htmlEscapeByte).flatten

/-- The builtin `lt` of `text/template` on two floats (`arg1.Float() < arg2.Float()`). -/
def tmplLt (a b : Float64) : Bool :=
  Float64.lt a b

/-- The builtin `eq` of `text/template` on two floats (`arg1.Float() == arg2.Float()`). -/
def tmplEq (a b : Float64) : Bool :=
  Float64.eq a b

/-- The builtin `le` of `text/template` (`funcs.go`: "<= is < or =="): `lt`, and when that
is false, `eq`. -/
def tmplLe (a b : Float64) : Bool :=
  if tmplLt a b then true else tmplEq a b

/-- The builtin `gt` of `text/template` (`funcs.go`: "> is the inverse of <="): the
negation of `le`.  The template calls it as `gt x 0.0` on `float64` fields. -/
def tmplGt (a b : Float64) : Bool :=
  !tmplLe a b

/-- One node of the executing template: the bytes it writes, or the error that stops the
execution (a template function that panics). -/
abbrev Op := Except GoError Bytes

/-- An action that prints the result of a template function which may panic: the escaped
result, or the error with which `Execute` stops (its message is abridged here). -/
def callOp (fn : String) (r : Option Bytes) : Op :=
  match r with
  | some v => .ok (htmlEscape v)
  | none => .error (.plain (utf8 "template: danfe: error calling " ++ utf8 fn))

/-- Whether a byte is a UTF-8 continuation byte. -/
def isCont (b : Nat) : Bool :=
  0x80 ≤ b && b ≤ 0xBF

/-- The function `utf8.DecodeRuneInString`: the first rune of `s` and its width in bytes;
an invalid or short encoding decodes to U+FFFD with width 1. -/
def decodeRune : Bytes → Nat × Nat
  | [] => (0xFFFD, 0)
  | b0 :: rest =>
    if b0 < 0x80 then (b0, 1)
    else if 0xC2 ≤ b0 ∧ b0 ≤ 0xDF then
      match rest with
      | b1 :: _ =>
        if isCont b1 then ((b0 - 0xC0) * 64 + (b1 - 0x80), 2) else (0xFFFD, 1)
      | [] => (0xFFFD, 1)
    else if 0xE0 ≤ b0 ∧ b0 ≤ 0xEF then
      match rest with
      | b1 :: b2 :: _ =>
        let lo := if b0 = 0xE0 then 0xA0 else 0x80
        let hi := if b0 = 0xED then 0x9F else 0xBF
        if lo ≤ b1 ∧ b1 ≤ hi ∧ isCont b2 then
          ((b0 - 0xE0) * 4096 + (b1 - 0x80) * 64 + (b2 - 0x80), 3)
        else (0xFFFD, 1)
      | _ => (0xFFFD, 1)
    else if 0xF0 ≤ b0 ∧ b0 ≤ 0xF4 then
      match rest with
      | b1 :: b2 :: b3 :: _ =>
        let lo := if b0 = 0xF0 then 0x90 else 0x80
        let hi := if b0 = 0xF4 then 0x8F else 0xBF
        if lo ≤ b1 ∧ b1 ≤ hi ∧ isCont b2 ∧ isCont b3 then
          ((b0 - 0xF0) * 262144 + (b1 - 0x80) * 4096 + (b2 - 0x80) * 64 + (b3 - 0x80), 4)
        else (0xFFFD, 1)
      | _ => (0xFFFD, 1)
    else (0xFFFD, 1)

/-- The loop `for i, char := range key` of `formatKey`: `i` is the byte offset of the rune
`char`; `fuel` bounds the number of runes. -/
def formatKeyLoop : Nat → Nat → Bytes → Bytes → Bytes
  | 0, _, _, result => result
  | fuel + 1, i, rest, result =>
    match rest with
    | [] => result
    | _ :: _ =>
      let rw := decodeRune rest
      let result1 := if i > 0 ∧ i % 4 = 0 then result ++ utf8 " " else result
      formatKeyLoop fuel (i + rw.2) (rest.drop rw.2) (result1 ++ encodeRune rw.1)

/-- The template function `formatKey`. -/
def formatKey (key : Bytes) : Bytes :=
  if key.length = 0 then key
  else formatKeyLoop key.length 0 key []

/-- The template function `formatDate`. -/
def formatDate (lib : Lib) (t : Time) : Bytes :=
  lib.timeFormat (utf8 "02/01/2006 15:04:05") t

/-- The method `generateQRCodeHTML`: the QR code as an inline image; its result is of type
`template.HTML` and is written without escaping. -/
def generateQRCodeHTML (lib : Lib) (content : Bytes) : Bytes :=
  if content = utf8 "" then utf8 ""
  else
    match lib.qrcodeEncode content with
    | .error _ => utf8 ""
    | .ok pngBytes =>
      utf8 "<img src=\"data:image/png;base64," ++ lib.base64Encode pngBytes ++
        utf8 "\" alt=\"QR Code\" style=\"width: 25mm; height: 25mm;\">"

/-! ## The receipt template (`internal/renderer/html.go`)

The constant `danfeTemplate`, node by node: a text node writes its text, an action in HTML
text writes its value through `htmlEscape`.  Each definition below lists the writes of a
run of consecutive nodes. -/

/-- The first text node, up to the emitter name.  `html/template` drops the HTML comment
the source has inside the first `div` of the header; the rest is written as it stands. -/
def danfeHead : String :=
  String.join [
    "\n",
    "<!DOCTYPE html>\n",
    "<html lang=\"pt-br\">\n",
    "<head>\n",
    "    <meta charset=\"UTF-8\">\n",
    "    <meta name=\"viewport\" content=\"width=device-width, initial-scale=1.0\">\n",
    "    <title>DANFE NFC-e</title>\n",
    "    <style>\n",
    "        @page \x7b\n",
    "            size: 80mm auto;\n",
    "            margin: 0mm;\n",
    "        \x7d\n",
    "        \n",
    "        @media print \x7b\n",
    "            body \x7b \n",
    "                margin: 0; \n",
    "                padding: 0;\n",
    "                width: 80mm;\n",
    "            \x7d\n",
    "            .danfe \x7b \n",
    "                box-shadow: none; \n",
    "                border: none; \n",
    "                width: 80mm;\n",
    "                max-width: 80mm;\n",
    "            \x7d\n",
    "        \x7d\n",
    "        \n",
    "        body \x7b\n",
    "            font-family: \x27Arial\x27, sans-serif;\n",
    "            font-size: 8px;\n",
    "            margin: 0;\n",
    "            padding: 0;\n",
    "            background-color: white;\n",
    "            line-height: 1.2;\n",
    "            width: 80mm;\n",
    "            max-width: 80mm;\n",
    "            min-height: auto;\n",
    "        \x7d\n",
    "        \n",
    "        .danfe \x7b\n",
    "            width: 80mm;\n",
    "            max-width: 80mm;\n",
    "            margin: 0;\n",
    "            background-color: white;\n",
    "            padding: 2mm;\n",
    "            box-sizing: border-box;\n",
    "            min-height: auto;\n",
    "        \x7d\n",
    "        \n",
    "        .header \x7b\n",
    "            text-align: center;\n",
    "            margin-bottom: 4px;\n",
    "        \x7d\n",
    "        \n",
    "        .company-name \x7b\n",
    "            font-weight: bold;\n",
    "            font-size: 14px;\n",
    "            margin-bottom: 1px;\n",
    "        \x7d\n",
    "        \n",
    "        .cnpj \x7b\n",
    "            font-weight: bold;\n",
    "            font-size: 12px;\n",
    "            margin-bottom: 1px;\n",
    "        \x7d\n",
    "        \n",
    "        .address \x7b\n",
    "            font-size: 11px;\n",
    "            margin-bottom: 1px;\n",
    "            line-height: 1.0;\n",
    "        \x7d\n",
    "        \n",
    "        .document-title \x7b\n",
    "            font-weight: bold;\n",
    "            font-size: 13px;\n",
    "            margin: 4px 0 2px 0;\n",
    "        \x7d\n",
    "        \n",
    "        .document-subtitle \x7b\n",
    "            font-size: 10px;\n",
    "            margin-bottom: 4px;\n",
    "        \x7d\n",
    "        \n",
    "        .section-title \x7b\n",
    "            font-weight: bold;\n",
    "            font-size: 11px;\n",
    "            text-align: center;\n",
    "            margin: 4px 0 2px 0;\n",
    "            border-top: 1px dashed #333;\n",
    "            border-bottom: 1px dashed #333;\n",
    "            padding: 1px 0;\n",
    "        \x7d\n",
    "        \n",
    "        .item \x7b\n",
    "            margin-bottom: 3px;\n",
    "            font-size: 10px;\n",
    "        \x7d\n",
    "        \n",
    "        .item-line \x7b\n",
    "            display: flex;\n",
    "            justify-content: space-between;\n",
    "            align-items: center;\n",
    "            font-weight: bold;\n",
    "            margin-bottom: 1px;\n",
    "        \x7d\n",
    "        \n",
    "        .item-code \x7b\n",
    "            font-weight: bold;\n",
    "        \x7d\n",
    "        \n",
    "        .item-desc \x7b\n",
    "            margin-bottom: 1px;\n",
    "        \x7d\n",
    "        \n",
    "        .item-values \x7b\n",
    "            text-align: right;\n",
    "            font-weight: bold;\n",
    "        \x7d\n",
    "        \n",
    "        .totals \x7b\n",
    "            margin-bottom: 4px;\n",
    "            font-size: 10px;\n",
    "        \x7d\n",
    "        \n",
    "        .total-line \x7b\n",
    "            display: flex;\n",
    "            justify-content: space-between;\n",
    "            margin-bottom: 0px;\n",
    "        \x7d\n",
    "        \n",
    "        .total-final \x7b\n",
    "            font-weight: bold;\n",
    "            font-size: 11px;\n",
    "            border-top: 1px solid #333;\n",
    "            padding-top: 1px;\n",
    "        \x7d\n",
    "        \n",
    "        .payment \x7b\n",
    "            margin-bottom: 4px;\n",
    "            font-size: 10px;\n",
    "        \x7d\n",
    "        \n",
    "        .payment-line \x7b\n",
    "            display: flex;\n",
    "            justify-content: space-between;\n",
    "            margin-bottom: 0px;\n",
    "        \x7d\n",
    "        \n",
    "        .consumer \x7b\n",
    "            margin-bottom: 4px;\n",
    "            font-size: 10px;\n",
    "        \x7d\n",
    "        \n",
    "        .nfc-info \x7b\n",
    "            margin-bottom: 4px;\n",
    "            font-size: 10px;\n",
    "        \x7d\n",
    "        \n",
    "        .footer \x7b\n",
    "            text-align: center;\n",
    "            font-size: 10px;\n",
    "            margin-bottom: 4px;\n",
    "        \x7d\n",
    "        \n",
    "        .key \x7b\n",
    "            word-break: break-all;\n",
    "            font-size: 9px;\n",
    "            margin: 2px 0;\n",
    "            text-align: center;\n",
    "        \x7d\n",
    "        \n",
    "        .qr-code \x7b\n",
    "            text-align: center;\n",
    "            padding: 2px;\n",
    "            margin-top: 4px;\n",
    "        \x7d\n",
    "        \n",
    "        .qr-code img \x7b\n",
    "            width: 20mm;\n",
    "            height: 20mm;\n",
    "            border: 1px solid #ddd;\n",
    "        \x7d\n",
    "        \n",
    "        .qr-text \x7b\n",
    "            font-size: 9px;\n",
    "            margin-top: 1px;\n",
    "            color: #666;\n",
    "        \x7d\n",
    "    </style>\n",
    "</head>\n",
    "<body>\n",
    "    <div class=\"danfe\">\n",
    "        \n",
    "        <div class=\"header\">\n",
    "            \n",
    "            <div style=\"margin-bottom: 8px;\">\n",
    "                \n",
    "            </div>\n",
    "            \n",
    "            \n",
    "            <div class=\"company-name\">"]

/-- The header: the first text node through the text node that opens the items section. -/
def headerNodes (nfe : NFeProc) : List Op :=
  [ .ok (utf8 danfeHead),
    .ok (htmlEscape nfe.NFe.InfNFe.Emit.XNome),
    .ok (utf8 "</div>\n            <div class=\"cnpj\">CNPJ: "),
    callOp "formatCNPJ" (FormatCNPJ nfe.NFe.InfNFe.Emit.CNPJ),
    .ok (utf8 "</div>\n            <div class=\"address\">\n                "),
    .ok (htmlEscape nfe.NFe.InfNFe.Emit.EnderEmit.XLgr),
    .ok (utf8 ", "),
    .ok (htmlEscape nfe.NFe.InfNFe.Emit.EnderEmit.Nro),
    .ok (utf8 "<br>\n                "),
    .ok (htmlEscape nfe.NFe.InfNFe.Emit.EnderEmit.XBairro),
    .ok (utf8 ", "),
    .ok (htmlEscape nfe.NFe.InfNFe.Emit.EnderEmit.XMun),
    .ok (utf8 "-"),
    .ok (htmlEscape nfe.NFe.InfNFe.Emit.EnderEmit.UF),
    .ok (utf8 "<br>\n                CEP: "),
    callOp "formatCEP" (FormatCEP nfe.NFe.InfNFe.Emit.EnderEmit.CEP),
    .ok (utf8 "\n            </div>\n            <div class=\"document-title\">DANFE NFC-e</div>\n            <div class=\"document-subtitle\">Documento Auxiliar da Nota Fiscal de Consumidor Eletrônica</div>\n        </div>\n\n        \n        <div class=\"section-title\">ITENS</div>\n        \n        ") ]

/-- The body of `range $index, $item := .NFe.NFe.InfNFe.Det` for one item. -/
def itemNodes (lib : Lib) (index : Nat) (item : Det) : List Bytes :=
  [ utf8 "\n        <div class=\"item\">\n            <div class=\"item-line\">\n                <span class=\"item-code\">",
    htmlEscape (sprintf02d (add index 1)),
    utf8 " - ",
    htmlEscape item.Prod.CProd,
    utf8 "</span>\n                <span class=\"item-values\">",
    htmlEscape (FormatQuantity lib item.Prod.QCom),
    htmlEscape item.Prod.UCom,
    utf8 " x ",
    htmlEscape (FormatCurrency lib item.Prod.VUnCom),
    utf8 " = ",
    htmlEscape (FormatCurrency lib item.Prod.VProd),
    utf8 "</span>\n            </div>\n            <div class=\"item-desc\">",
    htmlEscape item.Prod.XProd,
    utf8 "</div>\n        </div>\n        " ]

/-- The items section: the `range` over the line items, indices counted from 0. -/
def itemsNodes (lib : Lib) (det : List Det) : List Bytes :=
  (det.enum.map (fun p => itemNodes lib p.1 p.2)).flatten

/-- The totals section: from the text node after the items loop through the text node
that opens the payment section. -/
def totalsNodes (lib : Lib) (nfe : NFeProc) : List Bytes :=
  [ utf8 "\n        \n\n        \n        <div class=\"section-title\">TOTAIS</div>\n        <div class=\"totals\">\n            <div class=\"total-line\">\n                <span>Qtde itens:</span>\n                <span>",
    htmlEscape (decimal nfe.NFe.InfNFe.Det.length),
    utf8 "</span>\n            </div>\n            <div class=\"total-line\">\n                <span>Valor total:</span>\n                <span>",
    htmlEscape (FormatCurrency lib nfe.NFe.InfNFe.Total.ICMSTot.VProd),
    utf8 "</span>\n            </div>\n            " ] ++
  (if tmplGt nfe.NFe.InfNFe.Total.ICMSTot.VDesc Float64.zero then
    [ utf8 "\n            \n            \n            <div class=\"total-line\">\n                <span>Desconto:</span>\n                <span>",
      htmlEscape (FormatCurrency lib nfe.NFe.InfNFe.Total.ICMSTot.VDesc),
      utf8 "</span>\n            </div>\n            " ]
   else []) ++
  [ utf8 "\n            " ] ++
  (if tmplGt nfe.NFe.InfNFe.Total.ICMSTot.VOutro Float64.zero then
    [ utf8 "\n            <div class=\"total-line\">\n                <span>Outros valores:</span>\n                <span>",
      htmlEscape (FormatCurrency lib nfe.NFe.InfNFe.Total.ICMSTot.VOutro),
      utf8 "</span>\n            </div>\n            " ]
   else []) ++
  [ utf8 "\n            \n            <div class=\"total-line total-final\">\n                <span>TOTAL A PAGAR:</span>\n                <span>",
    htmlEscape (FormatCurrency lib nfe.NFe.InfNFe.Total.ICMSTot.VNF),
    utf8 "</span>\n            </div>\n        </div>\n\n        \n        <div class=\"section-title\">PAGAMENTO</div>\n        <div class=\"payment\">\n            " ]

/-- The body of `range .NFe.NFe.InfNFe.Pag.DetPag` for one payment-detail entry. -/
def paymentLineNodes (lib : Lib) (detPag : DetPag) : List Bytes :=
  [ utf8 "\n            <div class=\"payment-line\">\n                <span>",
    htmlEscape (GetPaymentMethodDescription detPag.TPag),
    utf8 ":</span>\n                <span>",
    htmlEscape (FormatCurrency lib detPag.VPag),
    utf8 "</span>\n            </div>\n            " ]

/-- The payment section: the `range` over the payment details, the change line, and the
text node that closes the section and opens the consumer section. -/
def paymentNodes (lib : Lib) (nfe : NFeProc) : List Bytes :=
  (nfe.NFe.InfNFe.Pag.DetPag.map (paymentLineNodes lib)).flatten ++
  [ utf8 "\n            " ] ++
  (if tmplGt nfe.NFe.InfNFe.Pag.VTroco Float64.zero then
    [ utf8 "\n            <div class=\"payment-line\">\n                <span>Troco:</span>\n                <span>",
      htmlEscape (FormatCurrency lib nfe.NFe.InfNFe.Pag.VTroco),
      utf8 "</span>\n            </div>\n            " ]
   else []) ++
  [ utf8 "\n        </div>\n\n        \n        <div class=\"section-title\">CONSUMIDOR</div>\n        <div class=\"consumer\">\n            " ]

/-- The consumer section: `if .NFe.NFe.InfNFe.Dest` (a pointer is true when it is not nil)
with its two branches. -/
def consumerNodes (nfe : NFeProc) : List Bytes :=
  match nfe.NFe.InfNFe.Dest with
  | some dest =>
    [ utf8 "\n                ",
      htmlEscape dest.XNome,
      utf8 "\n            " ]
  | none =>
    [ utf8 "\n                CONSUMIDOR NÃO IDENTIFICADO\n            " ]

/-- The document data: number, series, issue date, protocol, authorization date, access
key and the additional information (`if` on a string is true when it is not empty). -/
def infoNodes (lib : Lib) (nfe : NFeProc) : List Bytes :=
  [ utf8 "\n        </div>\n\n        \n        <div class=\"nfc-info\">\n            NFC-e Nº ",
    htmlEscape nfe.NFe.InfNFe.Ide.NNF,
    utf8 " Série ",
    htmlEscape nfe.NFe.InfNFe.Ide.Serie,
    utf8 "<br>\n            Emissão: ",
    htmlEscape (formatDate lib nfe.NFe.InfNFe.Ide.DHEmi),
    utf8 "\n        </div>\n\n        \n        <div class=\"section-title\">DADOS DA NFC-e</div>\n        <div class=\"footer\">\n            Protocolo: ",
    htmlEscape nfe.ProtNFe.InfProt.NProt,
    utf8 "<br>\n            Autorização: ",
    htmlEscape (formatDate lib nfe.ProtNFe.InfProt.DhRecbto),
    utf8 "<br>\n            <div class=\"key\">",
    htmlEscape (formatKey nfe.GetChaveAcesso),
    utf8 "</div>\n        \n\n        " ] ++
  (match nfe.NFe.InfNFe.InfAdic with
   | some infAdic =>
     [ utf8 "\n            " ] ++
     (if infAdic.InfCpl ≠ [] then
       [ utf8 "\n                <div style=\"margin-top: 8px; font-size: 10px;\">\n                    <strong>Informações de interesse do contribuinte:</strong><br>\n                    ",
         htmlEscape infAdic.InfCpl,
         utf8 "\n                </div>\n                \n            " ]
      else []) ++
     [ utf8 "\n        " ]
   | none => []) ++
  [ utf8 "\n        </div>\n        \n        " ]

/-- The QR section (`if .NFe.GetQRCode`) and the closing text node. -/
def qrNodes (lib : Lib) (nfe : NFeProc) : List Bytes :=
  (if nfe.GetQRCode ≠ [] then
    [ utf8 "\n            \n            <div class=\"qr-code\">\n                ",
      generateQRCodeHTML lib nfe.GetQRCode,
      utf8 "\n                <div class=\"qr-text\">Consulta via Leitor QR Code</div>\n            </div>\n            \n        " ]
   else []) ++
  [ utf8 "\n    </div>\n</body>\n</html>\n" ]

/-- The template `danfeTemplate` executed on an envelope: its writes, in order. -/
def danfeTemplate (lib : Lib) (nfe : NFeProc) : List Op :=
  headerNodes nfe ++
  (itemsNodes lib nfe.NFe.InfNFe.Det ++ totalsNodes lib nfe ++ paymentNodes lib nfe ++
    consumerNodes nfe ++ infoNodes lib nfe ++ qrNodes lib nfe).map Except.ok

/-! ## Writers and the renderer -/

/-- An `io.Writer`: the bytes it has accepted, and its behaviour on the next `Write`
(from the bytes accepted so far and the bytes offered: how many it accepts, and the error
it reports, if any). -/
structure Writer where
  written : Bytes
  accept : Bytes → Bytes → Nat × Option GoError

/-- The method `Write`. -/
def Writer.Write (w : Writer) (p : Bytes) : Writer × Option GoError :=
  let r := w.accept w.written p
  ({ w with written := w.written ++ p.take r.1 }, r.2)

/-- An empty `bytes.Buffer`: it accepts every write in full. -/
def newBuffer : Writer :=
  { written := [], accept := fun _ p => (p.length, none) }

/-- The method `Execute` of the parsed template: the nodes are written one after the
other; the first failing node or failing write stops the execution with its error. -/
def execute : List Op → Writer → Writer × Option GoError
  | [], w => (w, none)
  | .error err :: _, w => (w, some err)
  | .ok p :: rest, w =>
    match w.Write p with
    | (w1, some err) => (w1, some err)
    | (w1, none) => execute rest w1

/-- `RenderToWriter` renders the DANFE as HTML to a writer.  Parsing the constant
`danfeTemplate` does not depend on the envelope and succeeds. -/
def RenderToWriter (lib : Lib) (nfe : NFeProc) (writer : Writer) : Writer × Option GoError :=
  match execute (danfeTemplate lib nfe) writer with
  | (w1, some err) => (w1, some (errorfW "erro ao executar template: " err))
  | (w1, none) => (w1, none)

/-! ## PDF bridge (`converter/pdf.go`) -/

/-- A `PDFConverter`; the HTTP client with its fixed timeout is part of the library. -/
structure PDFConverter where
  gotenbergURL : Bytes

/-- `NewPDFConverter` reads the endpoint from the environment, with a default. -/
def NewPDFConverter (lib : Lib) : PDFConverter :=
  let gotenbergURL := lib.getenv (utf8 "GOTENBERG_URL")
  if gotenbergURL = utf8 "" then { gotenbergURL := utf8 "https://demo.gotenberg.dev" }
  else { gotenbergURL := gotenbergURL }

/-- `ConvertHTMLToPDF` posts the HTML to Gotenberg and returns the PDF.  The multipart
body is written to a `bytes.Buffer`, whose writes do not fail. -/
def ConvertHTMLToPDF (lib : Lib) (c : PDFConverter) (htmlContent : Bytes) :
    Except GoError Bytes :=
  let url := c.gotenbergURL ++ utf8 "/forms/chromium/convert/html"
  match lib.httpNewRequest url with
  | some err => .error (errorfW "erro ao criar requisição: " err)
  | none =>
    match lib.httpPostForm url (utf8 "files", utf8 "index.html", htmlContent)
        [ (utf8 "paperWidth", utf8 "3.15in"),
          (utf8 "singlePage", utf8 "true"),
          (utf8 "marginTop", utf8 "0"),
          (utf8 "marginBottom", utf8 "0"),
          (utf8 "marginLeft", utf8 "0"),
          (utf8 "marginRight", utf8 "0"),
          (utf8 "printBackground", utf8 "true"),
          (utf8 "scale", utf8 "1.0") ] with
    | .error err => .error (errorfW "erro ao executar requisição: " err)
    | .ok resp =>
      if resp.StatusCode ≠ 200 then
        .error (.plain (utf8 "erro na API do Gotenberg (status " ++ decimal resp.StatusCode ++
          utf8 "): " ++ resp.body))
      else
        match resp.readErr with
        | some err => .error (errorfW "erro ao ler PDF: " err)
        | none =>
          if resp.body.length = 0 then .error (.plain (utf8 "PDF gerado está vazio"))
          else .ok resp.body

/-! ## Generator (`nfce.go`) -/

/-- The output formats, values of the string type `Format`. -/
abbrev Format := Bytes

/-- The constant `FormatHTML`. -/
def FormatHTML : Format := utf8 "html"

/-- The constant `FormatPDF`. -/
def FormatPDF : Format := utf8 "pdf"

/-- The options of the generator. -/
structure GenerateOptions where
  Format : Format := []
deriving DecidableEq, Repr

/-- The generator: it holds the decoded envelope. -/
structure Generator where
  nfe : NFeProc
deriving DecidableEq, Repr

/-- `NewGenerator` creates a generator from the XML content. -/
def NewGenerator (lib : Lib) (xmlContent : Bytes) : Except GoError Generator :=
  match ParseXML lib xmlContent with
  | .error err => .error (errorfW "erro ao fazer parse do XML: " err)
  | .ok nfe => .ok { nfe := nfe }

/-- The method `generateHTML`. -/
def Generator.generateHTML (lib : Lib) (g : Generator) (writer : Writer) :
    Writer × Option GoError :=
  RenderToWriter lib g.nfe writer

/-- The method `generatePDF`: HTML into a buffer, conversion, then one write of the PDF. -/
def Generator.generatePDF (lib : Lib) (g : Generator) (writer : Writer) :
    Writer × Option GoError :=
  match RenderToWriter lib g.nfe newBuffer with
  | (_, some err) => (writer, some (errorfW "erro ao renderizar HTML: " err))
  | (htmlBuffer, none) =>
    match ConvertHTMLToPDF lib (NewPDFConverter lib) htmlBuffer.written with
    | .error err => (writer, some (errorfW "erro ao converter para PDF: " err))
    | .ok pdfBytes => writer.Write pdfBytes

/-- `GenerateToWriter` generates the DANFE and writes it to the writer. -/
def Generator.GenerateToWriter (lib : Lib) (g : Generator) (writer : Writer)
    (options : GenerateOptions) : Writer × Option GoError :=
  if options.Format = FormatHTML then g.generateHTML lib writer
  else if options.Format = FormatPDF then g.generatePDF lib writer
  else (writer, some (.plain (utf8 "formato não suportado: " ++ options.Format)))

/-- The method `IsNFCe` of the generator. -/
def Generator.IsNFCe (g : Generator) : Bool :=
  g.nfe.IsNFCe

/-- The method `GetNFe`. -/
def Generator.GetNFe (g : Generator) : NFeProc :=
  g.nfe

/-! ## Entry points (`danfe.go`) -/

/-- The options of `GenerateDANFE`; the functions receive a pointer to them, `none` when
the pointer is nil. -/
structure Options where
  Format : Bytes := []
deriving DecidableEq, Repr

/-- The error returned for a document that is not an NFC-e. -/
def errNotNFCe : GoError :=
  .plain (utf8 "apenas NFC-e (modelo 65) é suportada atualmente")

/-- The error returned for an output format that is neither `html` nor `pdf`. -/
def errUnsupportedFormat (format : Bytes) : GoError :=
  .plain (utf8 "formato não suportado: " ++ format ++ utf8 ". Use \x27html\x27 ou \x27pdf\x27")

/-- The defaulting of the options: a nil pointer is replaced by a fresh value with format
`html`, which the caller does not see; an empty `Format` is overwritten with `html` in the
value the caller passed.  The result is the value the function goes on with, and the
caller's value after the assignment. -/
def defaultOptions (options : Option Options) : Options × Option Options :=
  match options with
  | none => ({ Format := utf8 "html" }, none)
  | some o =>
    if o.Format = utf8 "" then ({ o with Format := utf8 "html" }, some { o with Format := utf8 "html" })
    else (o, some o)

deriving instance DecidableEq for Except

/-- What `GenerateDANFE` leaves behind: its two results (the bytes, or the error with nil
bytes) and the caller's options after the call. -/
structure Generated where
  result : Except GoError Bytes
  options : Option Options
deriving DecidableEq, Repr

/-- What `WriteDANFE` leaves behind: its result, the writer, and the caller's options. -/
structure Wrote where
  err : Option GoError
  writer : Writer
  options : Option Options

/-- The `switch options.Format` of the entry points: the format handed to the generator,
or `none` in the `default` case. -/
def convertFormat (format : Bytes) : Option Format :=
  if format = utf8 "html" then some FormatHTML
  else if format = utf8 "pdf" then some FormatPDF
  else none

/-- `GenerateDANFE` generates a DANFE from the XML of the NF-e. -/
def GenerateDANFE (lib : Lib) (xmlContent : Bytes) (options : Option Options) : Generated :=
  match NewGenerator lib xmlContent with
  | .error err => { result := .error (errorfW "erro ao criar gerador: " err), options := options }
  | .ok generator =>
    if !generator.IsNFCe then { result := .error errNotNFCe, options := options }
    else
      let opts := defaultOptions options
      match convertFormat opts.1.Format with
      | none => { result := .error (errUnsupportedFormat opts.1.Format), options := opts.2 }
      | some format =>
        match generator.GenerateToWriter lib newBuffer { Format := format } with
        | (_, some err) => { result := .error err, options := opts.2 }
        | (buf, none) => { result := .ok buf.written, options := opts.2 }

/-- `WriteDANFE` generates a DANFE and writes it to an `io.Writer`. -/
def WriteDANFE (lib : Lib) (xmlContent : Bytes) (writer : Writer) (options : Option Options) :
    Wrote :=
  match NewGenerator lib xmlContent with
  | .error err =>
    { err := some (errorfW "erro ao criar gerador: " err), writer := writer, options := options }
  | .ok generator =>
    if !generator.IsNFCe then { err := some errNotNFCe, writer := writer, options := options }
    else
      let opts := defaultOptions options
      match convertFormat opts.1.Format with
      | none =>
        { err := some (errUnsupportedFormat opts.1.Format), writer := writer, options := opts.2 }
      | some format =>
        match generator.GenerateToWriter lib writer { Format := format } with
        | (w1, err) => { err := err, writer := w1, options := opts.2 }

/-! ## The internal entry points (`internal/danfe/danfe.go`)

The package `internal/danfe` has the same functions over the package `internal/nfce`.  Its
options type, there named `GenerateOptions`, has the one field `Format` and is `Options`
here. -/

/-- The package `internal/nfce` as `internal/danfe` calls it.  Its source is not among the
files embedded here, so its generator type and the three functions called are parameters. -/
structure InternalNfce where
  Generator : Type
  NewGenerator : Bytes → Except GoError Generator
  IsNFCe : Generator → Bool
  GenerateToWriter : Generator → Writer → GenerateOptions → Writer × Option GoError

namespace Internal

/-- `GenerateDANFE` of `internal/danfe`. -/
def GenerateDANFE (nfce : InternalNfce) (xmlContent : Bytes) (options : Option Options) :
    Generated :=
  match nfce.NewGenerator xmlContent with
  | .error err => { result := .error (errorfW "erro ao criar gerador: " err), options := options }
  | .ok generator =>
    if !nfce.IsNFCe generator then { result := .error errNotNFCe, options := options }
    else
      let opts := defaultOptions options
      match convertFormat opts.1.Format with
      | none => { result := .error (errUnsupportedFormat opts.1.Format), options := opts.2 }
      | some format =>
        match nfce.GenerateToWriter generator newBuffer { Format := format } with
        | (_, some err) => { result := .error err, options := opts.2 }
        | (buf, none) => { result := .ok buf.written, options := opts.2 }

/-- `WriteDANFE` of `internal/danfe`. -/
def WriteDANFE (nfce : InternalNfce) (xmlContent : Bytes) (writer : Writer)
    (options : Option Options) : Wrote :=
  match nfce.NewGenerator xmlContent with
  | .error err =>
    { err := some (errorfW "erro ao criar gerador: " err), writer := writer, options := options }
  | .ok generator =>
    if !nfce.IsNFCe generator then { err := some errNotNFCe, writer := writer, options := options }
    else
      let opts := defaultOptions options
      match convertFormat opts.1.Format with
      | none =>
        { err := some (errUnsupportedFormat opts.1.Format), writer := writer, options := opts.2 }
      | some format =>
        match nfce.GenerateToWriter generator writer { Format := format } with
        | (w1, err) => { err := err, writer := w1, options := opts.2 }

end Internal

/-! ## Files (`os`), and the functions that read or write a file (`danfe.go`, `nfce.go`) -/

/-- The files of the machine: the content of every path that exists. -/
abbrev Files := Bytes → Option Bytes

/-- The files after the file `name` got the content `content`. -/
def Files.set (files : Files) (name content : Bytes) : Files :=
  fun p => if p = name then some content else files p

/-- The operating system as the code calls it. -/
structure OS where
  /-- The error of opening a path that does not exist for reading. -/
  notExist : Bytes → GoError
  /-- The error of opening a path (to read it, or to create or truncate it), if any. -/
  denied : Bytes → Option GoError
  /-- How the open file `name` takes a write: from the bytes written so far and the bytes
  offered, how many it accepts, and the error it reports, if any. -/
  fileAccept : Bytes → Bytes → Bytes → Nat × Option GoError

/-- `os.ReadFile`. -/
def ReadFile (os : OS) (files : Files) (name : Bytes) : Except GoError Bytes :=
  match files name with
  | none => .error (os.notExist name)
  | some content =>
    match os.denied name with
    | some err => .error err
    | none => .ok content

/-- `os.Create`: the file is created, or truncated when it exists. -/
def Create (os : OS) (files : Files) (name : Bytes) : Except GoError Files :=
  match os.denied name with
  | some err => .error err
  | none => .ok (files.set name [])

/-- The file `name` just created, as an `io.Writer`. -/
def fileWriter (os : OS) (name : Bytes) : Writer :=
  { written := [], accept := os.fileAccept name }

/-- `os.WriteFile`: the file is created or truncated, then written with one `Write`. -/
def WriteFile (os : OS) (files : Files) (name data : Bytes) : Files × Option GoError :=
  match os.denied name with
  | some err => (files, some err)
  | none =>
    let r := (fileWriter os name).Write data
    (files.set name r.1.written, r.2)

/-- `NewGeneratorFromFile` creates a generator from a file. -/
def NewGeneratorFromFile (lib : Lib) (os : OS) (files : Files) (xmlPath : Bytes) :
    Except GoError Generator :=
  match ReadFile os files xmlPath with
  | .error err => .error (errorfW "erro ao ler arquivo XML: " err)
  | .ok xmlContent => NewGenerator lib xmlContent

/-- `GenerateToFile` generates the DANFE and saves it in a file: the file is created, then
the DANFE is generated into it. -/
def Generator.GenerateToFile (lib : Lib) (os : OS) (files : Files) (g : Generator)
    (outputPath : Bytes) (options : GenerateOptions) : Files × Option GoError :=
  match Create os files outputPath with
  | .error err => (files, some (errorfW "erro ao criar arquivo de saída: " err))
  | .ok files1 =>
    let r := g.GenerateToWriter lib (fileWriter os outputPath) options
    (files1.set outputPath r.1.written, r.2)

/-- What `SaveDANFE` leaves behind: its result, the files, and the caller's options. -/
structure Saved where
  err : Option GoError
  files : Files
  options : Option Options

/-- `GenerateDANFEFromFile` generates a DANFE from an XML file. -/
def GenerateDANFEFromFile (lib : Lib) (os : OS) (files : Files) (xmlFilePath : Bytes)
    (options : Option Options) : Generated :=
  match ReadFile os files xmlFilePath with
  | .error err => { result := .error (errorfW "erro ao ler arquivo XML: " err), options := options }
  | .ok xmlContent => GenerateDANFE lib xmlContent options

/-- `SaveDANFE` generates a DANFE and saves it in a file. -/
def SaveDANFE (lib : Lib) (os : OS) (files : Files) (xmlContent outputPath : Bytes)
    (options : Option Options) : Saved :=
  match GenerateDANFE lib xmlContent options with
  | { result := .error err, options := opts } => { err := some err, files := files, options := opts }
  | { result := .ok content, options := opts } =>
    match WriteFile os files outputPath content with
    | (files1, some err) =>
      { err := some (errorfW "erro ao salvar arquivo: " err), files := files1, options := opts }
    | (files1, none) => { err := none, files := files1, options := opts }

/-- `SaveDANFEFromFile` generates a DANFE from an XML file and saves it in a file. -/
def SaveDANFEFromFile (lib : Lib) (os : OS) (files : Files)
    (xmlFilePath outputPath : Bytes) (options : Option Options) : Saved :=
  match ReadFile os files xmlFilePath with
  | .error err =>
    { err := some (errorfW "erro ao ler arquivo XML: " err), files := files, options := options }
  | .ok xmlContent => SaveDANFE lib os files xmlContent outputPath options

namespace Internal

/-- `SaveDANFE` of `internal/danfe`. -/
def SaveDANFE (nfce : InternalNfce) (os : OS) (files : Files) (xmlContent outputPath : Bytes)
    (options : Option Options) : Saved :=
  match GenerateDANFE nfce xmlContent options with
  | { result := .error err, options := opts } => { err := some err, files := files, options := opts }
  | { result := .ok content, options := opts } =>
    match WriteFile os files outputPath content with
    | (files1, some err) =>
      { err := some (errorfW "erro ao salvar arquivo: " err), files := files1, options := opts }
    | (files1, none) => { err := none, files := files1, options := opts }

/-- `SaveDANFEFromFile` of `internal/danfe`. -/
def SaveDANFEFromFile (nfce : InternalNfce) (os : OS) (files : Files)
    (xmlFilePath outputPath : Bytes) (options : Option Options) : Saved :=
  match ReadFile os files xmlFilePath with
  | .error err =>
    { err := some (errorfW "erro ao ler arquivo XML: " err), files := files, options := options }
  | .ok xmlContent => SaveDANFE nfce os files xmlContent outputPath options

end Internal

/-! ## Example values -/

/-- The function `fmt.Sprintf("%.2f", v)` on the model of `float64`: the exact value is
rounded to a whole number of hundredths, ties to even. -/
def fixed2 : Float64 → Bytes
  | .nan => utf8 "NaN"
  | .inf negative => if negative then utf8 "-Inf" else utf8 "+Inf"
  | .finite negative mantissa exponent =>
    let num := if exponent < 0 then mantissa * 100 else mantissa * 2 ^ exponent.toNat * 100
    let den := if exponent < 0 then 2 ^ (-exponent).toNat else 1
    let q := num / den
    let r := num % den
    let h := if den < 2 * r ∨ (2 * r = den ∧ q % 2 = 1) then q + 1 else q
    (if negative then utf8 "-" else []) ++ decimal (h / 100) ++ utf8 "." ++ sprintf02d (h % 100)

/-- A library for examples: the decoder returns `decoded` for every input, `%.2f` is
`fixed2`, and the remaining functions return fixed values. -/
def exampleLib (decoded : Except GoError NFeProc) : Lib where
  xmlUnmarshal := fun _ => decoded
  sprintfFixed2 := fixed2
  formatFloat := fun _ => utf8 "1"
  timeFormat := fun _ _ => utf8 "01/01/2024 00:00:00"
  qrcodeEncode := fun _ => .error (.plain (utf8 "qrcode: unavailable"))
  base64Encode := fun _ => []
  getenv := fun _ => []
  httpNewRequest := fun _ => none
  httpPostForm := fun _ _ _ => .error (.plain (utf8 "connection refused"))

/-- An envelope whose model code is 55 (an NF-e, not an NFC-e). -/
def nfeModel55 : NFeProc :=
  { NFe := { InfNFe := { Ide := { Mod := utf8 "55" } } } }

/-- An envelope whose model code is 65 and whose other fields are zero values. -/
def nfeModel65 : NFeProc :=
  { NFe := { InfNFe := { Ide := { Mod := utf8 "65" } } } }

/-- The payment-method codes that `GetPaymentMethodDescription` recognises. -/
def recognisedCodes : List Bytes :=
  [utf8 "01", utf8 "02", utf8 "03", utf8 "04", utf8 "05", utf8 "10", utf8 "11", utf8 "12",
   utf8 "13", utf8 "14", utf8 "15", utf8 "16", utf8 "17", utf8 "18", utf8 "19", utf8 "90",
   utf8 "99"]

/-- The table of payment-method codes and their descriptions. -/
def paymentTable : List (String × String) :=
  [("01", "Dinheiro"), ("02", "Cheque"), ("03", "Cartão de Crédito"),
   ("04", "Cartão de Débito"), ("05", "Crédito Loja"), ("10", "Vale Alimentação"),
   ("11", "Vale Refeição"), ("12", "Vale Presente"), ("13", "Vale Combustível"),
   ("14", "Duplicata Mercantil"), ("15", "Boleto Bancário"), ("16", "Depósito Bancário"),
   ("17", "Pagamento Instantâneo (PIX)"), ("18", "Transferência bancária, Carteira Digital"),
   ("19", "Programa de fidelidade, Cashback, Crédito Virtual"), ("90", "Sem pagamento"),
   ("99", "Outros")]

/-! ## Reading rendered HTML

To state what a rendered section shows, its bytes are read back as HTML: a sequence of
segments, each a tag (the bytes between `<` and `>`) with the text that follows it up to
the next tag.  The text before the first tag is the segment of the empty tag. -/

/-- A tag and the text that follows it. -/
structure Seg where
  tag : Bytes
  text : Bytes
deriving DecidableEq, Repr

/-- The reader: the segments completed so far, the tag of the segment being read, the
bytes gathered for the current tag or text, and whether it is inside a tag. -/
structure Reader where
  segs : List Seg
  tag : Bytes
  cur : Bytes
  inTag : Bool
deriving DecidableEq, Repr

/-- The reader before the first byte. -/
def Reader.init : Reader :=
  { segs := [], tag := [], cur := [], inTag := false }

/-- One byte: `<` (60) closes the text of the current segment and opens a tag, `>` (62)
closes the tag; every other byte is gathered. -/
def Reader.step (r : Reader) (b : Nat) : Reader :=
  if r.inTag then
    if b = 62 then { segs := r.segs, tag := r.cur, cur := [], inTag := false }
    else { segs := r.segs, tag := r.tag, cur := r.cur ++ [b], inTag := true }
  else
    if b = 60 then { segs := r.segs ++ [⟨r.tag, r.cur⟩], tag := [], cur := [], inTag := true }
    else { segs := r.segs, tag := r.tag, cur := r.cur ++ [b], inTag := false }

/-- The reader run over a sequence of bytes. -/
def Reader.run (r : Reader) (bs : Bytes) : Reader :=
  bs.foldl Reader.step r

/-- The segments at the end of the input. -/
def Reader.finish (r : Reader) : List Seg :=
  if r.inTag then r.segs ++ [⟨r.cur, []⟩] else r.segs ++ [⟨r.tag, r.cur⟩]

/-- The segments of a rendered run of HTML. -/
def htmlSegments (out : Bytes) : List Seg :=
  (Reader.init.run out).finish

/-- The texts that follow the tags named `tag`, in order. -/
def textsAfter (tag : Bytes) (segs : List Seg) : List Bytes :=
  (segs.filter (fun s => s.tag = tag)).map (fun s => s.text)

/-- The number of tags named `tag`. -/
def countTag (tag : Bytes) (segs : List Seg) : Nat :=
  (segs.filter (fun s => s.tag = tag)).length

/-- The reader started in text with pending segments `S` and a pending segment of tag `T`
and text `C`, in terms of the reader started at the beginning: the pending text is put in
front of the first piece of text, and the pending segments in front of the segments. -/
def Reader.shift (S : List Seg) (T C : Bytes) (r : Reader) : Reader :=
  match r.segs with
  | [] => ⟨S, T, C ++ r.cur, false⟩
  | s0 :: rest => ⟨S ++ ⟨T, C ++ s0.text⟩ :: rest, r.tag, r.cur, r.inTag⟩

/-- The bytes the escaper rewrites. -/
def escaped (b : Nat) : Prop :=
  b = 0 ∨ b = 34 ∨ b = 38 ∨ b = 39 ∨ b = 43 ∨ b = 60 ∨ b = 62

/-- The label of an item block: the number of the item, counted from 1, in decimal and
padded with zeros to two digits, then ` - ` and the product code (escaped for HTML). -/
def itemLabel (number : Nat) (item : Det) : Bytes :=
  sprintf02d number ++ utf8 " - " ++ htmlEscape item.Prod.CProd

/-- The segments of one item block, read after a pending segment of tag `T` and text `C`;
the block leaves the segment of its last tag, `/div`, pending. -/
def itemSegs (lib : Lib) (T C : Bytes) (index : Nat) (item : Det) : List Seg :=
  [ ⟨T, C ++ utf8 "\n        "⟩,
    ⟨utf8 "div class=\"item\"", utf8 "\n            "⟩,
    ⟨utf8 "div class=\"item-line\"", utf8 "\n                "⟩,
    ⟨utf8 "span class=\"item-code\"", itemLabel (index + 1) item⟩,
    ⟨utf8 "/span", utf8 "\n                "⟩,
    ⟨utf8 "span class=\"item-values\"",
      htmlEscape (FormatQuantity lib item.Prod.QCom) ++ htmlEscape item.Prod.UCom ++ utf8 " x " ++
        htmlEscape (FormatCurrency lib item.Prod.VUnCom) ++ utf8 " = " ++
        htmlEscape (FormatCurrency lib item.Prod.VProd)⟩,
    ⟨utf8 "/span", utf8 "\n            "⟩,
    ⟨utf8 "/div", utf8 "\n            "⟩,
    ⟨utf8 "div class=\"item-desc\"", htmlEscape item.Prod.XProd⟩,
    ⟨utf8 "/div", utf8 "\n        "⟩ ]

/-- The segments of the item blocks of a list of items numbered from `index`. -/
def itemsSegs (lib : Lib) (T C : Bytes) (index : Nat) : List Det → List Seg
  | [] => []
  | item :: rest =>
    itemSegs lib T C index item ++ itemsSegs lib (utf8 "/div") (utf8 "\n        ") (index + 1) rest

/-- The reader after the item blocks: unchanged when there is no item. -/
def afterItems (S : List Seg) (T C : Bytes) (lib : Lib) (index : Nat) (det : List Det) :
    Reader :=
  match det with
  | [] => ⟨S, T, C, false⟩
  | _ :: _ => ⟨S ++ itemsSegs lib T C index det, utf8 "/div", utf8 "\n        ", false⟩

/-- The segments of one payment line, read after a pending segment of tag `T` and text
`C`; the line leaves the segment of its last tag, `/div`, pending. -/
def paymentLineSegs (lib : Lib) (T C : Bytes) (detPag : DetPag) : List Seg :=
  [ ⟨T, C ++ utf8 "\n            "⟩,
    ⟨utf8 "div class=\"payment-line\"", utf8 "\n                "⟩,
    ⟨utf8 "span", GetPaymentMethodDescription detPag.TPag ++ utf8 ":"⟩,
    ⟨utf8 "/span", utf8 "\n                "⟩,
    ⟨utf8 "span", htmlEscape (FormatCurrency lib detPag.VPag)⟩,
    ⟨utf8 "/span", utf8 "\n            "⟩ ]

/-- The segments of the payment lines of a list of payment details. -/
def paymentLinesSegs (lib : Lib) (T C : Bytes) : List DetPag → List Seg
  | [] => []
  | detPag :: rest =>
    paymentLineSegs lib T C detPag ++ paymentLinesSegs lib (utf8 "/div") (utf8 "\n            ") rest

/-- The reader after the payment lines: unchanged when there is no payment detail. -/
def afterPaymentLines (S : List Seg) (T C : Bytes) (lib : Lib) (detPag : List DetPag) :
    Reader :=
  match detPag with
  | [] => ⟨S, T, C, false⟩
  | _ :: _ => ⟨S ++ paymentLinesSegs lib T C detPag, utf8 "/div", utf8 "\n            ", false⟩

/-- The two texts of a payment line: the description of the method followed by a colon,
and the amount. -/
def paymentLineTexts (lib : Lib) (detPag : DetPag) : List Bytes :=
  [GetPaymentMethodDescription detPag.TPag ++ utf8 ":", htmlEscape (FormatCurrency lib detPag.VPag)]

/-- The value of a sequence of decimal digits. -/
def digitsValue (digits : Bytes) : Nat :=
  digits.foldl (fun acc b => acc * 10 + (b - 48)) 0

/-- Every description `GetPaymentMethodDescription` can return. -/
def allDescriptions : List Bytes :=
  utf8 "Não informado" :: paymentTable.map (fun p => utf8 p.2)

/-- An envelope of model 65 whose discount total is NaN, as decoded from
`<vDesc>NaN</vDesc>` (the decoder reads floats with `strconv.ParseFloat`). -/
def nfeDiscountNaN : NFeProc :=
  { NFe := { InfNFe := { Ide := { Mod := utf8 "65" },
                         Total := { ICMSTot := { VDesc := .nan } } } } }

/-- An envelope of model 65 with no payment detail whose change value is NaN, as decoded
from `<vTroco>NaN</vTroco>`. -/
def nfeChangeNaN : NFeProc :=
  { NFe := { InfNFe := { Ide := { Mod := utf8 "65" }, Pag := { VTroco := .nan } } } }

/-- The package `nfce` of `nfce.go` in the place of `internal/nfce`, for examples. -/
def publicNfce (lib : Lib) : InternalNfce where
  Generator := Generator
  NewGenerator := NewGenerator lib
  IsNFCe := Generator.IsNFCe
  GenerateToWriter := Generator.GenerateToWriter lib

/-- The bytes `part` stand in what `RenderToWriter` writes into an empty buffer, and the
rendering succeeds. -/
def rendersWithin (lib : Lib) (nfe : NFeProc) (part : Bytes) : Prop :=
  ∃ pre post, RenderToWriter lib nfe newBuffer =
    ({ written := pre ++ part ++ post, accept := newBuffer.accept }, none)

/-! ## Definitions for the properties of the renderer, the converter and the files -/

/-- The rendered HTML of an envelope: what `RenderToWriter` writes into an empty buffer. -/
def rendered (lib : Lib) (nfe : NFeProc) : Bytes :=
  (RenderToWriter lib nfe newBuffer).1.written

/-- An operating system for examples: every path can be opened, every write is taken. -/
def exampleOS : OS where
  notExist := fun name => .plain (utf8 "open " ++ name ++ utf8 ": no such file or directory")
  denied := fun _ => none
  fileAccept := fun _ _ p => (p.length, none)

/-- The files for examples: one file, `out.html`, with the content `old`. -/
def exampleFiles : Files :=
  fun p => if p = utf8 "out.html" then some (utf8 "old") else none

/-- A library for examples whose conversion endpoint answers every request with `resp`. -/
def respondingLib (resp : HTTPResponse) : Lib :=
  { exampleLib (.ok nfeModel65) with httpPostForm := fun _ _ _ => .ok resp }

/-- The URL `ConvertHTMLToPDF` posts to. -/
def convertURL (c : PDFConverter) : Bytes :=
  c.gotenbergURL ++ utf8 "/forms/chromium/convert/html"

/-- The consecutive groups of four bytes of a string, the last one of one to four bytes;
`fuel` bounds their number. -/
def groupsOf4Aux : Nat → Bytes → List Bytes
  | 0, _ => []
  | fuel + 1, l =>
    if l.length ≤ 4 then (if l = [] then [] else [l])
    else l.take 4 :: groupsOf4Aux fuel (l.drop 4)

/-- The consecutive groups of four bytes of a string. -/
def groupsOf4 (l : Bytes) : List Bytes :=
  groupsOf4Aux l.length l

/-- The bytes of a string from the offset `i` on, with a space in front of every byte whose
offset is a positive multiple of four. -/
def spaced : Nat → Bytes → Bytes
  | _, [] => []
  | i, b :: rest => (if i > 0 ∧ i % 4 = 0 then [32] else []) ++ b :: spaced (i + 1) rest

/-- The reader of tags only: the tags completed so far, whether it is inside a tag, and
the bytes gathered for the tag being read. -/
structure TagReader where
  tags : List Bytes
  inTag : Bool
  cur : Bytes
deriving DecidableEq, Repr

/-- One byte: `<` opens a tag, `>` closes the tag being read; text is skipped. -/
def TagReader.step (r : TagReader) (b : Nat) : TagReader :=
  if r.inTag then
    if b = 62 then { tags := r.tags ++ [r.cur], inTag := false, cur := [] }
    else { tags := r.tags, inTag := true, cur := r.cur ++ [b] }
  else
    if b = 60 then { tags := r.tags, inTag := true, cur := [] }
    else { tags := r.tags, inTag := false, cur := [] }

/-- The tag reader run over a sequence of bytes. -/
def TagReader.run (r : TagReader) (bs : Bytes) : TagReader :=
  bs.foldl TagReader.step r

/-- The tags that stand in a run of bytes read from outside a tag. -/
def tagsIn (c : Bytes) : List Bytes :=
  (TagReader.run ⟨[], false, []⟩ c).tags

/-- Whether a run of bytes read from outside a tag ends outside a tag. -/
def closes (c : Bytes) : Bool :=
  !(TagReader.run ⟨[], false, []⟩ c).inTag

/-- What the tag reader has read when the reader of segments is in the state `r`. -/
def Reader.tagView (r : Reader) : TagReader :=
  { tags := r.segs.map (fun s => s.tag) ++ (if r.inTag then [] else [r.tag]),
    inTag := r.inTag,
    cur := if r.inTag then r.cur else [] }

/-- Whether a tag belongs to the QR section: the `div` of the section, the `div` of the
caption, or an `img` element. -/
def isQRTag (t : Bytes) : Bool :=
  t == utf8 "div class=\"qr-code\"" || t == utf8 "div class=\"qr-text\"" ||
    (utf8 "img").isPrefixOf t

/-- A chunk of the rendering that ends outside a tag and holds no tag of the QR section. -/
def plainChunk (c : Bytes) : Bool :=
  closes c && (tagsIn c).all (fun t => !isQRTag t)

/-- The alphabet of the standard base64 encoding. -/
def base64Alphabet : Bytes :=
  utf8 "ABCDEFGHIJKLMNOPQRSTUVWXYZabcdefghijklmnopqrstuvwxyz0123456789+/"

/-- The base64 character of a 6-bit value. -/
def base64Char (n : Nat) : Nat :=
  base64Alphabet.getD n 0

/-- The standard base64 encoding with padding, for examples. -/
def base64Std : Bytes → Bytes
  | a :: b :: c :: rest =>
    [base64Char (a / 4), base64Char (a % 4 * 16 + b / 16), base64Char (b % 16 * 4 + c / 64),
      base64Char (c % 64)] ++ base64Std rest
  | [a, b] => [base64Char (a / 4), base64Char (a % 4 * 16 + b / 16), base64Char (b % 16 * 4), 61]
  | [a] => [base64Char (a / 4), base64Char (a % 4 * 16), 61, 61]
  | [] => []

/-- The first bytes of a PNG file, standing for the image of an example. -/
def examplePNG : Bytes := [137, 80, 78, 71, 13, 10, 26, 10]

/-- A library for examples of the QR section: the encoder rejects a payload of more than
2331 bytes (the capacity of the largest symbol at medium error correction) and returns
`examplePNG` otherwise; base64 is the standard encoding. -/
def qrLib : Lib :=
  { exampleLib (.ok nfeModel65) with
    qrcodeEncode := fun content =>
      if 2331 < content.length then .error (.plain (utf8 "content too long to encode"))
      else .ok examplePNG
    base64Encode := base64Std }

/-- An NFC-e whose recipient record holds a CPF and no name. -/
def nfeCpfOnly : NFeProc :=
  { NFe := { InfNFe := { Ide := { Mod := utf8 "65" },
                         Dest := some { CPF := utf8 "12345678901" } } } }

/-- An NFC-e with a QR-code payload. -/
def nfeWithQR : NFeProc :=
  { NFe := { InfNFe := { Ide := { Mod := utf8 "65" } },
             InfNFeSupl := some { QrCode := utf8 "https://www.sefaz.rs.gov.br/NFCE/NFCE-COM.aspx?p=1" } } }

/-- An NFC-e whose QR-code payload has 2332 bytes. -/
def nfeLongQR : NFeProc :=
  { NFe := { InfNFe := { Ide := { Mod := utf8 "65" } },
             InfNFeSupl := some { QrCode := List.replicate 2332 97 } } }

/-- Whether the first two steps of an entry point pass: the generator is created and it
reports an NFC-e. -/
def passesChecks {α : Type} (r : Except GoError α) (isNFCe : α → Bool) : Bool :=
  match r with
  | .error _ => false
  | .ok g => isNFCe g

/-- The caller's options after a call of an entry point: the defaulting is reached only
when the first two steps pass. -/
def callerOptions (passed : Bool) (options : Option Options) : Option Options :=
  if passed then (defaultOptions options).2 else options

/-- A library for the examples of decoding.  As `xml.Unmarshal` does, the decoder returns
the envelope whose fields are all zero values for a root element `nfeProc` without
children (an element that is absent leaves its field at the zero value), and reports a
root element of another name as an error; every other input of the examples is the empty
input, for which it reports `EOF`. -/
def decoderLib : Lib :=
  { exampleLib (.ok {}) with
    xmlUnmarshal := fun xmlContent =>
      if xmlContent = utf8 "<nfeProc></nfeProc>" then .ok {}
      else if xmlContent = utf8 "<NFe></NFe>" then
        .error (.plain (utf8 "expected element type <nfeProc> but have <NFe>"))
      else .error (.plain (utf8 "EOF")) }

/-- The number of hundredths that `fixed2` prints for the magnitude `mantissa * 2^exponent`:
the magnitude times 100, rounded to the nearest whole number, ties to even. -/
def roundedHundredths (mantissa : Nat) (exponent : Int) : Nat :=
  let num := if exponent < 0 then mantissa * 100 else mantissa * 2 ^ exponent.toNat * 100
  let den := if exponent < 0 then 2 ^ (-exponent).toNat else 1
  let q := num / den
  let r := num % den
  if den < 2 * r ∨ (2 * r = den ∧ q % 2 = 1) then q + 1 else q

/-! ## A model of `strconv.FormatFloat(v, 'f', -1, 64)`

The function prints the shortest sequence of decimal digits that reads back as the same
`float64` (of the sequences of that length, the nearest to the value), in positional
notation.  The model works on exact values: it puts the value in the form in which
`float64` stores it, takes the interval of the numbers that round to it, looks for the
largest power of ten with a multiple in the interval, and prints that multiple. -/

/-- Halving of a mantissa of 54 bits or more, as long as it is even. -/
def shiftDown : Nat → Nat → Int → Nat × Int
  | 0, m, e => (m, e)
  | fuel + 1, m, e =>
    if 2 ^ 53 ≤ m ∧ m % 2 = 0 then shiftDown fuel (m / 2) (e + 1) else (m, e)

/-- Doubling of a mantissa of less than 53 bits, down to the least exponent, -1074. -/
def shiftUp : Nat → Nat → Int → Nat × Int
  | 0, m, e => (m, e)
  | fuel + 1, m, e =>
    if m < 2 ^ 52 ∧ -1074 < e then shiftUp fuel (m * 2) (e - 1) else (m, e)

/-- The mantissa and the exponent of `m * 2^e` as a `float64` stores them: a mantissa of
53 bits, or of less with the exponent -1074. -/
def float64Form (m : Nat) (e : Int) : Nat × Int :=
  shiftUp 52 (shiftDown m m e).1 (shiftDown m m e).2

/-- The number of decimal places of the unit in which the bounds are counted: the unit is
`2^(E-2)` for the stored exponent `E`, written as a multiple of `10^(-P) * 2^(-P)`. -/
def scaleP (E : Int) : Nat :=
  (-(E - 2)).toNat

/-- A number of quarters of the last place of the stored form, in the common unit. -/
def inUnit (E : Int) (quarters : Nat) : Nat :=
  quarters * 2 ^ (E - 2).toNat * 10 ^ scaleP E

/-- The lower end of the interval of the numbers that round to `M * 2^E`: half way to the
value below, which is nearer when `M` is the least mantissa of its exponent. -/
def lowerBound (M : Nat) (E : Int) : Nat :=
  inUnit E (if M = 2 ^ 52 ∧ -1074 < E then 4 * M - 1 else 4 * M - 2)

/-- The value `M * 2^E` in the common unit. -/
def central (M : Nat) (E : Int) : Nat :=
  inUnit E (4 * M)

/-- The upper end of the interval: half way to the value above. -/
def upperBound (M : Nat) (E : Int) : Nat :=
  inUnit E (4 * M + 2)

/-- Whether `x` rounds to the value: inside the interval, the ends included when the
mantissa is even (a tie goes to the even mantissa). -/
def admissible (M : Nat) (E : Int) (x : Nat) : Bool :=
  if M % 2 = 0 then decide (lowerBound M E ≤ x ∧ x ≤ upperBound M E)
  else decide (lowerBound M E < x ∧ x < upperBound M E)

/-- The search for the digits: from the power `10^j` downwards, the first power with an
admissible multiple next to the value; of the two multiples next to the value the nearer
one when both are admissible, the even one on a tie.  With `j = 0` the value itself is a
multiple.  The result is the multiplier and the power. -/
def shortestAt (M : Nat) (E : Int) : Nat → Nat × Nat
  | 0 => (central M E / 2 ^ scaleP E, 0)
  | j + 1 =>
    let u := 10 ^ (j + 1) * 2 ^ scaleP E
    let dn := central M E / u
    let okdn := admissible M E (dn * u)
    let okup := admissible M E ((dn + 1) * u)
    if okdn && okup then
      if 2 * (central M E % u) < u ∨ (2 * (central M E % u) = u ∧ dn % 2 = 0) then (dn, j + 1)
      else (dn + 1, j + 1)
    else if okdn then (dn, j + 1)
    else if okup then (dn + 1, j + 1)
    else shortestAt M E j

/-- Trailing zeros of the multiplier are moved into the power. -/
def trimZeros : Nat → Nat → Nat → Nat × Nat
  | 0, d, j => (d, j)
  | fuel + 1, d, j =>
    if d % 10 = 0 ∧ d ≠ 0 then trimZeros fuel (d / 10) (j + 1) else (d, j)

/-- The shortest digits of `m * 2^e`, for `m` positive: a number `D` without trailing zero
and a power `k`, for the decimal `D * 10^k`. -/
def shortestDigits (m : Nat) (e : Int) : Nat × Int :=
  let M := (float64Form m e).1
  let E := (float64Form m e).2
  let r := shortestAt M E (decimal (upperBound M E / 2 ^ scaleP E)).length
  let t := trimZeros r.1 r.1 r.2
  (t.1, (t.2 : Int) - (scaleP E : Int))

/-- The format `%f` of `strconv` for the digits `digits` with the decimal point after `dp`
of them, with as many decimals as there are digits after the point: the whole part, padded
with zeros, or `0`; then, when digits remain, the point and the remaining digits, after
zeros when the point is in front of the digits. -/
def fmtF (digits : Bytes) (dp : Int) : Bytes :=
  (if 0 < dp then digits.take dp.toNat ++ List.replicate (dp.toNat - digits.length) 48
    else [48]) ++
  (if dp < digits.length then
    46 :: (List.replicate (-dp).toNat 48 ++ digits.drop dp.toNat)
    else [])

/-- The function `strconv.FormatFloat(v, 'f', -1, 64)` on the model of `float64`. -/
def formatFloatF : Float64 → Bytes
  | .nan => utf8 "NaN"
  | .inf negative => if negative then utf8 "-Inf" else utf8 "+Inf"
  | .finite negative m e =>
    (if negative then utf8 "-" else []) ++
      (if m = 0 then [48]
       else fmtF (decimal (shortestDigits m e).1)
         ((decimal (shortestDigits m e).1).length + (shortestDigits m e).2))

/-- The number `x` rounds to the `float64` value of stored mantissa `M` and exponent `E`:
it lies between the points half way to the values next to it (a quarter of the last place
below when `M` is the least mantissa of its exponent), the ends included when `M` is
even. -/
def roundsTo (M : Nat) (E : Int) (x : ℚ) : Prop :=
  if M % 2 = 0 then
    ((if M = 2 ^ 52 ∧ -1074 < E then 4 * M - 1 else 4 * M - 2 : Nat) : ℚ) * 2 ^ (E - 2) ≤ x ∧
      x ≤ ((4 * M + 2 : Nat) : ℚ) * 2 ^ (E - 2)
  else
    ((if M = 2 ^ 52 ∧ -1074 < E then 4 * M - 1 else 4 * M - 2 : Nat) : ℚ) * 2 ^ (E - 2) < x ∧
      x < ((4 * M + 2 : Nat) : ℚ) * 2 ^ (E - 2)

/-- A library for the examples of number formatting: `%.2f` is `fixed2` and
`strconv.FormatFloat(v, 'f', -1, 64)` is `formatFloatF`. -/
def numLib : Lib :=
  { exampleLib (.ok nfeModel65) with formatFloat := formatFloatF }

/-! ## Entry points -/

theorem NewGenerator_ok (lib : Lib) (xmlContent : Bytes) (nfe : NFeProc)
    (h : lib.xmlUnmarshal xmlContent = .ok nfe) :
    NewGenerator lib xmlContent = .ok { nfe := nfe } := by
  simp [NewGenerator, ParseXML, h]

theorem NewGenerator_error (lib : Lib) (xmlContent : Bytes) (err : GoError)
    (h : lib.xmlUnmarshal xmlContent = .error err) :
    NewGenerator lib xmlContent =
      .error (errorfW "erro ao fazer parse do XML: "
        (errorfW "erro ao fazer parse do XML: " err)) := by
  simp [NewGenerator, ParseXML, h]

theorem isNFCe_false_of_mod (nfe : NFeProc) (h : nfe.NFe.InfNFe.Ide.Mod ≠ utf8 "65") :
    (Generator.mk nfe).IsNFCe = false := by
  simp [Generator.IsNFCe, NFeProc.IsNFCe, h]

theorem isNFCe_true_of_mod (nfe : NFeProc) (h : nfe.NFe.InfNFe.Ide.Mod = utf8 "65") :
    (Generator.mk nfe).IsNFCe = true := by
  simp [Generator.IsNFCe, NFeProc.IsNFCe, h]

/-- C1: when the XML decodes to a document whose model code is not `"65"`, then for every
options value `GenerateDANFE` returns the unsupported-document-type error (and no bytes),
and `WriteDANFE` returns the same error and leaves the writer as it was; neither touches
the caller's options.  The same holds for the two functions of `internal/danfe` when the
generator of `internal/nfce` reports a document that is not an NFC-e. -/
theorem not_nfce_rejected (lib : Lib) (xmlContent : Bytes) (nfe : NFeProc)
    (options : Option Options) (writer : Writer)
    (nfce : InternalNfce) (generator : nfce.Generator)
    (hdec : lib.xmlUnmarshal xmlContent = .ok nfe)
    (hmod : nfe.NFe.InfNFe.Ide.Mod ≠ utf8 "65")
    (hgen : nfce.NewGenerator xmlContent = .ok generator)
    (hnot : nfce.IsNFCe generator = false) :
    GenerateDANFE lib xmlContent options = { result := .error errNotNFCe, options := options } ∧
    (WriteDANFE lib xmlContent writer options).err = some errNotNFCe ∧
    (WriteDANFE lib xmlContent writer options).writer = writer ∧
    (WriteDANFE lib xmlContent writer options).options = options ∧
    Internal.GenerateDANFE nfce xmlContent options =
      { result := .error errNotNFCe, options := options } ∧
    (Internal.WriteDANFE nfce xmlContent writer options).err = some errNotNFCe ∧
    (Internal.WriteDANFE nfce xmlContent writer options).writer = writer ∧
    (Internal.WriteDANFE nfce xmlContent writer options).options = options := by
  simp [GenerateDANFE, WriteDANFE, NewGenerator_ok lib xmlContent nfe hdec,
    isNFCe_false_of_mod nfe hmod, Internal.GenerateDANFE, Internal.WriteDANFE, hgen, hnot]

/-- C1, at an input: an NF-e of model 55, nil options, an empty buffer as writer. -/
theorem not_nfce_rejected_witness :
    (exampleLib (.ok nfeModel55)).xmlUnmarshal [] = .ok nfeModel55 ∧
    nfeModel55.NFe.InfNFe.Ide.Mod ≠ utf8 "65" ∧
    (publicNfce (exampleLib (.ok nfeModel55))).NewGenerator [] = .ok { nfe := nfeModel55 } ∧
    (publicNfce (exampleLib (.ok nfeModel55))).IsNFCe { nfe := nfeModel55 } = false ∧
    GenerateDANFE (exampleLib (.ok nfeModel55)) [] none =
      { result := .error errNotNFCe, options := none } ∧
    (WriteDANFE (exampleLib (.ok nfeModel55)) [] newBuffer none).err = some errNotNFCe ∧
    (WriteDANFE (exampleLib (.ok nfeModel55)) [] newBuffer none).writer = newBuffer ∧
    (WriteDANFE (exampleLib (.ok nfeModel55)) [] newBuffer none).options = none ∧
    Internal.GenerateDANFE (publicNfce (exampleLib (.ok nfeModel55))) [] none =
      { result := .error errNotNFCe, options := none } ∧
    (Internal.WriteDANFE (publicNfce (exampleLib (.ok nfeModel55))) [] newBuffer none).err =
      some errNotNFCe ∧
    (Internal.WriteDANFE (publicNfce (exampleLib (.ok nfeModel55))) [] newBuffer none).writer =
      newBuffer ∧
    (Internal.WriteDANFE (publicNfce (exampleLib (.ok nfeModel55))) [] newBuffer none).options =
      none :=
  ⟨rfl, by decide, rfl, by decide,
    not_nfce_rejected (exampleLib (.ok nfeModel55)) [] nfeModel55 none newBuffer
      (publicNfce (exampleLib (.ok nfeModel55))) { nfe := nfeModel55 } rfl (by decide) rfl
      (by decide)⟩

/-- C2, as stated, fails: with XML that does not decode (here the empty input, for which
the decoder reports `EOF`) and the format `"xml"`, `GenerateDANFE` returns the decoding
error, not the unsupported-format error; with a document of model 55 and the same format
it returns the unsupported-document-type error. -/
theorem format_checked_first_counterexample :
    (GenerateDANFE (exampleLib (.error (.plain (utf8 "EOF")))) []
        (some { Format := utf8 "xml" })).result =
      .error (errorfW "erro ao criar gerador: " (errorfW "erro ao fazer parse do XML: "
        (errorfW "erro ao fazer parse do XML: " (.plain (utf8 "EOF"))))) ∧
    (GenerateDANFE (exampleLib (.error (.plain (utf8 "EOF")))) []
        (some { Format := utf8 "xml" })).result ≠ .error (errUnsupportedFormat (utf8 "xml")) ∧
    (GenerateDANFE (exampleLib (.ok nfeModel55)) [] (some { Format := utf8 "xml" })).result =
      .error errNotNFCe ∧
    errNotNFCe ≠ errUnsupportedFormat (utf8 "xml") := by
  decide

/-- C2, amended: when the XML decodes to a document of model 65 and the format of the
options is none of `""`, `"html"` and `"pdf"`, `GenerateDANFE` fails with the
unsupported-format error naming that format, and `WriteDANFE` fails with the same error
and writes nothing; the generator's `GenerateToWriter` likewise rejects the format before
it writes anything. -/
theorem unsupported_format_rejected (lib : Lib) (xmlContent : Bytes) (nfe : NFeProc)
    (options : Options) (writer : Writer)
    (hdec : lib.xmlUnmarshal xmlContent = .ok nfe)
    (hmod : nfe.NFe.InfNFe.Ide.Mod = utf8 "65")
    (h1 : options.Format ≠ utf8 "") (h2 : options.Format ≠ utf8 "html")
    (h3 : options.Format ≠ utf8 "pdf") :
    (GenerateDANFE lib xmlContent (some options)).result =
      .error (errUnsupportedFormat options.Format) ∧
    (WriteDANFE lib xmlContent writer (some options)).err =
      some (errUnsupportedFormat options.Format) ∧
    (WriteDANFE lib xmlContent writer (some options)).writer = writer ∧
    (Generator.mk nfe).GenerateToWriter lib writer { Format := options.Format } =
      (writer, some (.plain (utf8 "formato não suportado: " ++ options.Format))) := by
  have h4 : options.Format ≠ FormatHTML := h2
  have h5 : options.Format ≠ FormatPDF := h3
  simp [GenerateDANFE, WriteDANFE, NewGenerator_ok lib xmlContent nfe hdec,
    isNFCe_true_of_mod nfe hmod, defaultOptions, convertFormat, h1, h2, h3,
    Generator.GenerateToWriter, h4, h5]

/-- C2, amended, at an input: a document of model 65 and the format `"xml"`. -/
theorem unsupported_format_rejected_witness :
    (exampleLib (.ok nfeModel65)).xmlUnmarshal [] = .ok nfeModel65 ∧
    nfeModel65.NFe.InfNFe.Ide.Mod = utf8 "65" ∧
    (GenerateDANFE (exampleLib (.ok nfeModel65)) [] (some { Format := utf8 "xml" })).result =
      .error (errUnsupportedFormat (utf8 "xml")) ∧
    (WriteDANFE (exampleLib (.ok nfeModel65)) [] newBuffer (some { Format := utf8 "xml" })).err =
      some (errUnsupportedFormat (utf8 "xml")) ∧
    (WriteDANFE (exampleLib (.ok nfeModel65)) [] newBuffer
      (some { Format := utf8 "xml" })).writer = newBuffer ∧
    (Generator.mk nfeModel65).GenerateToWriter (exampleLib (.ok nfeModel65)) newBuffer
        { Format := utf8 "xml" } =
      (newBuffer, some (.plain (utf8 "formato não suportado: " ++ utf8 "xml"))) :=
  ⟨rfl, by decide,
    unsupported_format_rejected (exampleLib (.ok nfeModel65)) [] nfeModel65
      { Format := utf8 "xml" } newBuffer rfl (by decide) (by decide) (by decide) (by decide)⟩

/-! ## Slices and formatters -/

theorem goSlice_eq (s : Bytes) (lo hi : Nat) (h1 : lo ≤ hi) (h2 : hi ≤ s.length) :
    goSlice s lo hi = some ((s.drop lo).take (hi - lo)) := by
  simp [goSlice, h1, h2]

theorem FormatCNPJ_eq (s : Bytes) :
    FormatCNPJ s = some (if s.length = 14 then
        (s.drop 0).take 2 ++ utf8 "." ++ (s.drop 2).take 3 ++ utf8 "." ++ (s.drop 5).take 3 ++
          utf8 "/" ++ (s.drop 8).take 4 ++ utf8 "-" ++ (s.drop 12).take 2
      else s) := by
  by_cases h : s.length = 14
  · simp [FormatCNPJ, h, goSlice_eq]
  · simp [FormatCNPJ, h]

theorem FormatCPF_eq (s : Bytes) :
    FormatCPF s = some (if s.length = 11 then
        (s.drop 0).take 3 ++ utf8 "." ++ (s.drop 3).take 3 ++ utf8 "." ++ (s.drop 6).take 3 ++
          utf8 "-" ++ (s.drop 9).take 2
      else s) := by
  by_cases h : s.length = 11
  · simp [FormatCPF, h, goSlice_eq]
  · simp [FormatCPF, h]

theorem FormatCEP_eq (s : Bytes) :
    FormatCEP s = some (if s.length = 8 then
        (s.drop 0).take 5 ++ utf8 "-" ++ (s.drop 5).take 3
      else s) := by
  by_cases h : s.length = 8
  · simp [FormatCEP, h, goSlice_eq]
  · simp [FormatCEP, h]

/-- C3: `FormatCNPJ` never fails; on a string of length 14 it returns
`s[0:2] + "." + s[2:5] + "." + s[5:8] + "/" + s[8:12] + "-" + s[12:14]`, on any other
string it returns the string unchanged; `"12345678000199"` gives `"12.345.678/0001-99"`. -/
theorem FormatCNPJ_spec (s : Bytes) :
    FormatCNPJ s = some (if s.length = 14 then
        (s.drop 0).take 2 ++ utf8 "." ++ (s.drop 2).take 3 ++ utf8 "." ++ (s.drop 5).take 3 ++
          utf8 "/" ++ (s.drop 8).take 4 ++ utf8 "-" ++ (s.drop 12).take 2
      else s) ∧
    FormatCNPJ (utf8 "12345678000199") = some (utf8 "12.345.678/0001-99") := by
  refine ⟨?_, by decide⟩
  by_cases h : s.length = 14
  · simp [FormatCNPJ, h, goSlice_eq]
  · simp [FormatCNPJ, h]

/-- C4: `FormatCPF` never fails; on a string of length 11 it returns
`s[0:3] + "." + s[3:6] + "." + s[6:9] + "-" + s[9:11]`, on any other string it returns the
string unchanged; `"12345678901"` gives `"123.456.789-01"`. -/
theorem FormatCPF_spec (s : Bytes) :
    FormatCPF s = some (if s.length = 11 then
        (s.drop 0).take 3 ++ utf8 "." ++ (s.drop 3).take 3 ++ utf8 "." ++ (s.drop 6).take 3 ++
          utf8 "-" ++ (s.drop 9).take 2
      else s) ∧
    FormatCPF (utf8 "12345678901") = some (utf8 "123.456.789-01") := by
  refine ⟨?_, by decide⟩
  by_cases h : s.length = 11
  · simp [FormatCPF, h, goSlice_eq]
  · simp [FormatCPF, h]

/-- C5: `FormatCEP` never fails; on a string of length 8 it returns `s[0:5] + "-" + s[5:8]`,
on any other string it returns the string unchanged; `"01310100"` gives `"01310-100"`. -/
theorem FormatCEP_spec (s : Bytes) :
    FormatCEP s = some (if s.length = 8 then
        (s.drop 0).take 5 ++ utf8 "-" ++ (s.drop 5).take 3
      else s) ∧
    FormatCEP (utf8 "01310100") = some (utf8 "01310-100") := by
  refine ⟨?_, by decide⟩
  by_cases h : s.length = 8
  · simp [FormatCEP, h, goSlice_eq]
  · simp [FormatCEP, h]

/-! ## Payment methods and the document type -/

theorem description_of_unrecognised (code : Bytes) (h : code ∉ recognisedCodes) :
    GetPaymentMethodDescription code = utf8 "Não informado" := by
  simp only [recognisedCodes, List.mem_cons, List.mem_singleton, not_or, List.not_mem_nil,
    not_false_eq_true, and_true] at h
  obtain ⟨h1, h2, h3, h4, h5, h6, h7, h8, h9, h10, h11, h12, h13, h14, h15, h16, h17⟩ := h
  simp only [GetPaymentMethodDescription, h1, h2, h3, h4, h5, h6, h7, h8, h9, h10, h11, h12,
    h13, h14, h15, h16, h17, if_false]

theorem description_of_recognised :
    ∀ code ∈ recognisedCodes, GetPaymentMethodDescription code ≠ utf8 "Não informado" := by
  decide

/-- C6: `GetPaymentMethodDescription` maps `"17"` to `"Pagamento Instantâneo (PIX)"`; its
result is `"Não informado"` exactly for the codes outside the seventeen recognised ones;
each recognised code has the description of the table, which is not empty and differs
from the description of every other recognised code. -/
theorem GetPaymentMethodDescription_spec :
    GetPaymentMethodDescription (utf8 "17") = utf8 "Pagamento Instantâneo (PIX)" ∧
    (∀ code, GetPaymentMethodDescription code = utf8 "Não informado" ↔
      code ∉ recognisedCodes) ∧
    recognisedCodes = paymentTable.map (fun p => utf8 p.1) ∧
    (∀ p ∈ paymentTable, GetPaymentMethodDescription (utf8 p.1) = utf8 p.2) ∧
    (∀ code ∈ recognisedCodes, GetPaymentMethodDescription code ≠ []) ∧
    (∀ c1 ∈ recognisedCodes, ∀ c2 ∈ recognisedCodes,
      GetPaymentMethodDescription c1 = GetPaymentMethodDescription c2 → c1 = c2) := by
  refine ⟨by decide, ?_, by decide, by decide, by decide, by decide⟩
  intro code
  constructor
  · intro h hmem
    exact description_of_recognised code hmem h
  · exact description_of_unrecognised code

/-- C7: `IsNFCe` is true exactly when the model code of the header is the string `"65"`
(the two bytes 54, 53), and the generator's `IsNFCe` is that of its envelope. -/
theorem IsNFCe_spec (nfe : NFeProc) (g : Generator) :
    (nfe.IsNFCe = true ↔ nfe.NFe.InfNFe.Ide.Mod = utf8 "65") ∧
    utf8 "65" = [54, 53] ∧
    g.IsNFCe = g.nfe.IsNFCe := by
  refine ⟨?_, by decide, rfl⟩
  simp [NFeProc.IsNFCe]

/-! ## The reader of rendered HTML -/

theorem Reader.run_nil (r : Reader) : r.run [] = r := by
  simp [Reader.run]

theorem Reader.run_cons (r : Reader) (b : Nat) (bs : Bytes) :
    r.run (b :: bs) = (r.step b).run bs := rfl

theorem Reader.run_append (r : Reader) (a b : Bytes) :
    r.run (a ++ b) = (r.run a).run b := by
  simp [Reader.run, List.foldl_append]

theorem Reader.run_snoc (r : Reader) (a : Bytes) (b : Nat) :
    r.run (a ++ [b]) = (r.run a).step b := by
  simp [Reader.run, List.foldl_append]

/-- Text without `<` is gathered into the current segment. -/
theorem Reader.run_text (d : Bytes) (hd : ∀ b ∈ d, b ≠ 60) (S : List Seg) (T C : Bytes) :
    Reader.run ⟨S, T, C, false⟩ d = ⟨S, T, C ++ d, false⟩ := by
  induction d generalizing C with
  | nil => simp [Reader.run_nil]
  | cons b d ih =>
    have hb : b ≠ 60 := hd b (List.mem_cons_self b d)
    have hd2 : ∀ x ∈ d, x ≠ 60 := fun x hx => hd x (List.mem_cons_of_mem b hx)
    rw [Reader.run_cons]
    simp only [Reader.step, hb, if_false, Bool.false_eq_true]
    rw [ih hd2]
    simp

/-- Before its first tag the reader is in text. -/
theorem Reader.init_run_inTag (l : Bytes) (h : (Reader.init.run l).segs = []) :
    (Reader.init.run l).inTag = false ∧ (Reader.init.run l).tag = [] := by
  induction l using List.reverseRecOn with
  | nil => exact ⟨rfl, rfl⟩
  | append_singleton l b ih =>
    rw [Reader.run_snoc] at h ⊢
    generalize Reader.init.run l = r at h ih ⊢
    obtain ⟨S, T, C, st⟩ := r
    cases st <;> by_cases h60 : b = 60 <;> by_cases h62 : b = 62 <;>
      simp_all [Reader.step]

theorem Reader.run_shift (l : Bytes) (S : List Seg) (T C : Bytes) :
    Reader.run ⟨S, T, C, false⟩ l = Reader.shift S T C (Reader.init.run l) := by
  induction l using List.reverseRecOn with
  | nil => simp [Reader.run_nil, Reader.shift, Reader.init]
  | append_singleton l b ih =>
    rw [Reader.run_snoc, Reader.run_snoc, ih]
    have hinv := Reader.init_run_inTag l
    generalize Reader.init.run l = r at hinv ⊢
    obtain ⟨S0, T0, C0, st⟩ := r
    cases S0 with
    | nil =>
      obtain ⟨h1, h2⟩ := hinv rfl
      simp only at h1 h2
      subst h1 h2
      by_cases h60 : b = 60 <;> simp [Reader.step, Reader.shift, h60]
    | cons s0 rest =>
      cases st <;> by_cases h60 : b = 60 <;> by_cases h62 : b = 62 <;>
        simp [Reader.step, Reader.shift, h60, h62]

/-- A literal whose reading from the start is known, read in the middle of the text. -/
theorem Reader.run_literal (l : Bytes) (t0 : Bytes) (rest : List Seg) (tag cur : Bytes)
    (h : Reader.init.run l = ⟨⟨[], t0⟩ :: rest, tag, cur, false⟩)
    (S : List Seg) (T C : Bytes) :
    Reader.run ⟨S, T, C, false⟩ l = ⟨S ++ ⟨T, C ++ t0⟩ :: rest, tag, cur, false⟩ := by
  rw [Reader.run_shift, h]
  rfl

/-! ## Escaped values -/

theorem htmlEscapeByte_no_lt (b x : Nat) (h : x ∈ htmlEscapeByte b) : x ≠ 60 := by
  unfold htmlEscapeByte at h
  split_ifs at h with h0 h1 h2 h3 h4 h5 h6
  · revert x; decide
  · revert x; decide
  · revert x; decide
  · revert x; decide
  · revert x; decide
  · revert x; decide
  · revert x; decide
  · simp at h; omega

/-- An escaped value holds no `<`. -/
theorem htmlEscape_no_lt (s : Bytes) : ∀ x ∈ htmlEscape s, x ≠ 60 := by
  intro x hx
  simp only [htmlEscape, List.mem_flatten, List.mem_map] at hx
  obtain ⟨l, ⟨b, _, rfl⟩, hxl⟩ := hx
  exact htmlEscapeByte_no_lt b x hxl

theorem htmlEscape_nil : htmlEscape [] = [] := rfl

theorem htmlEscape_append (a b : Bytes) : htmlEscape (a ++ b) = htmlEscape a ++ htmlEscape b := by
  simp [htmlEscape]

theorem htmlEscape_id (s : Bytes) (h : ∀ b ∈ s, ¬ escaped b) : htmlEscape s = s := by
  induction s with
  | nil => rfl
  | cons b s ih =>
    have hb := h b (List.mem_cons_self b s)
    have hs : ∀ x ∈ s, ¬ escaped x := fun x hx => h x (List.mem_cons_of_mem b hx)
    simp only [escaped, not_or] at hb
    obtain ⟨h0, h1, h2, h3, h4, h5, h6⟩ := hb
    have ih2 := ih hs
    simp only [htmlEscape] at ih2 ⊢
    simp [htmlEscapeByte, h0, h1, h2, h3, h4, h5, h6, ih2]

theorem decimalAux_digits (fuel n : Nat) (acc : Bytes)
    (hacc : ∀ b ∈ acc, 48 ≤ b ∧ b ≤ 57) :
    ∀ b ∈ decimalAux fuel n acc, 48 ≤ b ∧ b ≤ 57 := by
  induction fuel generalizing n acc with
  | zero => simpa [decimalAux] using hacc
  | succ fuel ih =>
    unfold decimalAux
    split_ifs with h
    · intro b hb
      rcases List.mem_cons.mp hb with rfl | hb
      · omega
      · exact hacc b hb
    · apply ih
      intro b hb
      rcases List.mem_cons.mp hb with rfl | hb
      · omega
      · exact hacc b hb

/-- The bytes of a number printed in decimal are digits. -/
theorem decimal_digits (n : Nat) : ∀ b ∈ decimal n, 48 ≤ b ∧ b ≤ 57 :=
  decimalAux_digits (n + 1) n [] (by simp)

theorem sprintf02d_digits (n : Nat) : ∀ b ∈ sprintf02d n, 48 ≤ b ∧ b ≤ 57 := by
  intro b hb
  simp only [sprintf02d, List.mem_append, List.mem_replicate] at hb
  rcases hb with ⟨_, rfl⟩ | hb
  · omega
  · exact decimal_digits n b hb

theorem htmlEscape_digits (s : Bytes) (h : ∀ b ∈ s, 48 ≤ b ∧ b ≤ 57) : htmlEscape s = s := by
  apply htmlEscape_id
  intro b hb
  have := h b hb
  simp only [escaped]
  omega

theorem htmlEscape_FormatCurrency (lib : Lib) (v : Float64) :
    htmlEscape (FormatCurrency lib v) = utf8 "R$ " ++ htmlEscape (lib.sprintfFixed2 v) := by
  rw [FormatCurrency, htmlEscape_append]
  congr 1

/-! ## The items section read back

The lemmas `literal_k` give the reading of the text node at position `k` of the template
(text nodes and actions counted from 0); `text_k` says that a text node holds no tag. -/

set_option maxRecDepth 100000 in
theorem literal_18 :
    Reader.init.run (utf8 "\n        <div class=\"item\">\n            <div class=\"item-line\">\n                <span class=\"item-code\">") =
      ⟨[⟨[], utf8 "\n        "⟩,
       ⟨utf8 "div class=\"item\"", utf8 "\n            "⟩,
       ⟨utf8 "div class=\"item-line\"", utf8 "\n                "⟩],
       utf8 "span class=\"item-code\"", [], false⟩ := by
  decide

set_option maxRecDepth 100000 in
theorem literal_22 :
    Reader.init.run (utf8 "</span>\n                <span class=\"item-values\">") =
      ⟨[⟨[], []⟩,
       ⟨utf8 "/span", utf8 "\n                "⟩],
       utf8 "span class=\"item-values\"", [], false⟩ := by
  decide

set_option maxRecDepth 100000 in
theorem literal_30 :
    Reader.init.run (utf8 "</span>\n            </div>\n            <div class=\"item-desc\">") =
      ⟨[⟨[], []⟩,
       ⟨utf8 "/span", utf8 "\n            "⟩,
       ⟨utf8 "/div", utf8 "\n            "⟩],
       utf8 "div class=\"item-desc\"", [], false⟩ := by
  decide

set_option maxRecDepth 100000 in
theorem literal_32 :
    Reader.init.run (utf8 "</div>\n        </div>\n        ") =
      ⟨[⟨[], []⟩,
       ⟨utf8 "/div", utf8 "\n        "⟩],
       utf8 "/div", utf8 "\n        ", false⟩ := by
  decide
theorem text_20 : ∀ b ∈ utf8 " - ", b ≠ 60 := by decide

theorem text_26 : ∀ b ∈ utf8 " x ", b ≠ 60 := by decide

theorem text_28 : ∀ b ∈ utf8 " = ", b ≠ 60 := by decide

theorem run_itemNodes (lib : Lib) (index : Nat) (item : Det) (S : List Seg) (T C : Bytes) :
    Reader.run ⟨S, T, C, false⟩ (itemNodes lib index item).flatten =
      ⟨S ++ itemSegs lib T C index item, utf8 "/div", utf8 "\n        ", false⟩ := by
  simp only [itemNodes, List.flatten_cons, List.flatten_nil, Reader.run_append,
    Reader.run_literal _ _ _ _ _ literal_18, Reader.run_literal _ _ _ _ _ literal_22,
    Reader.run_literal _ _ _ _ _ literal_30, Reader.run_literal _ _ _ _ _ literal_32,
    Reader.run_text _ (htmlEscape_no_lt _), Reader.run_text _ text_20,
    Reader.run_text _ text_26, Reader.run_text _ text_28, Reader.run_nil]
  simp [itemSegs, itemLabel, add, htmlEscape_digits _ (sprintf02d_digits _)]

theorem run_items (lib : Lib) (det : List Det) (index : Nat) (S : List Seg) (T C : Bytes) :
    Reader.run ⟨S, T, C, false⟩
        ((det.enumFrom index).map (fun p => itemNodes lib p.1 p.2)).flatten.flatten =
      afterItems S T C lib index det := by
  induction det generalizing index S T C with
  | nil => rfl
  | cons item rest ih =>
    simp only [List.enumFrom_cons, List.map_cons, List.flatten_cons, List.flatten_append]
    rw [Reader.run_append, run_itemNodes, ih]
    cases rest with
    | nil => simp [afterItems, itemsSegs]
    | cons item2 rest2 => simp [afterItems, itemsSegs]

theorem textsAfter_append (tag : Bytes) (a b : List Seg) :
    textsAfter tag (a ++ b) = textsAfter tag a ++ textsAfter tag b := by
  simp [textsAfter]

theorem countTag_append (tag : Bytes) (a b : List Seg) :
    countTag tag (a ++ b) = countTag tag a + countTag tag b := by
  simp [countTag]

theorem textsAfter_itemsSegs (lib : Lib) (det : List Det) (index : Nat) (T C : Bytes)
    (hT : T ≠ utf8 "span class=\"item-code\"") :
    textsAfter (utf8 "span class=\"item-code\"") (itemsSegs lib T C index det) =
      (det.enumFrom index).map (fun p => itemLabel (p.1 + 1) p.2) := by
  induction det generalizing index T C with
  | nil => rfl
  | cons item rest ih =>
    rw [itemsSegs, textsAfter_append, ih (index + 1) _ _ (by decide)]
    simp +decide [textsAfter, itemSegs, hT]

theorem countTag_itemsSegs (lib : Lib) (det : List Det) (index : Nat) (T C : Bytes)
    (hT : T ≠ utf8 "div class=\"item\"") :
    countTag (utf8 "div class=\"item\"") (itemsSegs lib T C index det) = det.length := by
  induction det generalizing index T C with
  | nil => rfl
  | cons item rest ih =>
    rw [itemsSegs, countTag_append, ih (index + 1) _ _ (by decide)]
    simp +decide [countTag, itemSegs, hT]
    omega

/-! ## The totals and payment sections read back -/

set_option maxRecDepth 100000 in
theorem literal_34 :
    Reader.init.run (utf8 "\n        \n\n        \n        <div class=\"section-title\">TOTAIS</div>\n        <div class=\"totals\">\n            <div class=\"total-line\">\n                <span>Qtde itens:</span>\n                <span>") =
      ⟨[⟨[], utf8 "\n        \n\n        \n        "⟩,
       ⟨utf8 "div class=\"section-title\"", utf8 "TOTAIS"⟩,
       ⟨utf8 "/div", utf8 "\n        "⟩,
       ⟨utf8 "div class=\"totals\"", utf8 "\n            "⟩,
       ⟨utf8 "div class=\"total-line\"", utf8 "\n                "⟩,
       ⟨utf8 "span", utf8 "Qtde itens:"⟩,
       ⟨utf8 "/span", utf8 "\n                "⟩],
       utf8 "span", [], false⟩ := by
  decide

set_option maxRecDepth 100000 in
theorem literal_36 :
    Reader.init.run (utf8 "</span>\n            </div>\n            <div class=\"total-line\">\n                <span>Valor total:</span>\n                <span>") =
      ⟨[⟨[], []⟩,
       ⟨utf8 "/span", utf8 "\n            "⟩,
       ⟨utf8 "/div", utf8 "\n            "⟩,
       ⟨utf8 "div class=\"total-line\"", utf8 "\n                "⟩,
       ⟨utf8 "span", utf8 "Valor total:"⟩,
       ⟨utf8 "/span", utf8 "\n                "⟩],
       utf8 "span", [], false⟩ := by
  decide

set_option maxRecDepth 100000 in
theorem literal_38 :
    Reader.init.run (utf8 "</span>\n            </div>\n            ") =
      ⟨[⟨[], []⟩,
       ⟨utf8 "/span", utf8 "\n            "⟩],
       utf8 "/div", utf8 "\n            ", false⟩ := by
  decide

set_option maxRecDepth 100000 in
theorem literal_40 :
    Reader.init.run (utf8 "\n            \n            \n            <div class=\"total-line\">\n                <span>Desconto:</span>\n                <span>") =
      ⟨[⟨[], utf8 "\n            \n            \n            "⟩,
       ⟨utf8 "div class=\"total-line\"", utf8 "\n                "⟩,
       ⟨utf8 "span", utf8 "Desconto:"⟩,
       ⟨utf8 "/span", utf8 "\n                "⟩],
       utf8 "span", [], false⟩ := by
  decide

set_option maxRecDepth 100000 in
theorem literal_46 :
    Reader.init.run (utf8 "\n            <div class=\"total-line\">\n                <span>Outros valores:</span>\n                <span>") =
      ⟨[⟨[], utf8 "\n            "⟩,
       ⟨utf8 "div class=\"total-line\"", utf8 "\n                "⟩,
       ⟨utf8 "span", utf8 "Outros valores:"⟩,
       ⟨utf8 "/span", utf8 "\n                "⟩],
       utf8 "span", [], false⟩ := by
  decide

set_option maxRecDepth 100000 in
theorem literal_50 :
    Reader.init.run (utf8 "\n            \n            <div class=\"total-line total-final\">\n                <span>TOTAL A PAGAR:</span>\n                <span>") =
      ⟨[⟨[], utf8 "\n            \n            "⟩,
       ⟨utf8 "div class=\"total-line total-final\"", utf8 "\n                "⟩,
       ⟨utf8 "span", utf8 "TOTAL A PAGAR:"⟩,
       ⟨utf8 "/span", utf8 "\n                "⟩],
       utf8 "span", [], false⟩ := by
  decide

set_option maxRecDepth 100000 in
theorem literal_52 :
    Reader.init.run (utf8 "</span>\n            </div>\n        </div>\n\n        \n        <div class=\"section-title\">PAGAMENTO</div>\n        <div class=\"payment\">\n            ") =
      ⟨[⟨[], []⟩,
       ⟨utf8 "/span", utf8 "\n            "⟩,
       ⟨utf8 "/div", utf8 "\n        "⟩,
       ⟨utf8 "/div", utf8 "\n\n        \n        "⟩,
       ⟨utf8 "div class=\"section-title\"", utf8 "PAGAMENTO"⟩,
       ⟨utf8 "/div", utf8 "\n        "⟩],
       utf8 "div class=\"payment\"", utf8 "\n            ", false⟩ := by
  decide

set_option maxRecDepth 100000 in
theorem literal_54 :
    Reader.init.run (utf8 "\n            <div class=\"payment-line\">\n                <span>") =
      ⟨[⟨[], utf8 "\n            "⟩,
       ⟨utf8 "div class=\"payment-line\"", utf8 "\n                "⟩],
       utf8 "span", [], false⟩ := by
  decide

set_option maxRecDepth 100000 in
theorem literal_56 :
    Reader.init.run (utf8 ":</span>\n                <span>") =
      ⟨[⟨[], utf8 ":"⟩,
       ⟨utf8 "/span", utf8 "\n                "⟩],
       utf8 "span", [], false⟩ := by
  decide

set_option maxRecDepth 100000 in
theorem literal_62 :
    Reader.init.run (utf8 "\n            <div class=\"payment-line\">\n                <span>Troco:</span>\n                <span>") =
      ⟨[⟨[], utf8 "\n            "⟩,
       ⟨utf8 "div class=\"payment-line\"", utf8 "\n                "⟩,
       ⟨utf8 "span", utf8 "Troco:"⟩,
       ⟨utf8 "/span", utf8 "\n                "⟩],
       utf8 "span", [], false⟩ := by
  decide

set_option maxRecDepth 100000 in
theorem literal_66 :
    Reader.init.run (utf8 "\n        </div>\n\n        \n        <div class=\"section-title\">CONSUMIDOR</div>\n        <div class=\"consumer\">\n            ") =
      ⟨[⟨[], utf8 "\n        "⟩,
       ⟨utf8 "/div", utf8 "\n\n        \n        "⟩,
       ⟨utf8 "div class=\"section-title\"", utf8 "CONSUMIDOR"⟩,
       ⟨utf8 "/div", utf8 "\n        "⟩],
       utf8 "div class=\"consumer\"", utf8 "\n            ", false⟩ := by
  decide

theorem text_44 : ∀ b ∈ utf8 "\n            ", b ≠ 60 := by decide

/-- The texts in the `span` elements of the totals section: label and value of each line. -/
theorem spans_totals (lib : Lib) (nfe : NFeProc) :
    textsAfter (utf8 "span") (htmlSegments (totalsNodes lib nfe).flatten) =
      [utf8 "Qtde itens:", decimal nfe.NFe.InfNFe.Det.length,
       utf8 "Valor total:", htmlEscape (FormatCurrency lib nfe.NFe.InfNFe.Total.ICMSTot.VProd)] ++
      (if tmplGt nfe.NFe.InfNFe.Total.ICMSTot.VDesc Float64.zero then
        [utf8 "Desconto:", htmlEscape (FormatCurrency lib nfe.NFe.InfNFe.Total.ICMSTot.VDesc)]
       else []) ++
      (if tmplGt nfe.NFe.InfNFe.Total.ICMSTot.VOutro Float64.zero then
        [utf8 "Outros valores:",
         htmlEscape (FormatCurrency lib nfe.NFe.InfNFe.Total.ICMSTot.VOutro)]
       else []) ++
      [utf8 "TOTAL A PAGAR:", htmlEscape (FormatCurrency lib nfe.NFe.InfNFe.Total.ICMSTot.VNF)] := by
  by_cases h1 : tmplGt nfe.NFe.InfNFe.Total.ICMSTot.VDesc Float64.zero = true <;>
  by_cases h2 : tmplGt nfe.NFe.InfNFe.Total.ICMSTot.VOutro Float64.zero = true <;>
  · simp only [htmlSegments, totalsNodes, Reader.init, h1, h2, if_true, if_false, Bool.false_eq_true,
      List.flatten_append, List.flatten_cons, List.flatten_nil, List.append_nil,
      Reader.run_append,
      Reader.run_literal _ _ _ _ _ literal_34, Reader.run_literal _ _ _ _ _ literal_36,
      Reader.run_literal _ _ _ _ _ literal_38, Reader.run_literal _ _ _ _ _ literal_40,
      Reader.run_literal _ _ _ _ _ literal_46, Reader.run_literal _ _ _ _ _ literal_50,
      Reader.run_literal _ _ _ _ _ literal_52,
      Reader.run_text _ (htmlEscape_no_lt _), Reader.run_text _ text_44, Reader.run_nil]
    simp +decide [textsAfter, Reader.finish, htmlEscape_digits _ (decimal_digits _)]

theorem description_mem (code : Bytes) : GetPaymentMethodDescription code ∈ allDescriptions := by
  by_cases h : code ∈ recognisedCodes
  · revert code
    decide
  · rw [description_of_unrecognised code h]
    decide

theorem htmlEscape_description (code : Bytes) :
    htmlEscape (GetPaymentMethodDescription code) = GetPaymentMethodDescription code := by
  have h : ∀ d ∈ allDescriptions, htmlEscape d = d := by decide
  exact h _ (description_mem code)

theorem description_ne_troco (code : Bytes) :
    GetPaymentMethodDescription code ++ utf8 ":" ≠ utf8 "Troco:" := by
  have h : ∀ d ∈ allDescriptions, d ++ utf8 ":" ≠ utf8 "Troco:" := by decide
  exact h _ (description_mem code)

theorem run_paymentLineNodes (lib : Lib) (detPag : DetPag) (S : List Seg) (T C : Bytes) :
    Reader.run ⟨S, T, C, false⟩ (paymentLineNodes lib detPag).flatten =
      ⟨S ++ paymentLineSegs lib T C detPag, utf8 "/div", utf8 "\n            ", false⟩ := by
  simp only [paymentLineNodes, List.flatten_cons, List.flatten_nil, Reader.run_append,
    Reader.run_literal _ _ _ _ _ literal_54, Reader.run_literal _ _ _ _ _ literal_56,
    Reader.run_literal _ _ _ _ _ literal_38,
    Reader.run_text _ (htmlEscape_no_lt _), Reader.run_nil]
  simp [paymentLineSegs, htmlEscape_description]

theorem run_paymentLines (lib : Lib) (detPag : List DetPag) (S : List Seg) (T C : Bytes) :
    Reader.run ⟨S, T, C, false⟩ (detPag.map (paymentLineNodes lib)).flatten.flatten =
      afterPaymentLines S T C lib detPag := by
  induction detPag generalizing S T C with
  | nil => rfl
  | cons p rest ih =>
    simp only [List.map_cons, List.flatten_cons, List.flatten_append]
    rw [Reader.run_append, run_paymentLineNodes, ih]
    cases rest with
    | nil => simp [afterPaymentLines, paymentLinesSegs]
    | cons p2 rest2 => simp [afterPaymentLines, paymentLinesSegs]

theorem textsAfter_paymentLinesSegs (lib : Lib) (detPag : List DetPag) (T C : Bytes)
    (hT : T ≠ utf8 "span") :
    textsAfter (utf8 "span") (paymentLinesSegs lib T C detPag) =
      (detPag.map (paymentLineTexts lib)).flatten := by
  induction detPag generalizing T C with
  | nil => rfl
  | cons p rest ih =>
    rw [paymentLinesSegs, textsAfter_append, ih _ _ (by decide)]
    simp +decide [textsAfter, paymentLineSegs, paymentLineTexts, hT]

theorem countTag_paymentLinesSegs (lib : Lib) (detPag : List DetPag) (T C : Bytes)
    (hT : T ≠ utf8 "div class=\"payment-line\"") :
    countTag (utf8 "div class=\"payment-line\"") (paymentLinesSegs lib T C detPag) =
      detPag.length := by
  induction detPag generalizing T C with
  | nil => rfl
  | cons p rest ih =>
    rw [paymentLinesSegs, countTag_append, ih _ _ (by decide)]
    simp +decide [countTag, paymentLineSegs, hT]
    omega

/-- The texts in the `span` elements of the payment section: the two texts of every
payment line, then those of the change line when the template's test holds. -/
theorem spans_payment (lib : Lib) (nfe : NFeProc) :
    textsAfter (utf8 "span") (htmlSegments (paymentNodes lib nfe).flatten) =
      (nfe.NFe.InfNFe.Pag.DetPag.map (paymentLineTexts lib)).flatten ++
      (if tmplGt nfe.NFe.InfNFe.Pag.VTroco Float64.zero then
        [utf8 "Troco:", htmlEscape (FormatCurrency lib nfe.NFe.InfNFe.Pag.VTroco)]
       else []) := by
  by_cases h1 : tmplGt nfe.NFe.InfNFe.Pag.VTroco Float64.zero = true <;>
  cases hd : nfe.NFe.InfNFe.Pag.DetPag <;>
  · simp only [htmlSegments, paymentNodes, Reader.init, hd, h1, if_true, if_false,
      Bool.false_eq_true, List.flatten_append, List.flatten_cons, List.flatten_nil,
      List.append_nil, Reader.run_append, run_paymentLines, afterPaymentLines,
      Reader.run_literal _ _ _ _ _ literal_62, Reader.run_literal _ _ _ _ _ literal_38,
      Reader.run_literal _ _ _ _ _ literal_66,
      Reader.run_text _ (htmlEscape_no_lt _), Reader.run_text _ text_44, Reader.run_nil]
    simp +decide [textsAfter_append, Reader.finish, textsAfter_paymentLinesSegs]
    try simp +decide [textsAfter]

/-- The number of payment lines in the payment section. -/
theorem lines_payment (lib : Lib) (nfe : NFeProc) :
    countTag (utf8 "div class=\"payment-line\"")
        (htmlSegments (paymentNodes lib nfe).flatten) =
      nfe.NFe.InfNFe.Pag.DetPag.length +
        (if tmplGt nfe.NFe.InfNFe.Pag.VTroco Float64.zero then 1 else 0) := by
  by_cases h1 : tmplGt nfe.NFe.InfNFe.Pag.VTroco Float64.zero = true <;>
  cases hd : nfe.NFe.InfNFe.Pag.DetPag <;>
  · simp only [htmlSegments, paymentNodes, Reader.init, hd, h1, if_true, if_false,
      Bool.false_eq_true, List.flatten_append, List.flatten_cons, List.flatten_nil,
      List.append_nil, Reader.run_append, run_paymentLines, afterPaymentLines,
      Reader.run_literal _ _ _ _ _ literal_62, Reader.run_literal _ _ _ _ _ literal_38,
      Reader.run_literal _ _ _ _ _ literal_66,
      Reader.run_text _ (htmlEscape_no_lt _), Reader.run_text _ text_44, Reader.run_nil]
    simp +decide [countTag_append, Reader.finish, countTag_paymentLinesSegs]
    try simp +decide [countTag]

/-! ## Comparison with zero, and decimal numbers -/

theorem unitsAt_zero (e0 : Int) : Float64.unitsAt false 0 0 e0 = 0 := by
  simp [Float64.unitsAt]

theorem unitsAt_pos (negative : Bool) (mantissa : Nat) (exponent e0 : Int) :
    0 < Float64.unitsAt negative mantissa exponent e0 ↔ negative = false ∧ 0 < mantissa := by
  have hp : (0 : Int) < 2 ^ (exponent - e0).toNat := by positivity
  cases negative <;> simp only [Float64.unitsAt, Bool.false_eq_true, if_false, if_true]
  · constructor
    · intro h
      refine ⟨trivial, ?_⟩
      by_contra hm
      have : mantissa = 0 := by omega
      simp [this] at h
    · intro h
      have : (0 : Int) < mantissa := by exact_mod_cast h.2
      positivity
  · constructor
    · intro h
      have : (0 : Int) ≤ (mantissa : Int) * 2 ^ (exponent - e0).toNat := by positivity
      omega
    · intro h
      exact absurd h.1 (by simp)

/-- For a finite value, `> 0` holds exactly when the sign is positive and the mantissa is
not zero; for an infinity, when it is the positive one; never for NaN. -/
theorem gt_zero (x : Float64) :
    Float64.gt x Float64.zero = true ↔
      (∃ m e, x = .finite false m e ∧ 0 < m) ∨ x = .inf false := by
  cases x with
  | nan => simp [Float64.gt, Float64.lt, Float64.zero]
  | inf n => cases n <;> simp [Float64.gt, Float64.lt, Float64.zero]
  | finite n m e =>
    simp only [Float64.gt, Float64.lt, Float64.zero, unitsAt_zero, decide_eq_true_eq,
      unitsAt_pos]
    constructor
    · rintro ⟨rfl, hm⟩
      exact Or.inl ⟨m, e, rfl, hm⟩
    · rintro (⟨m2, e2, h, hm⟩ | h)
      · cases h
        exact ⟨rfl, hm⟩
      · cases h

/-- The template's `gt x 0.0` holds exactly when `x > 0` or `x` is NaN. -/
theorem tmplGt_zero (x : Float64) :
    tmplGt x Float64.zero = true ↔ (Float64.gt x Float64.zero = true ∨ x = .nan) := by
  cases x with
  | nan => simp [tmplGt, tmplLe, tmplLt, tmplEq, Float64.lt, Float64.eq, Float64.zero]
  | inf n =>
    cases n <;>
      simp [tmplGt, tmplLe, tmplLt, tmplEq, Float64.gt, Float64.lt, Float64.eq, Float64.zero]
  | finite n m e =>
    simp only [tmplGt, tmplLe, tmplLt, tmplEq, Float64.gt, Float64.lt, Float64.eq,
      Float64.zero, unitsAt_zero, min_comm 0 e]
    generalize Float64.unitsAt n m e (min e 0) = u
    by_cases h1 : u < 0
    · simp [h1]
      omega
    · by_cases h2 : u = 0
      · simp [h2]
      · simp [h1, h2]
        omega

theorem tmplGt_zero_eq (x : Float64) :
    tmplGt x Float64.zero = decide (Float64.gt x Float64.zero = true ∨ x = .nan) := by
  rw [Bool.eq_iff_iff]
  simpa using tmplGt_zero x

theorem digitsValue_foldl (l : Bytes) (a : Nat) :
    l.foldl (fun acc b => acc * 10 + (b - 48)) a = a * 10 ^ l.length + digitsValue l := by
  induction l generalizing a with
  | nil => simp [digitsValue]
  | cons b l ih =>
    simp only [List.foldl_cons, digitsValue, List.length_cons]
    rw [ih, ih (0 * 10 + (b - 48))]
    ring

theorem digitsValue_cons (b : Nat) (l : Bytes) :
    digitsValue (b :: l) = (b - 48) * 10 ^ l.length + digitsValue l := by
  simp only [digitsValue, List.foldl_cons]
  rw [digitsValue_foldl]
  simp [digitsValue]

theorem digitsValue_decimalAux (fuel n : Nat) (acc : Bytes) (h : n < fuel) :
    digitsValue (decimalAux fuel n acc) = n * 10 ^ acc.length + digitsValue acc := by
  induction fuel generalizing n acc with
  | zero => omega
  | succ fuel ih =>
    unfold decimalAux
    split_ifs with h10
    · rw [digitsValue_cons]
      simp
    · rw [ih (n / 10) _ (by omega), digitsValue_cons]
      simp only [List.length_cons, Nat.add_sub_cancel_left]
      have hn := Nat.div_add_mod n 10
      rw [pow_succ]
      conv_rhs => rw [← hn]
      ring

/-- The digits `decimal` prints denote the number. -/
theorem digitsValue_decimal (n : Nat) : digitsValue (decimal n) = n := by
  rw [decimal, digitsValue_decimalAux _ _ _ (Nat.lt_succ_self n)]
  simp [digitsValue]

theorem decimalAux_length (fuel n : Nat) (acc : Bytes) (h : 0 < fuel) :
    acc.length < (decimalAux fuel n acc).length := by
  induction fuel generalizing n acc with
  | zero => omega
  | succ fuel ih =>
    unfold decimalAux
    split_ifs with h10
    · simp
    · cases fuel with
      | zero => simp [decimalAux]
      | succ f =>
        have := ih (n / 10) ((48 + n % 10) :: acc) (by omega)
        simp only [List.length_cons] at this
        omega

theorem decimal_length_pos (n : Nat) : 0 < (decimal n).length :=
  decimalAux_length (n + 1) n [] (by omega)

/-- A number below ten is printed by `printf "%02d"` as a zero and its digit, a number from
ten on as its decimal digits. -/
theorem sprintf02d_eq (n : Nat) :
    sprintf02d n = if n < 10 then [48, 48 + n] else decimal n := by
  split_ifs with h
  · simp [sprintf02d, decimal, decimalAux, h]
  · have h2 : 1 < (decimal n).length := by
      have h3 : decimal n = decimalAux n (n / 10) [48 + n % 10] := by
        simp [decimal, decimalAux, h]
      rw [h3]
      have := decimalAux_length n (n / 10) [48 + n % 10] (by omega)
      simpa using this
    simp only [sprintf02d]
    have h4 : 2 - (decimal n).length = 0 := by omega
    rw [h4]
    simp

/-- The digits `printf "%02d"` prints denote the number, and are at least two. -/
theorem sprintf02d_spec (n : Nat) :
    digitsValue (sprintf02d n) = n ∧ 2 ≤ (sprintf02d n).length := by
  have hpos := decimal_length_pos n
  have hval := digitsValue_decimal n
  simp only [sprintf02d]
  generalize decimal n = d at hpos hval
  match d, hpos, hval with
  | [a], _, hval => simpa [digitsValue] using hval
  | a :: b :: rest, _, hval => simp [hval]

/-! ## The renderer on a buffer -/

theorem execute_ok (chunks : List Bytes) (w : Writer)
    (hw : ∀ a p, w.accept a p = (p.length, none)) :
    execute (chunks.map Except.ok) w =
      ({ written := w.written ++ chunks.flatten, accept := w.accept }, none) := by
  induction chunks generalizing w with
  | nil => simp [execute]
  | cons p rest ih =>
    simp only [List.map_cons, execute, Writer.Write, hw, List.take_length]
    rw [ih { written := w.written ++ p, accept := w.accept } hw]
    simp

theorem headerNodes_ok (nfe : NFeProc) :
    ∃ chunks : List Bytes, headerNodes nfe = chunks.map Except.ok := by
  simp only [headerNodes, callOp, FormatCNPJ_eq, FormatCEP_eq]
  exact ⟨[_, _, _, _, _, _, _, _, _, _, _, _, _, _, _, _, _], rfl⟩

/-- Into a buffer the renderer writes, without error, the header, the items section, the
totals section, the payment section and the rest, in this order. -/
theorem render_buffer (lib : Lib) (nfe : NFeProc) :
    ∃ pre post, RenderToWriter lib nfe newBuffer =
      ({ written := pre ++ (itemsNodes lib nfe.NFe.InfNFe.Det).flatten ++
            (totalsNodes lib nfe).flatten ++ (paymentNodes lib nfe).flatten ++ post,
         accept := newBuffer.accept }, none) := by
  obtain ⟨chunks, hc⟩ := headerNodes_ok nfe
  refine ⟨chunks.flatten,
    (consumerNodes nfe ++ infoNodes lib nfe ++ qrNodes lib nfe).flatten, ?_⟩
  have h : danfeTemplate lib nfe =
      (chunks ++ (itemsNodes lib nfe.NFe.InfNFe.Det ++ totalsNodes lib nfe ++
        paymentNodes lib nfe ++ consumerNodes nfe ++ infoNodes lib nfe ++
        qrNodes lib nfe)).map Except.ok := by
    rw [danfeTemplate, hc]
    simp only [List.map_append]
  rw [RenderToWriter, h, execute_ok _ _ (fun _ _ => rfl)]
  simp [newBuffer, List.append_assoc]

theorem renders_items (lib : Lib) (nfe : NFeProc) :
    rendersWithin lib nfe (itemsNodes lib nfe.NFe.InfNFe.Det).flatten := by
  obtain ⟨pre, post, h⟩ := render_buffer lib nfe
  exact ⟨pre, (totalsNodes lib nfe).flatten ++ (paymentNodes lib nfe).flatten ++ post, by
    rw [h]; simp [List.append_assoc]⟩

theorem renders_totals (lib : Lib) (nfe : NFeProc) :
    rendersWithin lib nfe (totalsNodes lib nfe).flatten := by
  obtain ⟨pre, post, h⟩ := render_buffer lib nfe
  exact ⟨pre ++ (itemsNodes lib nfe.NFe.InfNFe.Det).flatten,
    (paymentNodes lib nfe).flatten ++ post, by rw [h]; simp [List.append_assoc]⟩

theorem renders_payment (lib : Lib) (nfe : NFeProc) :
    rendersWithin lib nfe (paymentNodes lib nfe).flatten := by
  obtain ⟨pre, post, h⟩ := render_buffer lib nfe
  exact ⟨pre ++ (itemsNodes lib nfe.NFe.InfNFe.Det).flatten ++ (totalsNodes lib nfe).flatten,
    post, by rw [h]⟩

/-! ## The rendered sections -/

theorem htmlEscape_currency_ne (lib : Lib) (v : Float64) (t : Bytes) (ht : t.head? ≠ some 82) :
    htmlEscape (FormatCurrency lib v) ≠ t := by
  intro h
  apply ht
  rw [← h, htmlEscape_FormatCurrency]
  have h2 : utf8 "R$ " = [82, 36, 32] := by decide
  simp [h2]

theorem decimal_ne (n : Nat) (t : Bytes) (ht : ∃ b ∈ t, ¬ (48 ≤ b ∧ b ≤ 57)) :
    decimal n ≠ t := by
  intro h
  obtain ⟨b, hb, hnd⟩ := ht
  rw [← h] at hb
  exact hnd (decimal_digits n b hb)

theorem segments_items (lib : Lib) (det : List Det) :
    htmlSegments (itemsNodes lib det).flatten = (afterItems [] [] [] lib 0 det).finish := by
  rw [htmlSegments, itemsNodes, Reader.init]
  exact congrArg Reader.finish (run_items lib det 0 [] [] [])

/-- C8: the renderer writes the items section and the totals section; read back as HTML,
the items section holds exactly one item block for each line item; the labels of the
blocks, in order, are those of the items in source order: the position of the item,
counted from 1, printed in decimal with at least two digits (a zero in front of a single
digit), then ` - ` and the product code as HTML text; and the first line of the totals
section is `Qtde itens:` with the number of items in decimal. -/
theorem items_numbered_in_order (lib : Lib) (nfe : NFeProc) :
    rendersWithin lib nfe (itemsNodes lib nfe.NFe.InfNFe.Det).flatten ∧
    rendersWithin lib nfe (totalsNodes lib nfe).flatten ∧
    countTag (utf8 "div class=\"item\"")
        (htmlSegments (itemsNodes lib nfe.NFe.InfNFe.Det).flatten) =
      nfe.NFe.InfNFe.Det.length ∧
    textsAfter (utf8 "span class=\"item-code\"")
        (htmlSegments (itemsNodes lib nfe.NFe.InfNFe.Det).flatten) =
      nfe.NFe.InfNFe.Det.enum.map
        (fun p => sprintf02d (p.1 + 1) ++ utf8 " - " ++ htmlEscape p.2.Prod.CProd) ∧
    (∀ k, sprintf02d k = (if k < 10 then [48, 48 + k] else decimal k) ∧
      digitsValue (sprintf02d k) = k) ∧
    (textsAfter (utf8 "span") (htmlSegments (totalsNodes lib nfe).flatten)).take 2 =
      [utf8 "Qtde itens:", decimal nfe.NFe.InfNFe.Det.length] ∧
    digitsValue (decimal nfe.NFe.InfNFe.Det.length) = nfe.NFe.InfNFe.Det.length := by
  refine ⟨renders_items lib nfe, renders_totals lib nfe, ?_, ?_,
    fun k => ⟨sprintf02d_eq k, (sprintf02d_spec k).1⟩, ?_, digitsValue_decimal _⟩
  · rw [segments_items]
    cases hd : nfe.NFe.InfNFe.Det with
    | nil => simp +decide [afterItems, Reader.finish, countTag]
    | cons item rest =>
      simp only [afterItems, Reader.finish, Bool.false_eq_true, if_false, List.nil_append,
        countTag_append]
      rw [countTag_itemsSegs lib _ 0 [] [] (by decide)]
      simp +decide [countTag]
  · rw [segments_items]
    cases hd : nfe.NFe.InfNFe.Det with
    | nil => simp +decide [afterItems, Reader.finish, textsAfter, List.enum]
    | cons item rest =>
      simp only [afterItems, Reader.finish, Bool.false_eq_true, if_false, List.nil_append,
        textsAfter_append]
      rw [textsAfter_itemsSegs lib _ 0 [] [] (by decide)]
      simp +decide [textsAfter, List.enum, itemLabel]
  · rw [spans_totals]
    simp

/-- C9, as stated, fails: for an envelope whose discount total is NaN the totals section
holds a `Desconto:` line (showing `R$ NaN`), although NaN is not greater than 0. -/
theorem discount_line_counterexample :
    textsAfter (utf8 "span")
        (htmlSegments (totalsNodes (exampleLib (.ok nfeDiscountNaN)) nfeDiscountNaN).flatten) =
      [utf8 "Qtde itens:", utf8 "0", utf8 "Valor total:", utf8 "R$ 0.00",
       utf8 "Desconto:", utf8 "R$ NaN", utf8 "TOTAL A PAGAR:", utf8 "R$ 0.00"] ∧
    Float64.gt nfeDiscountNaN.NFe.InfNFe.Total.ICMSTot.VDesc Float64.zero = false := by
  refine ⟨?_, by decide⟩
  rw [spans_totals]
  decide

/-- C9, amended: the renderer writes the totals section, which holds exactly one
`Desconto:` line if the discount total is greater than 0 or is NaN, and none otherwise;
exactly one `Outros valores:` line if the other-values total is greater than 0 or is NaN,
and none otherwise.  A finite total is greater than 0 exactly when its sign is positive
and its mantissa is not zero, so zero and negative totals give no line. -/
theorem totals_lines (lib : Lib) (nfe : NFeProc) :
    rendersWithin lib nfe (totalsNodes lib nfe).flatten ∧
    (textsAfter (utf8 "span") (htmlSegments (totalsNodes lib nfe).flatten)).count
        (utf8 "Desconto:") =
      (if Float64.gt nfe.NFe.InfNFe.Total.ICMSTot.VDesc Float64.zero = true ∨
          nfe.NFe.InfNFe.Total.ICMSTot.VDesc = .nan then 1 else 0) ∧
    (textsAfter (utf8 "span") (htmlSegments (totalsNodes lib nfe).flatten)).count
        (utf8 "Outros valores:") =
      (if Float64.gt nfe.NFe.InfNFe.Total.ICMSTot.VOutro Float64.zero = true ∨
          nfe.NFe.InfNFe.Total.ICMSTot.VOutro = .nan then 1 else 0) ∧
    (∀ negative mantissa exponent,
      Float64.gt (.finite negative mantissa exponent) Float64.zero = true ↔
        (negative = false ∧ 0 < mantissa)) := by
  have hD : ∀ v, htmlEscape (FormatCurrency lib v) ≠ utf8 "Desconto:" :=
    fun v => htmlEscape_currency_ne lib v _ (by decide)
  have hO : ∀ v, htmlEscape (FormatCurrency lib v) ≠ utf8 "Outros valores:" :=
    fun v => htmlEscape_currency_ne lib v _ (by decide)
  have hnD : ∀ n, decimal n ≠ utf8 "Desconto:" := fun n => decimal_ne n _ (by decide)
  have hnO : ∀ n, decimal n ≠ utf8 "Outros valores:" := fun n => decimal_ne n _ (by decide)
  refine ⟨renders_totals lib nfe, ?_, ?_, ?_⟩
  · rw [spans_totals, tmplGt_zero_eq, tmplGt_zero_eq]
    by_cases h1 : Float64.gt nfe.NFe.InfNFe.Total.ICMSTot.VDesc Float64.zero = true ∨
        nfe.NFe.InfNFe.Total.ICMSTot.VDesc = .nan <;>
    by_cases h2 : Float64.gt nfe.NFe.InfNFe.Total.ICMSTot.VOutro Float64.zero = true ∨
        nfe.NFe.InfNFe.Total.ICMSTot.VOutro = .nan <;>
    simp +decide [h1, h2, List.count_cons, hD, hnD]
  · rw [spans_totals, tmplGt_zero_eq, tmplGt_zero_eq]
    by_cases h1 : Float64.gt nfe.NFe.InfNFe.Total.ICMSTot.VDesc Float64.zero = true ∨
        nfe.NFe.InfNFe.Total.ICMSTot.VDesc = .nan <;>
    by_cases h2 : Float64.gt nfe.NFe.InfNFe.Total.ICMSTot.VOutro Float64.zero = true ∨
        nfe.NFe.InfNFe.Total.ICMSTot.VOutro = .nan <;>
    simp +decide [h1, h2, List.count_cons, hO, hnO]
  · intro negative mantissa exponent
    rw [gt_zero]
    constructor
    · rintro (⟨m, e, h, hm⟩ | h)
      · cases h
        exact ⟨rfl, hm⟩
      · cases h
    · rintro ⟨rfl, hm⟩
      exact Or.inl ⟨mantissa, exponent, rfl, hm⟩

/-- C10, as stated, fails: for an envelope whose change value is NaN the payment section
holds a `Troco:` line (showing `R$ NaN`), although NaN is not greater than 0. -/
theorem change_line_counterexample :
    textsAfter (utf8 "span")
        (htmlSegments (paymentNodes (exampleLib (.ok nfeChangeNaN)) nfeChangeNaN).flatten) =
      [utf8 "Troco:", utf8 "R$ NaN"] ∧
    Float64.gt nfeChangeNaN.NFe.InfNFe.Pag.VTroco Float64.zero = false := by
  refine ⟨?_, by decide⟩
  rw [spans_payment]
  decide

/-- C10, amended: the renderer writes the payment section, which holds one payment line
for each payment-detail entry, in source order, showing the description
`GetPaymentMethodDescription` gives for the code of the entry followed by a colon, and the
amount of the entry formatted by `FormatCurrency` (as HTML text); a `Troco:` line with the
formatted change value follows them if and only if the change value is greater than 0 or
is NaN; no description reads `Troco`. -/
theorem payment_lines (lib : Lib) (nfe : NFeProc) :
    rendersWithin lib nfe (paymentNodes lib nfe).flatten ∧
    textsAfter (utf8 "span") (htmlSegments (paymentNodes lib nfe).flatten) =
      (nfe.NFe.InfNFe.Pag.DetPag.map (fun detPag =>
        [GetPaymentMethodDescription detPag.TPag ++ utf8 ":",
         htmlEscape (FormatCurrency lib detPag.VPag)])).flatten ++
      (if Float64.gt nfe.NFe.InfNFe.Pag.VTroco Float64.zero = true ∨
          nfe.NFe.InfNFe.Pag.VTroco = .nan then
        [utf8 "Troco:", htmlEscape (FormatCurrency lib nfe.NFe.InfNFe.Pag.VTroco)]
       else []) ∧
    countTag (utf8 "div class=\"payment-line\"")
        (htmlSegments (paymentNodes lib nfe).flatten) =
      nfe.NFe.InfNFe.Pag.DetPag.length +
        (if Float64.gt nfe.NFe.InfNFe.Pag.VTroco Float64.zero = true ∨
          nfe.NFe.InfNFe.Pag.VTroco = .nan then 1 else 0) ∧
    (∀ code, GetPaymentMethodDescription code ++ utf8 ":" ≠ utf8 "Troco:") := by
  refine ⟨renders_payment lib nfe, ?_, ?_, description_ne_troco⟩
  · rw [spans_payment, tmplGt_zero_eq]
    by_cases h1 : Float64.gt nfe.NFe.InfNFe.Pag.VTroco Float64.zero = true ∨
        nfe.NFe.InfNFe.Pag.VTroco = .nan <;>
    simp only [h1, decide_True, decide_False, if_true, if_false, Bool.false_eq_true] <;> rfl
  · rw [lines_payment, tmplGt_zero_eq]
    by_cases h1 : Float64.gt nfe.NFe.InfNFe.Pag.VTroco Float64.zero = true ∨
        nfe.NFe.InfNFe.Pag.VTroco = .nan <;>
    simp [h1]

/-! ## Rendering never fails on data -/

theorem execute_no_error (chunks : List Bytes) (w : Writer)
    (hw : ∀ a p, (w.accept a p).2 = none) :
    (execute (chunks.map Except.ok) w).2 = none := by
  induction chunks generalizing w with
  | nil => simp [execute]
  | cons p rest ih =>
    simp only [List.map_cons, execute, Writer.Write, hw]
    exact ih { written := w.written ++ p.take (w.accept w.written p).1, accept := w.accept } hw

theorem danfeTemplate_ok (lib : Lib) (nfe : NFeProc) :
    ∃ chunks : List Bytes, danfeTemplate lib nfe = chunks.map Except.ok := by
  obtain ⟨chunks, hc⟩ := headerNodes_ok nfe
  refine ⟨chunks ++ (itemsNodes lib nfe.NFe.InfNFe.Det ++ totalsNodes lib nfe ++
        paymentNodes lib nfe ++ consumerNodes nfe ++ infoNodes lib nfe ++
        qrNodes lib nfe), ?_⟩
  rw [danfeTemplate, hc]
  simp only [List.map_append]

theorem RenderToWriter_no_error (lib : Lib) (nfe : NFeProc) (writer : Writer)
    (hw : ∀ a p, (writer.accept a p).2 = none) :
    (RenderToWriter lib nfe writer).2 = none := by
  obtain ⟨chunks, hc⟩ := danfeTemplate_ok lib nfe
  have h := execute_no_error chunks writer hw
  rw [RenderToWriter, hc]
  cases hx : execute (chunks.map Except.ok) writer with
  | mk w1 e =>
    rw [hx] at h
    simp only at h
    subst h
    rfl

theorem RenderToWriter_buffer (lib : Lib) (nfe : NFeProc) :
    RenderToWriter lib nfe newBuffer =
      ({ written := rendered lib nfe, accept := newBuffer.accept }, none) := by
  obtain ⟨pre, post, h⟩ := render_buffer lib nfe
  rw [rendered, h]

/-- C15: for every envelope and every writer none of whose writes reports an error,
`RenderToWriter` returns no error: no field value makes the rendering fail.  In
particular every node of the executed template writes bytes (no template function
panics). -/
theorem render_never_fails_on_data (lib : Lib) (nfe : NFeProc) (writer : Writer)
    (hw : ∀ a p, (writer.accept a p).2 = none) :
    (RenderToWriter lib nfe writer).2 = none ∧
    (∃ chunks : List Bytes, danfeTemplate lib nfe = chunks.map Except.ok) ∧
    (FormatCNPJ nfe.NFe.InfNFe.Emit.CNPJ).isSome = true ∧
    (FormatCEP nfe.NFe.InfNFe.Emit.EnderEmit.CEP).isSome = true := by
  refine ⟨RenderToWriter_no_error lib nfe writer hw, danfeTemplate_ok lib nfe, ?_, ?_⟩
  · rw [FormatCNPJ_eq]
    rfl
  · rw [FormatCEP_eq]
    rfl

/-- C15, at an input: the envelope whose fields are all zero values (no recipient, no
items, no payments, no supplementary or additional information), rendered into a buffer. -/
theorem render_never_fails_on_data_witness :
    (∀ a p, (newBuffer.accept a p).2 = none) ∧
    (RenderToWriter (exampleLib (.ok {})) {} newBuffer).2 = none :=
  ⟨fun _ _ => rfl,
    (render_never_fails_on_data (exampleLib (.ok {})) {} newBuffer (fun _ _ => rfl)).1⟩

/-! ## The PDF bridge -/

/-- C16: when the request is created and the endpoint responds, with a body that is read
in full, `ConvertHTMLToPDF` returns the body as it is if the status is 200 and the body is
not empty; for any other status it fails with the error whose message is
`erro na API do Gotenberg (status `, the status in decimal, `): ` and the body as it is;
for status 200 and an empty body it fails with the empty-PDF error; so it succeeds exactly
when the status is 200 and the body is not empty. -/
theorem convert_by_response (lib : Lib) (c : PDFConverter) (htmlContent : Bytes)
    (resp : HTTPResponse)
    (hreq : lib.httpNewRequest (c.gotenbergURL ++ utf8 "/forms/chromium/convert/html") = none)
    (hresp : lib.httpPostForm (c.gotenbergURL ++ utf8 "/forms/chromium/convert/html")
        (utf8 "files", utf8 "index.html", htmlContent)
        [ (utf8 "paperWidth", utf8 "3.15in"), (utf8 "singlePage", utf8 "true"),
          (utf8 "marginTop", utf8 "0"), (utf8 "marginBottom", utf8 "0"),
          (utf8 "marginLeft", utf8 "0"), (utf8 "marginRight", utf8 "0"),
          (utf8 "printBackground", utf8 "true"), (utf8 "scale", utf8 "1.0") ] = .ok resp)
    (hread : resp.readErr = none) :
    (resp.StatusCode = 200 → resp.body ≠ [] →
      ConvertHTMLToPDF lib c htmlContent = .ok resp.body) ∧
    (resp.StatusCode ≠ 200 →
      ConvertHTMLToPDF lib c htmlContent =
        .error (.plain (utf8 "erro na API do Gotenberg (status " ++ decimal resp.StatusCode ++
          utf8 "): " ++ resp.body))) ∧
    (resp.StatusCode = 200 → resp.body = [] →
      ConvertHTMLToPDF lib c htmlContent = .error (.plain (utf8 "PDF gerado está vazio"))) ∧
    ((∃ pdf, ConvertHTMLToPDF lib c htmlContent = .ok pdf) ↔
      (resp.StatusCode = 200 ∧ resp.body ≠ [])) ∧
    digitsValue (decimal resp.StatusCode) = resp.StatusCode := by
  refine ⟨?_, ?_, ?_, ?_, digitsValue_decimal _⟩
  · intro h200 hbody
    simp [ConvertHTMLToPDF, hreq, hresp, hread, h200, hbody]
  · intro h200
    simp [ConvertHTMLToPDF, hreq, hresp, h200]
  · intro h200 hbody
    simp [ConvertHTMLToPDF, hreq, hresp, hread, h200, hbody]
  · by_cases h200 : resp.StatusCode = 200
    · by_cases hbody : resp.body = []
      · simp [ConvertHTMLToPDF, hreq, hresp, hread, h200, hbody]
      · simp [ConvertHTMLToPDF, hreq, hresp, hread, h200, hbody]
    · simp [ConvertHTMLToPDF, hreq, hresp, h200]

/-- C16, at an input: the endpoint answers 200 with the body `%PDF`. -/
theorem convert_by_response_witness :
    ConvertHTMLToPDF (respondingLib ⟨200, utf8 "%PDF", none⟩) ⟨utf8 "http://localhost:3000"⟩
      (utf8 "<html></html>") = .ok (utf8 "%PDF") :=
  (convert_by_response (respondingLib ⟨200, utf8 "%PDF", none⟩) ⟨utf8 "http://localhost:3000"⟩
    (utf8 "<html></html>") ⟨200, utf8 "%PDF", none⟩ rfl rfl rfl).1 rfl (by decide)

/-! ## PDF generation -/

/-- C17: PDF generation through `GenerateToWriter` renders the HTML into a buffer of its
own and converts it; when the conversion fails (for one, when the endpoint cannot be
reached) it returns the conversion error wrapped and leaves the writer as it was; when
the conversion succeeds it makes exactly one `Write`, of the PDF bytes. -/
theorem pdf_all_or_nothing (lib : Lib) (g : Generator) (writer : Writer) :
    (∀ err, ConvertHTMLToPDF lib (NewPDFConverter lib) (rendered lib g.nfe) = .error err →
      g.GenerateToWriter lib writer { Format := FormatPDF } =
        (writer, some (errorfW "erro ao converter para PDF: " err))) ∧
    (∀ pdfBytes, ConvertHTMLToPDF lib (NewPDFConverter lib) (rendered lib g.nfe) = .ok pdfBytes →
      g.GenerateToWriter lib writer { Format := FormatPDF } = writer.Write pdfBytes) ∧
    (∀ err, lib.httpNewRequest (convertURL (NewPDFConverter lib)) = none →
      lib.httpPostForm (convertURL (NewPDFConverter lib))
        (utf8 "files", utf8 "index.html", rendered lib g.nfe)
        [ (utf8 "paperWidth", utf8 "3.15in"), (utf8 "singlePage", utf8 "true"),
          (utf8 "marginTop", utf8 "0"), (utf8 "marginBottom", utf8 "0"),
          (utf8 "marginLeft", utf8 "0"), (utf8 "marginRight", utf8 "0"),
          (utf8 "printBackground", utf8 "true"), (utf8 "scale", utf8 "1.0") ] = .error err →
      g.GenerateToWriter lib writer { Format := FormatPDF } =
        (writer, some (errorfW "erro ao converter para PDF: "
          (errorfW "erro ao executar requisição: " err)))) := by
  have hne : FormatPDF ≠ FormatHTML := by decide
  refine ⟨?_, ?_, ?_⟩
  · intro err h
    simp [Generator.GenerateToWriter, Generator.generatePDF, hne, RenderToWriter_buffer, h]
  · intro pdfBytes h
    simp [Generator.GenerateToWriter, Generator.generatePDF, hne, RenderToWriter_buffer, h]
  · intro err hreq hpost
    have h : ConvertHTMLToPDF lib (NewPDFConverter lib) (rendered lib g.nfe) =
        .error (errorfW "erro ao executar requisição: " err) := by
      simp only [convertURL] at hreq hpost
      simp [ConvertHTMLToPDF, hreq, hpost]
    simp [Generator.GenerateToWriter, Generator.generatePDF, hne, RenderToWriter_buffer, h]

/-! ## Output files -/

theorem SaveDANFE_failure (lib : Lib) (os : OS) (files : Files) (xmlContent outputPath : Bytes)
    (options : Option Options) (err : GoError)
    (h : (GenerateDANFE lib xmlContent options).result = .error err) :
    (SaveDANFE lib os files xmlContent outputPath options).err = some err ∧
    (SaveDANFE lib os files xmlContent outputPath options).files = files := by
  unfold SaveDANFE
  cases hg : GenerateDANFE lib xmlContent options with
  | mk result opts =>
    rw [hg] at h
    simp only at h
    subst h
    exact ⟨rfl, rfl⟩

/-- C18, at a failing input: `GenerateToFile` creates the file before it generates.  For an
NFC-e, the existing file `out.html` and the format `xml`, it returns the unsupported-format
error and leaves `out.html` empty; with the format `pdf` and an endpoint that cannot
be reached it returns the conversion error and leaves `out.html` empty; for a path that
did not exist it leaves an empty file.  `SaveDANFE`, which generates first, leaves the
files as they were when the generation fails. -/
theorem GenerateToFile_truncates :
    exampleFiles (utf8 "out.html") = some (utf8 "old") ∧
    ((Generator.mk nfeModel65).GenerateToFile (exampleLib (.ok nfeModel65)) exampleOS
        exampleFiles (utf8 "out.html") { Format := utf8 "xml" }).2 =
      some (.plain (utf8 "formato não suportado: xml")) ∧
    ((Generator.mk nfeModel65).GenerateToFile (exampleLib (.ok nfeModel65)) exampleOS
        exampleFiles (utf8 "out.html") { Format := utf8 "xml" }).1 (utf8 "out.html") =
      some [] ∧
    ((Generator.mk nfeModel65).GenerateToFile (exampleLib (.ok nfeModel65)) exampleOS
        exampleFiles (utf8 "out.html") { Format := FormatPDF }).2 =
      some (errorfW "erro ao converter para PDF: "
        (errorfW "erro ao executar requisição: " (.plain (utf8 "connection refused")))) ∧
    ((Generator.mk nfeModel65).GenerateToFile (exampleLib (.ok nfeModel65)) exampleOS
        exampleFiles (utf8 "out.html") { Format := FormatPDF }).1 (utf8 "out.html") =
      some [] ∧
    exampleFiles (utf8 "new.pdf") = none ∧
    ((Generator.mk nfeModel65).GenerateToFile (exampleLib (.ok nfeModel65)) exampleOS
        exampleFiles (utf8 "new.pdf") { Format := FormatPDF }).1 (utf8 "new.pdf") =
      some [] ∧
    (SaveDANFE (exampleLib (.ok nfeModel65)) exampleOS exampleFiles [] (utf8 "out.html")
        (some { Format := utf8 "xml" })).err = some (errUnsupportedFormat (utf8 "xml")) ∧
    (SaveDANFE (exampleLib (.ok nfeModel65)) exampleOS exampleFiles [] (utf8 "out.html")
        (some { Format := utf8 "xml" })).files (utf8 "out.html") = some (utf8 "old") := by
  have hne : FormatPDF ≠ FormatHTML := by decide
  have hconv : ConvertHTMLToPDF (exampleLib (.ok nfeModel65))
      (NewPDFConverter (exampleLib (.ok nfeModel65)))
      (rendered (exampleLib (.ok nfeModel65)) nfeModel65) =
      .error (errorfW "erro ao executar requisição: " (.plain (utf8 "connection refused"))) := by
    simp [ConvertHTMLToPDF, exampleLib]
  have hpdf : ∀ w, (Generator.mk nfeModel65).GenerateToWriter (exampleLib (.ok nfeModel65)) w
      { Format := FormatPDF } = (w, some (errorfW "erro ao converter para PDF: "
        (errorfW "erro ao executar requisição: " (.plain (utf8 "connection refused"))))) := by
    intro w
    simp [Generator.GenerateToWriter, Generator.generatePDF, hne, RenderToWriter_buffer, hconv]
  have hsave := SaveDANFE_failure (exampleLib (.ok nfeModel65)) exampleOS exampleFiles []
    (utf8 "out.html") (some { Format := utf8 "xml" }) (errUnsupportedFormat (utf8 "xml"))
    (by decide)
  refine ⟨by decide, by decide, by decide, ?_, ?_, by decide, ?_, hsave.1, ?_⟩
  · simp [Generator.GenerateToFile, Create, exampleOS, hpdf]
  · simp [Generator.GenerateToFile, Create, exampleOS, hpdf, Files.set, fileWriter]
  · simp [Generator.GenerateToFile, Create, exampleOS, hpdf, Files.set, fileWriter]
  · rw [hsave.2]
    decide

/-! ## The default format and the QR payload -/

theorem GenerateDANFE_html_result (lib : Lib) (xmlContent : Bytes) (options : Option Options)
    (h : (defaultOptions options).1.Format = utf8 "html") :
    (GenerateDANFE lib xmlContent options).result =
      (GenerateDANFE lib xmlContent (some { Format := utf8 "html" })).result := by
  unfold GenerateDANFE
  cases NewGenerator lib xmlContent with
  | error err => rfl
  | ok generator =>
    by_cases hn : generator.IsNFCe = true
    · have h2 : (defaultOptions (some { Format := utf8 "html" })).1.Format = utf8 "html" := by
        decide
      simp only [hn, Bool.not_true, Bool.false_eq_true, if_false, h, h2]
      simp only [convertFormat, if_true]
      generalize generator.GenerateToWriter lib newBuffer { Format := FormatHTML } = r
      rcases r with ⟨w, _ | e⟩ <;> rfl
    · simp [hn]

theorem Internal_GenerateDANFE_html_result (nfce : InternalNfce) (xmlContent : Bytes)
    (options : Option Options) (h : (defaultOptions options).1.Format = utf8 "html") :
    (Internal.GenerateDANFE nfce xmlContent options).result =
      (Internal.GenerateDANFE nfce xmlContent (some { Format := utf8 "html" })).result := by
  unfold Internal.GenerateDANFE
  cases nfce.NewGenerator xmlContent with
  | error err => rfl
  | ok generator =>
    by_cases hn : nfce.IsNFCe generator = true
    · have h2 : (defaultOptions (some { Format := utf8 "html" })).1.Format = utf8 "html" := by
        decide
      simp only [hn, Bool.not_true, Bool.false_eq_true, if_false, h, h2]
      simp only [convertFormat, if_true]
      generalize nfce.GenerateToWriter generator newBuffer { Format := FormatHTML } = r
      rcases r with ⟨w, _ | e⟩ <;> rfl
    · simp [hn]

/-- C19: `GenerateDANFE` returns the same result (the same bytes or the same error) with
nil options, with options whose format is the empty string, and with options whose format
is `html`; for an NFC-e that decodes, this result is the rendered HTML.  The same holds
for `GenerateDANFE` of `internal/danfe`. -/
theorem default_format_is_html (lib : Lib) (nfce : InternalNfce) (xmlContent : Bytes) :
    (GenerateDANFE lib xmlContent none).result =
      (GenerateDANFE lib xmlContent (some { Format := utf8 "html" })).result ∧
    (GenerateDANFE lib xmlContent (some { Format := utf8 "" })).result =
      (GenerateDANFE lib xmlContent (some { Format := utf8 "html" })).result ∧
    (Internal.GenerateDANFE nfce xmlContent none).result =
      (Internal.GenerateDANFE nfce xmlContent (some { Format := utf8 "html" })).result ∧
    (Internal.GenerateDANFE nfce xmlContent (some { Format := utf8 "" })).result =
      (Internal.GenerateDANFE nfce xmlContent (some { Format := utf8 "html" })).result ∧
    (∀ nfe, lib.xmlUnmarshal xmlContent = .ok nfe → nfe.NFe.InfNFe.Ide.Mod = utf8 "65" →
      (GenerateDANFE lib xmlContent none).result = .ok (rendered lib nfe)) := by
  refine ⟨GenerateDANFE_html_result lib xmlContent none (by decide),
    GenerateDANFE_html_result lib xmlContent _ (by decide),
    Internal_GenerateDANFE_html_result nfce xmlContent none (by decide),
    Internal_GenerateDANFE_html_result nfce xmlContent _ (by decide), ?_⟩
  intro nfe hdec hmod
  simp [GenerateDANFE, NewGenerator_ok lib xmlContent nfe hdec, isNFCe_true_of_mod nfe hmod,
    defaultOptions, convertFormat, Generator.GenerateToWriter, Generator.generateHTML,
    FormatHTML, RenderToWriter_buffer]

/-- C20: `GetQRCode` returns the empty string for an envelope without supplementary-info
record, and the `qrCode` value of the record, unchanged, for an envelope with one. -/
theorem GetQRCode_spec (versao xmlns : Bytes) (infNFe : InfNFe) (protNFe : ProtNFe)
    (supl : InfNFeSupl) :
    (NFeProc.mk versao xmlns { InfNFe := infNFe, InfNFeSupl := none } protNFe).GetQRCode = [] ∧
    (NFeProc.mk versao xmlns { InfNFe := infNFe, InfNFeSupl := some supl } protNFe).GetQRCode =
      supl.QrCode := by
  exact ⟨rfl, rfl⟩

/-! ## The access key -/

theorem decodeRune_ascii (b : Nat) (rest : Bytes) (h : b < 128) :
    decodeRune (b :: rest) = (b, 1) := by
  simp [decodeRune, h]

theorem encodeRune_ascii (b : Nat) (h : b < 128) : encodeRune b = [b] := by
  simp [encodeRune, h]

theorem formatKeyLoop_ascii (fuel i : Nat) (rest result : Bytes)
    (hascii : ∀ b ∈ rest, b < 128) (hfuel : rest.length ≤ fuel) :
    formatKeyLoop fuel i rest result = result ++ spaced i rest := by
  induction fuel generalizing i rest result with
  | zero =>
    have : rest = [] := List.length_eq_zero.mp (by omega)
    subst this
    simp [formatKeyLoop, spaced]
  | succ fuel ih =>
    cases rest with
    | nil => simp [formatKeyLoop, spaced]
    | cons b rest =>
      have hb : b < 128 := hascii b (List.mem_cons_self b rest)
      have hrest : ∀ x ∈ rest, x < 128 := fun x hx => hascii x (List.mem_cons_of_mem b hx)
      simp only [List.length_cons] at hfuel
      simp only [formatKeyLoop, decodeRune_ascii b rest hb, encodeRune_ascii b hb,
        List.drop_succ_cons, List.drop_zero]
      rw [ih (i + 1) rest _ hrest (by omega)]
      have hsp : utf8 " " = [32] := by decide
      by_cases hi : i > 0 ∧ i % 4 = 0
      · simp [spaced, hi, hsp]
      · simp [spaced, hi]

theorem formatKey_ascii (key : Bytes) (hascii : ∀ b ∈ key, b < 128) :
    formatKey key = spaced 0 key := by
  unfold formatKey
  split_ifs with h
  · have : key = [] := List.length_eq_zero.mp h
    subst this
    rfl
  · rw [formatKeyLoop_ascii _ _ _ _ hascii (le_refl _)]
    simp

theorem groupsOf4Aux_ne_nil (fuel : Nat) (l : Bytes) (h1 : l ≠ []) (h2 : l.length ≤ fuel) :
    groupsOf4Aux fuel l ≠ [] := by
  cases fuel with
  | zero =>
    exact absurd (List.length_eq_zero.mp (by omega)) h1
  | succ fuel =>
    unfold groupsOf4Aux
    split_ifs <;> simp

theorem intercalate_cons (sep g : Bytes) (gs : List Bytes) (h : gs ≠ []) :
    List.intercalate sep (g :: gs) = g ++ sep ++ List.intercalate sep gs := by
  cases gs with
  | nil => exact absurd rfl h
  | cons g2 gs => simp [List.intercalate, List.intersperse]

theorem intercalate_single (sep g : Bytes) : List.intercalate sep [g] = g := by
  simp [List.intercalate, List.intersperse]

theorem spaced_groups (fuel : Nat) (l : Bytes) (i : Nat) (hl : l.length ≤ fuel)
    (hi : i % 4 = 0) :
    spaced i l = (if 0 < i ∧ l ≠ [] then [32] else []) ++
      List.intercalate [32] (groupsOf4Aux fuel l) := by
  induction fuel generalizing l i with
  | zero =>
    have : l = [] := List.length_eq_zero.mp (by omega)
    subst this
    simp [spaced, groupsOf4Aux, List.intercalate]
  | succ fuel ih =>
    have h1 : (i + 1) % 4 ≠ 0 := by omega
    have h2 : (i + 1 + 1) % 4 ≠ 0 := by omega
    have h3 : (i + 1 + 1 + 1) % 4 ≠ 0 := by omega
    match l, hl with
    | [], _ => simp [spaced, groupsOf4Aux, List.intercalate]
    | [a], _ =>
      by_cases h0 : 0 < i <;>
        simp [spaced, groupsOf4Aux, intercalate_single, h0, hi]
    | [a, b], _ =>
      by_cases h0 : 0 < i <;>
        simp [spaced, groupsOf4Aux, intercalate_single, h0, hi, h1]
    | [a, b, c], _ =>
      by_cases h0 : 0 < i <;>
        simp [spaced, groupsOf4Aux, intercalate_single, h0, hi, h1, h2]
    | [a, b, c, d], _ =>
      by_cases h0 : 0 < i <;>
        simp [spaced, groupsOf4Aux, intercalate_single, h0, hi, h1, h2, h3]
    | a :: b :: c :: d :: e :: rest, hl =>
      simp only [List.length_cons] at hl
      have hne : groupsOf4Aux fuel (e :: rest) ≠ [] :=
        groupsOf4Aux_ne_nil fuel (e :: rest) (by simp) (by simp only [List.length_cons]; omega)
      have ih2 := ih (e :: rest) (i + 1 + 1 + 1 + 1) (by simp only [List.length_cons]; omega)
        (by omega)
      have hg : groupsOf4Aux (fuel + 1) (a :: b :: c :: d :: e :: rest) =
          [a, b, c, d] :: groupsOf4Aux fuel (e :: rest) := by
        simp [groupsOf4Aux]
      rw [hg, intercalate_cons _ _ _ hne]
      have hs : spaced i (a :: b :: c :: d :: e :: rest) =
          (if i > 0 ∧ i % 4 = 0 then [32] else []) ++
            a :: b :: c :: d :: spaced (i + 1 + 1 + 1 + 1) (e :: rest) := by
        simp [spaced, h1, h2, h3]
      rw [hs, ih2]
      by_cases h0 : 0 < i <;> simp [h0, hi]

theorem groupsOf4Aux_flatten (fuel : Nat) (l : Bytes) (hl : l.length ≤ fuel) :
    (groupsOf4Aux fuel l).flatten = l := by
  induction fuel generalizing l with
  | zero =>
    have : l = [] := List.length_eq_zero.mp (by omega)
    subst this
    rfl
  | succ fuel ih =>
    unfold groupsOf4Aux
    split_ifs with h1 h2
    · simp [h2]
    · simp
    · simp only [List.flatten_cons]
      rw [ih (l.drop 4) (by simp only [List.length_drop]; omega)]
      exact List.take_append_drop 4 l

theorem groupsOf4Aux_lengths (fuel : Nat) (l : Bytes) (hl : l.length ≤ fuel) :
    (∀ g ∈ groupsOf4Aux fuel l, 1 ≤ g.length ∧ g.length ≤ 4) ∧
    (∀ g ∈ (groupsOf4Aux fuel l).dropLast, g.length = 4) ∧
    (groupsOf4Aux fuel l).length = (l.length + 3) / 4 ∧
    (l.length % 4 = 0 → ∀ g ∈ groupsOf4Aux fuel l, g.length = 4) := by
  induction fuel generalizing l with
  | zero =>
    have : l = [] := List.length_eq_zero.mp (by omega)
    subst this
    simp [groupsOf4Aux]
  | succ fuel ih =>
    unfold groupsOf4Aux
    split_ifs with h1 h2
    · simp [h2]
    · have hpos : 0 < l.length := List.length_pos.mpr h2
      refine ⟨?_, ?_, ?_, ?_⟩
      · intro g hg
        simp only [List.mem_singleton] at hg
        subst hg
        omega
      · simp
      · simp only [List.length_singleton]
        omega
      · intro hmod g hg
        simp only [List.mem_singleton] at hg
        subst hg
        omega
    · have hlen : (l.drop 4).length = l.length - 4 := List.length_drop 4 l
      have hdrop : (l.drop 4).length ≤ fuel := by omega
      have hne : groupsOf4Aux fuel (l.drop 4) ≠ [] :=
        groupsOf4Aux_ne_nil fuel _ (by
          intro h
          rw [h] at hlen
          simp only [List.length_nil] at hlen
          omega) hdrop
      obtain ⟨ih1, ih2, ih3, ih4⟩ := ih (l.drop 4) hdrop
      have htake : (l.take 4).length = 4 := by
        rw [List.length_take]
        omega
      refine ⟨?_, ?_, ?_, ?_⟩
      · intro g hg
        rcases List.mem_cons.mp hg with rfl | hg
        · omega
        · exact ih1 g hg
      · intro g hg
        rw [List.dropLast_cons_of_ne_nil hne] at hg
        rcases List.mem_cons.mp hg with rfl | hg
        · exact htake
        · exact ih2 g hg
      · simp only [List.length_cons, ih3, hlen]
        omega
      · intro hmod g hg
        rcases List.mem_cons.mp hg with rfl | hg
        · exact htake
        · exact ih4 (by omega) g hg

theorem intercalate_length (gs : List Bytes) :
    (List.intercalate [32] gs).length = gs.flatten.length + (gs.length - 1) := by
  induction gs with
  | nil => simp [List.intercalate]
  | cons g gs ih =>
    cases gs with
    | nil => simp [intercalate_single]
    | cons g2 gs =>
      rw [intercalate_cons _ _ _ (by simp)]
      simp only [List.length_append, ih, List.flatten_cons, List.length_cons,
        List.length_singleton, List.length_nil]
      omega

/-- C12, at a failing input: `formatKey` goes through the characters of the key and writes
each of them, but the index it tests is the byte offset of the character.  In the key
`123ã5678`, where `ã` takes two bytes, the characters start at the offsets 0, 1, 2, 3, 5,
6, 7 and 8, so the only space is put in front of the `8`: the first group has seven
characters, not four, and the result is not `123ã 5678`.  A byte that is not valid UTF-8
is written as U+FFFD, so the key is not given back. -/
theorem formatKey_counterexample :
    formatKey (utf8 "123ã5678") = utf8 "123ã567 8" ∧
    formatKey (utf8 "123ã5678") ≠ utf8 "123ã 5678" ∧
    formatKey [255] = [0xEF, 0xBF, 0xBD] := by
  decide

/-- Where `formatKey` does what C12 says: for every access key of single-byte (ASCII)
characters, of any length, the byte offset of a character is its position, and
`formatKey` returns the groups of four characters of the key, in order, joined by single
spaces; every group has one to four characters, every group but the last has four, and
the groups put together are the key; a key of 44 characters gives 11 groups of four and
54 characters. -/
theorem formatKey_groups (key : Bytes) (hascii : ∀ b ∈ key, b < 128) :
    formatKey key = List.intercalate [32] (groupsOf4 key) ∧
    (groupsOf4 key).flatten = key ∧
    (∀ g ∈ groupsOf4 key, 1 ≤ g.length ∧ g.length ≤ 4) ∧
    (∀ g ∈ (groupsOf4 key).dropLast, g.length = 4) ∧
    (key.length = 44 → (groupsOf4 key).length = 11 ∧
      (∀ g ∈ groupsOf4 key, g.length = 4) ∧ (formatKey key).length = 54) := by
  have hfmt : formatKey key = List.intercalate [32] (groupsOf4 key) := by
    rw [formatKey_ascii key hascii, spaced_groups key.length key 0 (le_refl _) rfl]
    simp [groupsOf4]
  obtain ⟨h1, h2, h3, h4⟩ := groupsOf4Aux_lengths key.length key (le_refl _)
  have hflat := groupsOf4Aux_flatten key.length key (le_refl _)
  refine ⟨hfmt, hflat, h1, h2, ?_⟩
  intro h44
  have hlen : (groupsOf4 key).length = 11 := by
    rw [groupsOf4, h3, h44]
  refine ⟨hlen, h4 (by omega), ?_⟩
  rw [hfmt, intercalate_length, hlen]
  rw [groupsOf4, hflat, h44]

/-- The same at an input: an access key of 44 digits. -/
theorem formatKey_groups_witness :
    (∀ b ∈ utf8 "35240112345678000199650010000001231234567890", b < 128) ∧
    formatKey (utf8 "35240112345678000199650010000001231234567890") =
      utf8 "3524 0112 3456 7800 0199 6500 1000 0001 2312 3456 7890" :=
  ⟨by decide,
    (formatKey_groups (utf8 "35240112345678000199650010000001231234567890")
      (by decide)).1.trans (by decide)⟩

/-! ## The tags of the rendered document -/

theorem TagReader.scan_nil (r : TagReader) : r.run [] = r := rfl

theorem TagReader.scan_cons (r : TagReader) (b : Nat) (l : Bytes) :
    r.run (b :: l) = (r.step b).run l := rfl

theorem TagReader.scan_append (r : TagReader) (a b : Bytes) :
    r.run (a ++ b) = (r.run a).run b := by
  simp [TagReader.run, List.foldl_append]

/-- Tags read earlier stay in front of the tags read later. -/
theorem TagReader.step_prefix (c : Bytes) (tss xs : List Bytes) (st : Bool) (b : Nat) :
    TagReader.step ⟨tss ++ xs, st, c⟩ b =
      ⟨tss ++ (TagReader.step ⟨xs, st, c⟩ b).tags, (TagReader.step ⟨xs, st, c⟩ b).inTag,
        (TagReader.step ⟨xs, st, c⟩ b).cur⟩ := by
  unfold TagReader.step
  cases st <;> simp <;> split_ifs <;> simp

theorem TagReader.run_prefix (l : Bytes) : ∀ (tss xs : List Bytes) (st : Bool) (c : Bytes),
    TagReader.run ⟨tss ++ xs, st, c⟩ l =
      ⟨tss ++ (TagReader.run ⟨xs, st, c⟩ l).tags, (TagReader.run ⟨xs, st, c⟩ l).inTag,
        (TagReader.run ⟨xs, st, c⟩ l).cur⟩ := by
  induction l with
  | nil => intro tss xs st c; rfl
  | cons b l ih =>
    intro tss xs st c
    rw [TagReader.scan_cons, TagReader.scan_cons, TagReader.step_prefix c tss xs st b, ih]

theorem TagReader.step_text (r : TagReader) (b : Nat) (h : (r.step b).inTag = false) :
    (r.step b).cur = [] := by
  unfold TagReader.step at h ⊢
  split_ifs at h ⊢ <;> simp_all

theorem TagReader.run_text_cur (l : Bytes) : ∀ r : TagReader,
    (r.inTag = false → r.cur = []) → (r.run l).inTag = false → (r.run l).cur = [] := by
  induction l with
  | nil => intro r h h2; exact h h2
  | cons b l ih =>
    intro r _ h2
    rw [TagReader.scan_cons] at h2 ⊢
    exact ih (r.step b) (TagReader.step_text r b) h2

/-- A chunk that ends outside a tag adds its tags and leaves the reader outside a tag. -/
theorem TagReader.run_closes (c : Bytes) (tss : List Bytes) (h : closes c = true) :
    TagReader.run ⟨tss, false, []⟩ c = ⟨tss ++ tagsIn c, false, []⟩ := by
  have h1 := TagReader.run_prefix c tss [] false []
  rw [List.append_nil] at h1
  have h2 : (TagReader.run ⟨[], false, []⟩ c).inTag = false := by
    simpa [closes] using h
  have h3 := TagReader.run_text_cur c ⟨[], false, []⟩ (fun _ => rfl) h2
  rw [h1, h2, h3]
  rfl

theorem TagReader.run_chunks (chunks : List Bytes) : ∀ tss : List Bytes,
    (∀ c ∈ chunks, closes c = true) →
    TagReader.run ⟨tss, false, []⟩ chunks.flatten =
      ⟨tss ++ (chunks.map tagsIn).flatten, false, []⟩ := by
  induction chunks with
  | nil => intro tss _; simp [TagReader.scan_nil]
  | cons c rest ih =>
    intro tss h
    rw [List.flatten_cons, TagReader.scan_append,
      TagReader.run_closes c tss (h c (List.mem_cons_self c rest)),
      ih _ (fun x hx => h x (List.mem_cons_of_mem c hx))]
    simp

theorem tagsIn_flatten (chunks : List Bytes) (h : ∀ c ∈ chunks, closes c = true) :
    tagsIn chunks.flatten = (chunks.map tagsIn).flatten ∧ closes chunks.flatten = true := by
  have h1 := TagReader.run_chunks chunks [] h
  simp [tagsIn, closes, h1]

theorem plainChunk_iff (c : Bytes) :
    plainChunk c = true ↔ closes c = true ∧ ∀ t ∈ tagsIn c, isQRTag t = false := by
  simp [plainChunk]

/-- Plain chunks written one after the other make a plain chunk. -/
theorem plainChunk_flatten (chunks : List Bytes) (h : ∀ c ∈ chunks, plainChunk c = true) :
    plainChunk chunks.flatten = true := by
  have hc : ∀ c ∈ chunks, closes c = true := fun c hc => ((plainChunk_iff c).1 (h c hc)).1
  obtain ⟨h1, h2⟩ := tagsIn_flatten chunks hc
  rw [plainChunk_iff, h1]
  refine ⟨h2, ?_⟩
  intro t ht
  simp only [List.mem_flatten, List.mem_map] at ht
  obtain ⟨l, ⟨c, hcm, rfl⟩, htl⟩ := ht
  exact ((plainChunk_iff c).1 (h c hcm)).2 t htl

theorem TagReader.scan_text (d : Bytes) (hd : ∀ b ∈ d, b ≠ 60) :
    TagReader.run ⟨[], false, []⟩ d = ⟨[], false, []⟩ := by
  induction d with
  | nil => rfl
  | cons b d ih =>
    have hb : b ≠ 60 := hd b (List.mem_cons_self b d)
    rw [TagReader.scan_cons]
    simp only [TagReader.step, hb, if_false, Bool.false_eq_true]
    exact ih (fun x hx => hd x (List.mem_cons_of_mem b hx))

/-- Bytes without `<` are a plain chunk. -/
theorem plainChunk_text (d : Bytes) (hd : ∀ b ∈ d, b ≠ 60) : plainChunk d = true := by
  simp [plainChunk, closes, tagsIn, TagReader.scan_text d hd]

theorem plainChunk_escape (s : Bytes) : plainChunk (htmlEscape s) = true :=
  plainChunk_text _ (htmlEscape_no_lt s)

/-! ## From the reader of segments to the reader of tags -/

theorem Reader.tagView_step (r : Reader) (b : Nat) :
    (r.step b).tagView = r.tagView.step b := by
  obtain ⟨S, T, C, st⟩ := r
  cases st <;> by_cases h60 : b = 60 <;> by_cases h62 : b = 62 <;>
    simp [Reader.step, Reader.tagView, TagReader.step, h60, h62]

theorem Reader.tagView_run (l : Bytes) : ∀ r : Reader,
    (r.run l).tagView = r.tagView.run l := by
  induction l with
  | nil => intro r; rfl
  | cons b l ih =>
    intro r
    rw [Reader.run_cons, TagReader.scan_cons, ih, Reader.tagView_step]

/-- The tags of the segments of a run of bytes that ends outside a tag: the empty tag of
the text before the first tag, then the tags in order. -/
theorem htmlSegments_tags (out : Bytes) (h : closes out = true) :
    (htmlSegments out).map (fun s => s.tag) = [] :: tagsIn out := by
  have h1 := Reader.tagView_run out Reader.init
  have h2 : Reader.init.tagView = ⟨[[]] ++ [], false, []⟩ := rfl
  rw [h2, TagReader.run_prefix] at h1
  have h3 : (TagReader.run ⟨[], false, []⟩ out).inTag = false := by
    simpa [closes] using h
  have h4 : (Reader.init.run out).inTag = false := by
    have := congrArg TagReader.inTag h1
    simpa [Reader.tagView, h3] using this
  have h5 := congrArg TagReader.tags h1
  simp only [Reader.tagView, h4, Bool.false_eq_true, if_false] at h5
  simp only [htmlSegments, Reader.finish, h4, Bool.false_eq_true, if_false, List.map_append,
    List.map_cons, List.map_nil]
  rw [h5]
  rfl

/-- In a plain run of bytes no segment has a tag of the QR section. -/
theorem plainChunk_segments (out : Bytes) (h : plainChunk out = true) :
    ∀ s ∈ htmlSegments out, isQRTag s.tag = false := by
  obtain ⟨h1, h2⟩ := (plainChunk_iff out).1 h
  intro s hs
  have hm : s.tag ∈ (htmlSegments out).map (fun s => s.tag) := List.mem_map_of_mem _ hs
  rw [htmlSegments_tags out h1, List.mem_cons] at hm
  rcases hm with h0 | hm
  · rw [h0]; decide
  · exact h2 _ hm

/-- A chunk that ends outside a tag leaves the reader of segments outside a tag. -/
theorem Reader.run_closes_inTag (c : Bytes) (h : closes c = true) (S : List Seg) (T C : Bytes) :
    (Reader.run ⟨S, T, C, false⟩ c).inTag = false := by
  have h1 := Reader.tagView_run c ⟨S, T, C, false⟩
  have h2 : (Reader.tagView ⟨S, T, C, false⟩) = ⟨S.map (fun s => s.tag) ++ [T], false, []⟩ := rfl
  rw [h2, TagReader.run_closes c _ h] at h1
  have := congrArg TagReader.inTag h1
  simpa [Reader.tagView] using this

/-- Segments completed by the reader stay where they are. -/
theorem Reader.run_segs (l : Bytes) : ∀ r : Reader, ∃ more, (r.run l).segs = r.segs ++ more := by
  induction l with
  | nil => intro r; exact ⟨[], by simp [Reader.run_nil]⟩
  | cons b l ih =>
    intro r
    obtain ⟨more, hm⟩ := ih (r.step b)
    rw [Reader.run_cons, hm]
    unfold Reader.step
    split_ifs
    · exact ⟨more, rfl⟩
    · exact ⟨more, rfl⟩
    · exact ⟨⟨r.tag, r.cur⟩ :: more, by simp⟩
    · exact ⟨more, rfl⟩

/-- A segment completed by the reader is a segment of the whole input. -/
theorem Reader.finish_segs (l : Bytes) (r : Reader) (S R : List Seg) (s : Seg)
    (h : r.segs = S ++ s :: R) : ∃ after, (r.run l).finish = S ++ s :: after := by
  obtain ⟨more, hm⟩ := Reader.run_segs l r
  unfold Reader.finish
  split_ifs
  · exact ⟨R ++ more ++ [⟨(r.run l).cur, []⟩], by rw [hm, h]; simp⟩
  · exact ⟨R ++ more ++ [⟨(r.run l).tag, (r.run l).cur⟩], by rw [hm, h]; simp⟩

theorem utf8_append (a b : String) : utf8 (a ++ b) = utf8 a ++ utf8 b := by
  simp [utf8, String.toList, String.data_append]

theorem utf8_foldl (ls : List String) : ∀ acc : String,
    utf8 (ls.foldl (fun r s => r ++ s) acc) = utf8 acc ++ (ls.map utf8).flatten := by
  induction ls with
  | nil => intro acc; simp
  | cons s ls ih =>
    intro acc
    rw [List.foldl_cons, ih, utf8_append]
    simp

theorem utf8_join (ls : List String) : utf8 (String.join ls) = (ls.map utf8).flatten := by
  have h := utf8_foldl ls ""
  have h0 : utf8 "" = [] := rfl
  rw [h0, List.nil_append] at h
  exact h

/-! ## The chunks of the template are plain outside the QR section -/

set_option maxRecDepth 100000 in
theorem plain_head : plainChunk (utf8 danfeHead) = true := by
  unfold danfeHead
  rw [utf8_join]
  apply plainChunk_flatten
  decide

set_option maxRecDepth 100000 in
theorem plain_header (nfe : NFeProc) :
    ∃ chunks : List Bytes, headerNodes nfe = chunks.map Except.ok ∧
      ∀ c ∈ chunks, plainChunk c = true := by
  simp only [headerNodes, callOp, FormatCNPJ_eq, FormatCEP_eq]
  refine ⟨[_, _, _, _, _, _, _, _, _, _, _, _, _, _, _, _, _], rfl, ?_⟩
  simp only [List.forall_mem_cons, List.not_mem_nil, false_imp_iff, implies_true, and_true,
      plainChunk_escape, plain_head, true_and]
  repeat' apply And.intro
  all_goals decide

set_option maxRecDepth 100000 in
theorem plain_item (lib : Lib) (index : Nat) (item : Det) :
    ∀ c ∈ itemNodes lib index item, plainChunk c = true := by
  simp only [itemNodes, List.forall_mem_cons, List.not_mem_nil, false_imp_iff, implies_true,
    and_true, plainChunk_escape, true_and]
  repeat' apply And.intro
  all_goals decide

theorem plain_items (lib : Lib) (det : List Det) :
    ∀ c ∈ itemsNodes lib det, plainChunk c = true := by
  intro c hc
  simp only [itemsNodes, List.mem_flatten, List.mem_map] at hc
  obtain ⟨l, ⟨p, _, rfl⟩, hcl⟩ := hc
  exact plain_item lib p.1 p.2 c hcl

set_option maxRecDepth 100000 in
theorem plain_totals (lib : Lib) (nfe : NFeProc) :
    ∀ c ∈ totalsNodes lib nfe, plainChunk c = true := by
  unfold totalsNodes
  split_ifs <;>
    simp only [List.forall_mem_append, List.forall_mem_cons, List.not_mem_nil, false_imp_iff,
      implies_true, and_true,
      plainChunk_escape, true_and] <;>
    repeat' apply And.intro
  all_goals decide

set_option maxRecDepth 100000 in
theorem plain_paymentLine (lib : Lib) (detPag : DetPag) :
    ∀ c ∈ paymentLineNodes lib detPag, plainChunk c = true := by
  simp only [paymentLineNodes, List.forall_mem_cons, List.not_mem_nil, false_imp_iff,
    implies_true, and_true,
      plainChunk_escape, true_and]
  repeat' apply And.intro
  all_goals decide

theorem plain_paymentLines (lib : Lib) (l : List DetPag) :
    ∀ c ∈ (l.map (paymentLineNodes lib)).flatten, plainChunk c = true := by
  intro c hc
  simp only [List.mem_flatten, List.mem_map] at hc
  obtain ⟨l, ⟨p, _, rfl⟩, hcl⟩ := hc
  exact plain_paymentLine lib p c hcl

set_option maxRecDepth 100000 in
theorem plain_payment (lib : Lib) (nfe : NFeProc) :
    ∀ c ∈ paymentNodes lib nfe, plainChunk c = true := by
  unfold paymentNodes
  split_ifs <;>
    simp only [List.forall_mem_append, List.forall_mem_cons, List.not_mem_nil, false_imp_iff,
      implies_true, and_true,
      plainChunk_escape, true_and] <;>
    repeat' apply And.intro
  all_goals first
    | exact plain_paymentLines lib _
    | decide

set_option maxRecDepth 100000 in
theorem plain_consumer (nfe : NFeProc) :
    ∀ c ∈ consumerNodes nfe, plainChunk c = true := by
  unfold consumerNodes
  split <;>
    simp only [List.forall_mem_cons, List.not_mem_nil, false_imp_iff, implies_true, and_true,
      plainChunk_escape, true_and] <;>
    repeat' apply And.intro
  all_goals decide

set_option maxRecDepth 100000 in
theorem plain_info (lib : Lib) (nfe : NFeProc) :
    ∀ c ∈ infoNodes lib nfe, plainChunk c = true := by
  unfold infoNodes
  split <;> (try split_ifs) <;>
    simp only [List.forall_mem_append, List.forall_mem_cons, List.not_mem_nil, false_imp_iff,
      implies_true, and_true,
      plainChunk_escape, true_and] <;>
    repeat' apply And.intro
  all_goals decide

/-! ## The consumer section and the QR section in the rendered document -/

/-- What the renderer writes into an empty buffer: the chunks of the header, which are
plain, then the chunks of the sections. -/
theorem rendered_chunks (lib : Lib) (nfe : NFeProc) :
    ∃ H : List Bytes, (∀ c ∈ H, plainChunk c = true) ∧
      rendered lib nfe =
        (H ++ (itemsNodes lib nfe.NFe.InfNFe.Det ++ totalsNodes lib nfe ++
          paymentNodes lib nfe ++ consumerNodes nfe ++ infoNodes lib nfe ++
          qrNodes lib nfe)).flatten := by
  obtain ⟨H, hH, hp⟩ := plain_header nfe
  refine ⟨H, hp, ?_⟩
  have h : danfeTemplate lib nfe =
      (H ++ (itemsNodes lib nfe.NFe.InfNFe.Det ++ totalsNodes lib nfe ++
        paymentNodes lib nfe ++ consumerNodes nfe ++ infoNodes lib nfe ++
        qrNodes lib nfe)).map Except.ok := by
    rw [danfeTemplate, hH]
    simp only [List.map_append]
  rw [rendered, RenderToWriter, h, execute_ok _ _ (fun _ _ => rfl)]
  simp [newBuffer]

set_option maxRecDepth 100000 in
theorem literal_74 :
    Reader.init.run (utf8 "\n        </div>\n\n        \n        <div class=\"nfc-info\">\n            NFC-e Nº ") =
      ⟨[⟨[], utf8 "\n        "⟩,
       ⟨utf8 "/div", utf8 "\n\n        \n        "⟩],
       utf8 "div class=\"nfc-info\"", utf8 "\n            NFC-e Nº ", false⟩ := by
  decide

set_option maxRecDepth 100000 in
theorem literal_98 :
    Reader.init.run (utf8 "\n            \n            <div class=\"qr-code\">\n                ") =
      ⟨[⟨[], utf8 "\n            \n            "⟩],
       utf8 "div class=\"qr-code\"", utf8 "\n                ", false⟩ := by
  decide

set_option maxRecDepth 100000 in
theorem literal_100 :
    Reader.init.run (utf8 "\n                <div class=\"qr-text\">Consulta via Leitor QR Code</div>\n            </div>\n            \n        ") =
      ⟨[⟨[], utf8 "\n                "⟩,
       ⟨utf8 "div class=\"qr-text\"", utf8 "Consulta via Leitor QR Code"⟩,
       ⟨utf8 "/div", utf8 "\n            "⟩],
       utf8 "/div", utf8 "\n            \n        ", false⟩ := by
  decide

set_option maxRecDepth 100000 in
theorem text_consumer (nfe : NFeProc) : ∀ b ∈ (consumerNodes nfe).flatten, b ≠ 60 := by
  unfold consumerNodes
  split
  · intro b hb
    simp only [List.flatten_cons, List.flatten_nil, List.append_nil, List.mem_append] at hb
    rcases hb with hb | hb | hb
    · revert b; decide
    · exact htmlEscape_no_lt _ b hb
    · revert b; decide
  · decide

/-- The reader of segments is outside a tag after plain chunks. -/
theorem Reader.run_plain (chunks : List Bytes) (h : ∀ c ∈ chunks, plainChunk c = true) :
    ∃ S T C, Reader.init.run chunks.flatten = ⟨S, T, C, false⟩ := by
  have h1 := Reader.run_closes_inTag chunks.flatten
    ((plainChunk_iff _).1 (plainChunk_flatten chunks h)).1 [] [] []
  have h0 : Reader.init = ⟨[], [], [], false⟩ := rfl
  rw [← h0] at h1
  generalize Reader.init.run chunks.flatten = r at h1
  obtain ⟨S, T, C, st⟩ := r
  simp only at h1
  subst h1
  exact ⟨S, T, C, rfl⟩

/-- The consumer element of the rendered document: its text is what the consumer nodes of
the template write, between the white space of the surrounding text nodes. -/
theorem consumer_segment (lib : Lib) (nfe : NFeProc) :
    ∃ before after, htmlSegments (rendered lib nfe) =
      before ++ ⟨utf8 "div class=\"consumer\"",
        utf8 "\n            " ++ (consumerNodes nfe).flatten ++ utf8 "\n        "⟩ :: after := by
  obtain ⟨H, hp, hr⟩ := rendered_chunks lib nfe
  have hpay : ∃ P, paymentNodes lib nfe = P ++
      [utf8 "\n        </div>\n\n        \n        <div class=\"section-title\">CONSUMIDOR</div>\n        <div class=\"consumer\">\n            "] :=
    ⟨_, rfl⟩
  obtain ⟨P, hP⟩ := hpay
  have hinfo : ∃ I, infoNodes lib nfe =
      utf8 "\n        </div>\n\n        \n        <div class=\"nfc-info\">\n            NFC-e Nº " :: I :=
    ⟨_, rfl⟩
  obtain ⟨I, hI⟩ := hinfo
  have hplain : ∀ c ∈ H ++ (itemsNodes lib nfe.NFe.InfNFe.Det ++ totalsNodes lib nfe ++ P),
      plainChunk c = true := by
    intro c hc
    simp only [List.mem_append] at hc
    rcases hc with hc | (hc | hc) | hc
    · exact hp c hc
    · exact plain_items lib _ c hc
    · exact plain_totals lib nfe c hc
    · exact plain_payment lib nfe c (by rw [hP]; exact List.mem_append_left _ hc)
  obtain ⟨S, T, C, hrun⟩ := Reader.run_plain _ hplain
  have hsplit : rendered lib nfe =
      (H ++ (itemsNodes lib nfe.NFe.InfNFe.Det ++ totalsNodes lib nfe ++ P)).flatten ++
        (utf8 "\n        </div>\n\n        \n        <div class=\"section-title\">CONSUMIDOR</div>\n        <div class=\"consumer\">\n            " ++
          ((consumerNodes nfe).flatten ++
            (utf8 "\n        </div>\n\n        \n        <div class=\"nfc-info\">\n            NFC-e Nº " ++
              (I ++ qrNodes lib nfe).flatten))) := by
    rw [hr, hP, hI]
    simp only [List.flatten_append, List.flatten_cons, List.flatten_nil, List.append_nil,
      List.append_assoc]
  rw [htmlSegments, hsplit, Reader.run_append, hrun, Reader.run_append,
    Reader.run_literal _ _ _ _ _ literal_66, Reader.run_append,
    Reader.run_text _ (text_consumer nfe), Reader.run_append,
    Reader.run_literal _ _ _ _ _ literal_74]
  refine ⟨S ++ ⟨T, C ++ utf8 "\n        "⟩ ::
    [⟨utf8 "/div", utf8 "\n\n        \n        "⟩,
     ⟨utf8 "div class=\"section-title\"", utf8 "CONSUMIDOR"⟩,
     ⟨utf8 "/div", utf8 "\n        "⟩], ?_⟩
  exact Reader.finish_segs _ _ _ _ _ rfl

/-- Segments completed by the reader stay in front of the segments of the whole input. -/
theorem Reader.finish_more (l : Bytes) (r : Reader) :
    ∃ more, (r.run l).finish = r.segs ++ more := by
  obtain ⟨more, hm⟩ := Reader.run_segs l r
  unfold Reader.finish
  split_ifs
  · exact ⟨more ++ [⟨(r.run l).cur, []⟩], by rw [hm]; simp⟩
  · exact ⟨more ++ [⟨(r.run l).tag, (r.run l).cur⟩], by rw [hm]; simp⟩

/-- Inside a tag the bytes other than `>` are gathered. -/
theorem Reader.run_inTag (d : Bytes) (hd : ∀ b ∈ d, b ≠ 62) (S : List Seg) (T C : Bytes) :
    Reader.run ⟨S, T, C, true⟩ d = ⟨S, T, C ++ d, true⟩ := by
  induction d generalizing C with
  | nil => simp [Reader.run_nil]
  | cons b d ih =>
    have hb : b ≠ 62 := hd b (List.mem_cons_self b d)
    have hd2 : ∀ x ∈ d, x ≠ 62 := fun x hx => hd x (List.mem_cons_of_mem b hx)
    rw [Reader.run_cons]
    simp only [Reader.step, hb, if_false, if_true]
    rw [ih hd2]
    simp

/-- One tag read from text: the pending segment is completed and the tag becomes the tag
of the next segment. -/
theorem Reader.run_tag (body : Bytes) (hb : ∀ b ∈ body, b ≠ 62) (S : List Seg) (T C : Bytes) :
    Reader.run ⟨S, T, C, false⟩ (60 :: (body ++ [62])) = ⟨S ++ [⟨T, C⟩], body, [], false⟩ := by
  rw [Reader.run_cons]
  simp only [Reader.step, if_true, Bool.false_eq_true, if_false]
  rw [Reader.run_append, Reader.run_inTag body hb]
  simp [Reader.run_cons, Reader.run_nil, Reader.step]

/-- After input that ends with `>` the reader is outside a tag. -/
theorem Reader.run_ends_gt (l : Bytes) (r : Reader) : (r.run (l ++ [62])).inTag = false := by
  rw [Reader.run_snoc]
  unfold Reader.step
  split_ifs <;> simp_all

theorem generateQRCodeHTML_ok (lib : Lib) (content png : Bytes) (h : content ≠ [])
    (henc : lib.qrcodeEncode content = .ok png) :
    generateQRCodeHTML lib content =
      utf8 "<img src=\"data:image/png;base64," ++ lib.base64Encode png ++
        utf8 "\" alt=\"QR Code\" style=\"width: 25mm; height: 25mm;\">" := by
  have h0 : utf8 "" = [] := rfl
  simp [generateQRCodeHTML, h0, h, henc]

theorem generateQRCodeHTML_error (lib : Lib) (content : Bytes) (err : GoError)
    (henc : lib.qrcodeEncode content = .error err) :
    generateQRCodeHTML lib content = [] := by
  have h0 : utf8 "" = [] := rfl
  simp only [generateQRCodeHTML, h0, henc]
  split_ifs <;> rfl

set_option maxRecDepth 100000 in
/-- What `generateQRCodeHTML` returns is empty or ends with `>`. -/
theorem generateQRCodeHTML_ends (lib : Lib) (content : Bytes) :
    generateQRCodeHTML lib content = [] ∨
      ∃ l, generateQRCodeHTML lib content = l ++ [62] := by
  have h0 : utf8 "" = [] := rfl
  have h1 : utf8 "\" alt=\"QR Code\" style=\"width: 25mm; height: 25mm;\">" =
      utf8 "\" alt=\"QR Code\" style=\"width: 25mm; height: 25mm;\"" ++ [62] := by decide
  unfold generateQRCodeHTML
  split_ifs
  · exact Or.inl h0
  · split
    · exact Or.inl h0
    · right
      rw [h1, ← List.append_assoc]
      exact ⟨_, rfl⟩

/-- The reader state where the QR section starts, and the rest of the document. -/
theorem rendered_qr (lib : Lib) (nfe : NFeProc) (h : nfe.GetQRCode ≠ []) :
    ∃ (pre : Bytes) (S : List Seg) (T C : Bytes),
      Reader.init.run pre = ⟨S, T, C, false⟩ ∧
      rendered lib nfe = pre ++
        (utf8 "\n            \n            <div class=\"qr-code\">\n                " ++
          (generateQRCodeHTML lib nfe.GetQRCode ++
            (utf8 "\n                <div class=\"qr-text\">Consulta via Leitor QR Code</div>\n            </div>\n            \n        " ++
              utf8 "\n    </div>\n</body>\n</html>\n"))) := by
  obtain ⟨H, hp, hr⟩ := rendered_chunks lib nfe
  have hplain : ∀ c ∈ H ++ (itemsNodes lib nfe.NFe.InfNFe.Det ++ totalsNodes lib nfe ++
      paymentNodes lib nfe ++ consumerNodes nfe ++ infoNodes lib nfe), plainChunk c = true := by
    intro c hc
    simp only [List.mem_append] at hc
    rcases hc with hc | ((((hc | hc) | hc) | hc) | hc)
    · exact hp c hc
    · exact plain_items lib _ c hc
    · exact plain_totals lib nfe c hc
    · exact plain_payment lib nfe c hc
    · exact plain_consumer nfe c hc
    · exact plain_info lib nfe c hc
  obtain ⟨S, T, C, hrun⟩ := Reader.run_plain _ hplain
  refine ⟨_, S, T, C, hrun, ?_⟩
  rw [hr]
  simp only [qrNodes, h, ne_eq, not_false_eq_true, if_true, List.flatten_append,
    List.flatten_cons, List.flatten_nil, List.append_nil, List.append_assoc]

/-- With a payload, the caption element of the QR section is in the rendered document. -/
theorem qr_caption_segment (lib : Lib) (nfe : NFeProc) (h : nfe.GetQRCode ≠ []) :
    ∃ before after, htmlSegments (rendered lib nfe) =
      before ++ ⟨utf8 "div class=\"qr-text\"", utf8 "Consulta via Leitor QR Code"⟩ :: after := by
  obtain ⟨pre, S, T, C, hrun, hr⟩ := rendered_qr lib nfe h
  have hG : ∃ S1 T1 C1, Reader.run ⟨S ++ [⟨T, C ++ utf8 "\n            \n            "⟩],
      utf8 "div class=\"qr-code\"", utf8 "\n                ", false⟩
      (generateQRCodeHTML lib nfe.GetQRCode) = ⟨S1, T1, C1, false⟩ := by
    rcases generateQRCodeHTML_ends lib nfe.GetQRCode with h0 | ⟨l, hl⟩
    · rw [h0]; exact ⟨_, _, _, rfl⟩
    · rw [hl]
      have := Reader.run_ends_gt l ⟨S ++ [⟨T, C ++ utf8 "\n            \n            "⟩],
        utf8 "div class=\"qr-code\"", utf8 "\n                ", false⟩
      generalize Reader.run _ (l ++ [62]) = r at this
      obtain ⟨S1, T1, C1, st⟩ := r
      simp only at this
      subst this
      exact ⟨S1, T1, C1, rfl⟩
  obtain ⟨S1, T1, C1, hG⟩ := hG
  rw [htmlSegments, hr, Reader.run_append, hrun, Reader.run_append,
    Reader.run_literal _ _ _ _ _ literal_98, Reader.run_append, hG, Reader.run_append,
    Reader.run_literal _ _ _ _ _ literal_100]
  obtain ⟨more, hm⟩ := Reader.finish_more (utf8 "\n    </div>\n</body>\n</html>\n")
    ⟨S1 ++ ⟨T1, C1 ++ utf8 "\n                "⟩ ::
      [⟨utf8 "div class=\"qr-text\"", utf8 "Consulta via Leitor QR Code"⟩,
       ⟨utf8 "/div", utf8 "\n            "⟩], utf8 "/div", utf8 "\n            \n        ", false⟩
  rw [hm]
  exact ⟨S1 ++ [⟨T1, C1 ++ utf8 "\n                "⟩], ⟨utf8 "/div", utf8 "\n            "⟩ :: more,
    by simp⟩

/-- With a payload for which `generateQRCodeHTML` returns nothing, the QR element holds
white space only and the caption follows it. -/
theorem qr_section_no_image (lib : Lib) (nfe : NFeProc) (h : nfe.GetQRCode ≠ [])
    (hG : generateQRCodeHTML lib nfe.GetQRCode = []) :
    ∃ before after, htmlSegments (rendered lib nfe) =
      before ++ ⟨utf8 "div class=\"qr-code\"", utf8 "\n                \n                "⟩ ::
        ⟨utf8 "div class=\"qr-text\"", utf8 "Consulta via Leitor QR Code"⟩ :: after := by
  obtain ⟨pre, S, T, C, hrun, hr⟩ := rendered_qr lib nfe h
  have hws : utf8 "\n                " ++ utf8 "\n                " =
      utf8 "\n                \n                " := by decide
  rw [htmlSegments, hr, Reader.run_append, hrun, Reader.run_append,
    Reader.run_literal _ _ _ _ _ literal_98, Reader.run_append, hG, Reader.run_nil,
    Reader.run_append, Reader.run_literal _ _ _ _ _ literal_100, hws]
  obtain ⟨more, hm⟩ := Reader.finish_more (utf8 "\n    </div>\n</body>\n</html>\n")
    ⟨(S ++ [⟨T, C ++ utf8 "\n            \n            "⟩]) ++
      ⟨utf8 "div class=\"qr-code\"", utf8 "\n                \n                "⟩ ::
      [⟨utf8 "div class=\"qr-text\"", utf8 "Consulta via Leitor QR Code"⟩,
       ⟨utf8 "/div", utf8 "\n            "⟩], utf8 "/div", utf8 "\n            \n        ", false⟩
  rw [hm]
  exact ⟨S ++ [⟨T, C ++ utf8 "\n            \n            "⟩],
    ⟨utf8 "/div", utf8 "\n            "⟩ :: more, by simp⟩

set_option maxRecDepth 100000 in
/-- With a payload that the encoder accepts and a base64 text without `>`, the QR element is
followed by the image element and the caption. -/
theorem qr_section_image (lib : Lib) (nfe : NFeProc) (h : nfe.GetQRCode ≠ []) (png : Bytes)
    (henc : lib.qrcodeEncode nfe.GetQRCode = .ok png)
    (hb : ∀ b ∈ lib.base64Encode png, b ≠ 62) :
    ∃ before after, htmlSegments (rendered lib nfe) =
      before ++ ⟨utf8 "div class=\"qr-code\"", utf8 "\n                "⟩ ::
        ⟨utf8 "img src=\"data:image/png;base64," ++ lib.base64Encode png ++
          utf8 "\" alt=\"QR Code\" style=\"width: 25mm; height: 25mm;\"",
          utf8 "\n                "⟩ ::
        ⟨utf8 "div class=\"qr-text\"", utf8 "Consulta via Leitor QR Code"⟩ :: after := by
  obtain ⟨pre, S, T, C, hrun, hr⟩ := rendered_qr lib nfe h
  have h1 : utf8 "<img src=\"data:image/png;base64," =
      60 :: utf8 "img src=\"data:image/png;base64," := by decide
  have h2 : utf8 "\" alt=\"QR Code\" style=\"width: 25mm; height: 25mm;\">" =
      utf8 "\" alt=\"QR Code\" style=\"width: 25mm; height: 25mm;\"" ++ [62] := by decide
  have h3 : ∀ b ∈ utf8 "img src=\"data:image/png;base64,", b ≠ 62 := by decide
  have h4 : ∀ b ∈ utf8 "\" alt=\"QR Code\" style=\"width: 25mm; height: 25mm;\"", b ≠ 62 := by
    decide
  have hbody : ∀ b ∈ utf8 "img src=\"data:image/png;base64," ++ lib.base64Encode png ++
      utf8 "\" alt=\"QR Code\" style=\"width: 25mm; height: 25mm;\"", b ≠ 62 := by
    intro b hbm
    simp only [List.mem_append] at hbm
    rcases hbm with (hbm | hbm) | hbm
    · exact h3 b hbm
    · exact hb b hbm
    · exact h4 b hbm
  have hG : generateQRCodeHTML lib nfe.GetQRCode =
      60 :: ((utf8 "img src=\"data:image/png;base64," ++ lib.base64Encode png ++
        utf8 "\" alt=\"QR Code\" style=\"width: 25mm; height: 25mm;\"") ++ [62]) := by
    rw [generateQRCodeHTML_ok lib _ png h henc, h1, h2]
    simp
  rw [htmlSegments, hr, Reader.run_append, hrun, Reader.run_append,
    Reader.run_literal _ _ _ _ _ literal_98, Reader.run_append, hG,
    Reader.run_tag _ hbody, Reader.run_append, Reader.run_literal _ _ _ _ _ literal_100]
  obtain ⟨more, hm⟩ := Reader.finish_more (utf8 "\n    </div>\n</body>\n</html>\n")
    ⟨((S ++ [⟨T, C ++ utf8 "\n            \n            "⟩]) ++
      [⟨utf8 "div class=\"qr-code\"", utf8 "\n                "⟩]) ++
      ⟨utf8 "img src=\"data:image/png;base64," ++ lib.base64Encode png ++
          utf8 "\" alt=\"QR Code\" style=\"width: 25mm; height: 25mm;\"",
        [] ++ utf8 "\n                "⟩ ::
      [⟨utf8 "div class=\"qr-text\"", utf8 "Consulta via Leitor QR Code"⟩,
       ⟨utf8 "/div", utf8 "\n            "⟩], utf8 "/div", utf8 "\n            \n        ", false⟩
  rw [hm]
  exact ⟨S ++ [⟨T, C ++ utf8 "\n            \n            "⟩],
    ⟨utf8 "/div", utf8 "\n            "⟩ :: more, by simp⟩

/-- Without a payload every chunk of the rendering is plain. -/
theorem rendered_plain (lib : Lib) (nfe : NFeProc) (h : nfe.GetQRCode = []) :
    plainChunk (rendered lib nfe) = true := by
  obtain ⟨H, hp, hr⟩ := rendered_chunks lib nfe
  have hq : qrNodes lib nfe = [utf8 "\n    </div>\n</body>\n</html>\n"] := by
    simp [qrNodes, h]
  have hlast : plainChunk (utf8 "\n    </div>\n</body>\n</html>\n") = true := by decide
  rw [hr]
  apply plainChunk_flatten
  intro c hc
  rw [hq] at hc
  simp only [List.mem_append, List.mem_singleton] at hc
  rcases hc with hc | (((((hc | hc) | hc) | hc) | hc) | hc)
  · exact hp c hc
  · exact plain_items lib _ c hc
  · exact plain_totals lib nfe c hc
  · exact plain_payment lib nfe c hc
  · exact plain_consumer nfe c hc
  · exact plain_info lib nfe c hc
  · rw [hc]; exact hlast

/-! ## The consumer section -/

/-- C11, as the code has it: the template tests the recipient record, not the name.  When
the envelope has a recipient record, the consumer element of the rendered document shows
the HTML-escaped name of the record, also when the name is empty; when the envelope has no
recipient record, it shows the placeholder `CONSUMIDOR NÃO IDENTIFICADO`.  In both cases
the text stands between the white space of the template. -/
theorem consumer_section (lib : Lib) (nfe : NFeProc) :
    (∀ dest, nfe.NFe.InfNFe.Dest = some dest →
      consumerNodes nfe =
        [utf8 "\n                ", htmlEscape dest.XNome, utf8 "\n            "] ∧
      ∃ before after, htmlSegments (rendered lib nfe) =
        before ++ ⟨utf8 "div class=\"consumer\"",
          utf8 "\n            \n                " ++ htmlEscape dest.XNome ++
            utf8 "\n            \n        "⟩ :: after) ∧
    (nfe.NFe.InfNFe.Dest = none →
      consumerNodes nfe = [utf8 "\n                CONSUMIDOR NÃO IDENTIFICADO\n            "] ∧
      ∃ before after, htmlSegments (rendered lib nfe) =
        before ++ ⟨utf8 "div class=\"consumer\"",
          utf8 "\n            \n                CONSUMIDOR NÃO IDENTIFICADO\n            \n        "⟩ ::
          after) := by
  obtain ⟨before, after, h⟩ := consumer_segment lib nfe
  constructor
  · intro dest hd
    have hc : consumerNodes nfe =
        [utf8 "\n                ", htmlEscape dest.XNome, utf8 "\n            "] := by
      simp [consumerNodes, hd]
    refine ⟨hc, before, after, ?_⟩
    have h1 : utf8 "\n            \n                " =
        utf8 "\n            " ++ utf8 "\n                " := by decide
    have h2 : utf8 "\n            \n        " = utf8 "\n            " ++ utf8 "\n        " := by
      decide
    rw [h, hc, h1, h2]
    simp
  · intro hd
    have hc : consumerNodes nfe =
        [utf8 "\n                CONSUMIDOR NÃO IDENTIFICADO\n            "] := by
      simp [consumerNodes, hd]
    refine ⟨hc, before, after, ?_⟩
    have h1 : utf8 "\n            \n                CONSUMIDOR NÃO IDENTIFICADO\n            \n        " =
        utf8 "\n            " ++ utf8 "\n                CONSUMIDOR NÃO IDENTIFICADO\n            " ++
          utf8 "\n        " := by decide
    rw [h, hc, h1]
    simp

/-- C11, the input that shows the difference: an NFC-e whose recipient record holds a CPF
and no name.  The consumer nodes of the template write the empty name between white space,
and the consumer element of the rendered document holds white space only, not the
placeholder. -/
theorem consumer_placeholder_counterexample :
    nfeCpfOnly.NFe.InfNFe.Dest = some { CPF := utf8 "12345678901" } ∧
    (consumerNodes nfeCpfOnly).flatten = utf8 "\n                \n            " ∧
    (consumerNodes nfeCpfOnly).flatten ≠
      utf8 "\n                CONSUMIDOR NÃO IDENTIFICADO\n            " ∧
    ∃ before after, htmlSegments (rendered (exampleLib (.ok nfeCpfOnly)) nfeCpfOnly) =
      before ++ ⟨utf8 "div class=\"consumer\"",
        utf8 "\n            \n                \n            \n        "⟩ :: after := by
  refine ⟨rfl, by decide, by decide, ?_⟩
  obtain ⟨before, after, h⟩ := consumer_segment (exampleLib (.ok nfeCpfOnly)) nfeCpfOnly
  refine ⟨before, after, ?_⟩
  rw [h]
  have h1 : utf8 "\n            " ++ (consumerNodes nfeCpfOnly).flatten ++ utf8 "\n        " =
      utf8 "\n            \n                \n            \n        " := by decide
  rw [h1]

/-! ## The QR section -/

/-- C13, as the code has it: for an envelope whose QR-code payload is not empty the
rendered document has the caption element of the QR section.  When the encoder (PNG,
medium error correction, 256 pixels) accepts the payload, `generateQRCodeHTML` returns an
`img` element whose source is the base64 data URI of the PNG, and (the base64 text having
no `>`) the QR element is followed by that image and the caption.  When the encoder fails,
`generateQRCodeHTML` returns the empty string and the QR element holds no image: the
caption follows white space. -/
theorem qr_section_rendered (lib : Lib) (nfe : NFeProc) (h : nfe.GetQRCode ≠ []) :
    (∃ before after, htmlSegments (rendered lib nfe) =
      before ++ ⟨utf8 "div class=\"qr-text\"", utf8 "Consulta via Leitor QR Code"⟩ :: after) ∧
    (∀ png, lib.qrcodeEncode nfe.GetQRCode = .ok png →
      generateQRCodeHTML lib nfe.GetQRCode =
        utf8 "<img src=\"data:image/png;base64," ++ lib.base64Encode png ++
          utf8 "\" alt=\"QR Code\" style=\"width: 25mm; height: 25mm;\">" ∧
      ((∀ b ∈ lib.base64Encode png, b ≠ 62) →
        ∃ before after, htmlSegments (rendered lib nfe) =
          before ++ ⟨utf8 "div class=\"qr-code\"", utf8 "\n                "⟩ ::
            ⟨utf8 "img src=\"data:image/png;base64," ++ lib.base64Encode png ++
              utf8 "\" alt=\"QR Code\" style=\"width: 25mm; height: 25mm;\"",
              utf8 "\n                "⟩ ::
            ⟨utf8 "div class=\"qr-text\"", utf8 "Consulta via Leitor QR Code"⟩ :: after)) ∧
    (∀ err, lib.qrcodeEncode nfe.GetQRCode = .error err →
      generateQRCodeHTML lib nfe.GetQRCode = [] ∧
      ∃ before after, htmlSegments (rendered lib nfe) =
        before ++ ⟨utf8 "div class=\"qr-code\"", utf8 "\n                \n                "⟩ ::
          ⟨utf8 "div class=\"qr-text\"", utf8 "Consulta via Leitor QR Code"⟩ :: after) :=
  ⟨qr_caption_segment lib nfe h,
   fun png henc => ⟨generateQRCodeHTML_ok lib _ png h henc,
     fun hb => qr_section_image lib nfe h png henc hb⟩,
   fun err henc => ⟨generateQRCodeHTML_error lib _ err henc,
     qr_section_no_image lib nfe h (generateQRCodeHTML_error lib _ err henc)⟩⟩

/-- C13, at an input: an NFC-e with the payload of a consultation address; the encoder of
the example returns the first bytes of a PNG file, whose base64 text is `iVBORw0KGgo=`. -/
theorem qr_section_rendered_witness :
    nfeWithQR.GetQRCode ≠ [] ∧
    qrLib.base64Encode examplePNG = utf8 "iVBORw0KGgo=" ∧
    generateQRCodeHTML qrLib nfeWithQR.GetQRCode =
      utf8 "<img src=\"data:image/png;base64," ++ qrLib.base64Encode examplePNG ++
        utf8 "\" alt=\"QR Code\" style=\"width: 25mm; height: 25mm;\">" :=
  ⟨by decide, by decide,
    ((qr_section_rendered qrLib nfeWithQR (by decide)).2.1 examplePNG (by decide)).1⟩

/-- C13, the input that shows the difference: an NFC-e whose payload has 2332 bytes, more
than the encoder takes.  The payload is not empty, `generateQRCodeHTML` returns the empty
string, and the rendered document has the QR element with white space only in front of the
caption: a QR section without an image. -/
theorem qr_section_without_image_counterexample :
    nfeLongQR.GetQRCode ≠ [] ∧
    (∃ err, qrLib.qrcodeEncode nfeLongQR.GetQRCode = .error err) ∧
    generateQRCodeHTML qrLib nfeLongQR.GetQRCode = [] ∧
    ∃ before after, htmlSegments (rendered qrLib nfeLongQR) =
      before ++ ⟨utf8 "div class=\"qr-code\"", utf8 "\n                \n                "⟩ ::
        ⟨utf8 "div class=\"qr-text\"", utf8 "Consulta via Leitor QR Code"⟩ :: after := by
  have hp : nfeLongQR.GetQRCode = List.replicate 2332 97 := rfl
  have hne : nfeLongQR.GetQRCode ≠ [] := by
    rw [hp]
    intro h0
    have hl := congrArg List.length h0
    rw [List.length_replicate, List.length_nil] at hl
    exact absurd hl (by decide)
  have henc : qrLib.qrcodeEncode nfeLongQR.GetQRCode =
      .error (.plain (utf8 "content too long to encode")) := by
    have key : ∀ c : Bytes, 2331 < c.length → qrLib.qrcodeEncode c =
        .error (.plain (utf8 "content too long to encode")) := by
      intro c hc
      show (if 2331 < c.length then
          (Except.error (GoError.plain (utf8 "content too long to encode")) :
            Except GoError Bytes)
        else .ok examplePNG) = _
      rw [if_pos hc]
    apply key
    rw [hp, List.length_replicate]
    decide
  have hG := generateQRCodeHTML_error qrLib _ _ henc
  exact ⟨hne, ⟨_, henc⟩, hG, qr_section_no_image qrLib nfeLongQR hne hG⟩

/-- C14: for an envelope without a supplementary-information record, or with one whose
QR-code payload is empty, `GetQRCode` returns the empty string, the template writes no
node of the QR section (only the closing text after it), and no element of the rendered
document is the QR element, the caption element or an image; `generateQRCodeHTML` returns
the empty string for the empty string. -/
theorem qr_section_omitted (lib : Lib) (nfe : NFeProc)
    (h : nfe.NFe.InfNFeSupl = none ∨
      ∃ supl, nfe.NFe.InfNFeSupl = some supl ∧ supl.QrCode = []) :
    nfe.GetQRCode = [] ∧
    qrNodes lib nfe = [utf8 "\n    </div>\n</body>\n</html>\n"] ∧
    (∀ s ∈ htmlSegments (rendered lib nfe), isQRTag s.tag = false) ∧
    generateQRCodeHTML lib (utf8 "") = utf8 "" := by
  have hq : nfe.GetQRCode = [] := by
    rcases h with h | ⟨supl, h, hs⟩
    · simp only [NFeProc.GetQRCode, h]; rfl
    · simp only [NFeProc.GetQRCode, h, hs]
  refine ⟨hq, ?_, plainChunk_segments _ (rendered_plain lib nfe hq), ?_⟩
  · simp [qrNodes, hq]
  · simp [generateQRCodeHTML]

/-- C14, at an input: the NFC-e whose other fields are zero values has no
supplementary-information record. -/
theorem qr_section_omitted_witness :
    nfeModel65.NFe.InfNFeSupl = none ∧
    nfeModel65.GetQRCode = [] ∧
    qrNodes qrLib nfeModel65 = [utf8 "\n    </div>\n</body>\n</html>\n"] :=
  ⟨rfl, (qr_section_omitted qrLib nfeModel65 (Or.inl rfl)).1,
    (qr_section_omitted qrLib nfeModel65 (Or.inl rfl)).2.1⟩

/-! ## Idempotence of the formatters -/

/-- C24: each of `FormatCNPJ`, `FormatCPF` and `FormatCEP` returns a value on every string,
and applied to that value returns it unchanged: a string of the expected length becomes
longer by the punctuation (18, 14 and 9 bytes), so the second application passes it
through, and a string of any other length is passed through both times. -/
theorem formatters_idempotent (s : Bytes) :
    (∃ t, FormatCNPJ s = some t ∧ FormatCNPJ t = some t) ∧
    (∃ t, FormatCPF s = some t ∧ FormatCPF t = some t) ∧
    (∃ t, FormatCEP s = some t ∧ FormatCEP t = some t) ∧
    (FormatCNPJ s).bind FormatCNPJ = FormatCNPJ s ∧
    (FormatCPF s).bind FormatCPF = FormatCPF s ∧
    (FormatCEP s).bind FormatCEP = FormatCEP s := by
  have hdot : (utf8 ".").length = 1 := by decide
  have hslash : (utf8 "/").length = 1 := by decide
  have hdash : (utf8 "-").length = 1 := by decide
  have h1 : ∃ t, FormatCNPJ s = some t ∧ FormatCNPJ t = some t := by
    by_cases h : s.length = 14
    · refine ⟨_, FormatCNPJ_eq s, ?_⟩
      rw [FormatCNPJ_eq, if_pos h, if_neg]
      simp only [List.length_append, List.length_take, List.length_drop, hdot, hslash, hdash, h]
      decide
    · refine ⟨s, ?_, ?_⟩ <;> rw [FormatCNPJ_eq, if_neg h]
  have h2 : ∃ t, FormatCPF s = some t ∧ FormatCPF t = some t := by
    by_cases h : s.length = 11
    · refine ⟨_, FormatCPF_eq s, ?_⟩
      rw [FormatCPF_eq, if_pos h, if_neg]
      simp only [List.length_append, List.length_take, List.length_drop, hdot, hdash, h]
      decide
    · refine ⟨s, ?_, ?_⟩ <;> rw [FormatCPF_eq, if_neg h]
  have h3 : ∃ t, FormatCEP s = some t ∧ FormatCEP t = some t := by
    by_cases h : s.length = 8
    · refine ⟨_, FormatCEP_eq s, ?_⟩
      rw [FormatCEP_eq, if_pos h, if_neg]
      simp only [List.length_append, List.length_take, List.length_drop, hdash, h]
      decide
    · refine ⟨s, ?_, ?_⟩ <;> rw [FormatCEP_eq, if_neg h]
  refine ⟨h1, h2, h3, ?_, ?_, ?_⟩
  · obtain ⟨t, ha, hb⟩ := h1
    rw [ha, Option.some_bind, hb]
  · obtain ⟨t, ha, hb⟩ := h2
    rw [ha, Option.some_bind, hb]
  · obtain ⟨t, ha, hb⟩ := h3
    rw [ha, Option.some_bind, hb]

/-! ## The caller's options -/

theorem defaultOptions_caller (options : Option Options) :
    (defaultOptions options).2 =
      if options = some { Format := utf8 "" } then some { Format := utf8 "html" } else options := by
  rcases options with _ | ⟨⟨f⟩⟩
  · rfl
  · by_cases hf : f = utf8 ""
    · subst hf
      simp [defaultOptions]
    · have hne : (some ({ Format := f } : Options)) ≠ some { Format := utf8 "" } := by
        intro h
        exact hf (congrArg Options.Format (Option.some.inj h))
      simp [defaultOptions, hf, hne]

theorem GenerateDANFE_options (lib : Lib) (xmlContent : Bytes) (options : Option Options) :
    (GenerateDANFE lib xmlContent options).options =
      callerOptions (passesChecks (NewGenerator lib xmlContent) Generator.IsNFCe) options := by
  unfold GenerateDANFE callerOptions passesChecks
  cases NewGenerator lib xmlContent with
  | error err => rfl
  | ok g =>
    cases hg : g.IsNFCe
    · simp [hg]
    · simp only [hg, Bool.not_true, Bool.false_eq_true, if_false, if_true]
      cases convertFormat (defaultOptions options).1.Format with
      | none => rfl
      | some format =>
        simp only
        generalize g.GenerateToWriter lib newBuffer { Format := format } = r
        rcases r with ⟨w, _ | e⟩ <;> rfl

theorem WriteDANFE_options (lib : Lib) (xmlContent : Bytes) (writer : Writer)
    (options : Option Options) :
    (WriteDANFE lib xmlContent writer options).options =
      callerOptions (passesChecks (NewGenerator lib xmlContent) Generator.IsNFCe) options := by
  unfold WriteDANFE callerOptions passesChecks
  cases NewGenerator lib xmlContent with
  | error err => rfl
  | ok g =>
    cases hg : g.IsNFCe
    · simp [hg]
    · simp only [hg, Bool.not_true, Bool.false_eq_true, if_false, if_true]
      cases convertFormat (defaultOptions options).1.Format with
      | none => rfl
      | some format => rfl

theorem Internal_GenerateDANFE_options (nfce : InternalNfce) (xmlContent : Bytes)
    (options : Option Options) :
    (Internal.GenerateDANFE nfce xmlContent options).options =
      callerOptions (passesChecks (nfce.NewGenerator xmlContent) nfce.IsNFCe) options := by
  unfold Internal.GenerateDANFE callerOptions passesChecks
  cases nfce.NewGenerator xmlContent with
  | error err => rfl
  | ok g =>
    cases hg : nfce.IsNFCe g
    · simp [hg]
    · simp only [hg, Bool.not_true, Bool.false_eq_true, if_false, if_true]
      cases convertFormat (defaultOptions options).1.Format with
      | none => rfl
      | some format =>
        simp only
        generalize nfce.GenerateToWriter g newBuffer { Format := format } = r
        rcases r with ⟨w, _ | e⟩ <;> rfl

theorem Internal_WriteDANFE_options (nfce : InternalNfce) (xmlContent : Bytes)
    (writer : Writer) (options : Option Options) :
    (Internal.WriteDANFE nfce xmlContent writer options).options =
      callerOptions (passesChecks (nfce.NewGenerator xmlContent) nfce.IsNFCe) options := by
  unfold Internal.WriteDANFE callerOptions passesChecks
  cases nfce.NewGenerator xmlContent with
  | error err => rfl
  | ok g =>
    cases hg : nfce.IsNFCe g
    · simp [hg]
    · simp only [hg, Bool.not_true, Bool.false_eq_true, if_false, if_true]
      cases convertFormat (defaultOptions options).1.Format with
      | none => rfl
      | some format => rfl

/-- The decoding and the document-type check of `nfce.go`, in terms of the decoder. -/
theorem NewGenerator_nfce_iff (lib : Lib) (xmlContent : Bytes) :
    (∃ g, NewGenerator lib xmlContent = .ok g ∧ g.IsNFCe = true) ↔
      ∃ nfe, lib.xmlUnmarshal xmlContent = .ok nfe ∧ nfe.NFe.InfNFe.Ide.Mod = utf8 "65" := by
  constructor
  · rintro ⟨g, hg, hn⟩
    cases h : lib.xmlUnmarshal xmlContent with
    | error err => rw [NewGenerator_error lib xmlContent err h] at hg; cases hg
    | ok nfe =>
      rw [NewGenerator_ok lib xmlContent nfe h] at hg
      cases hg
      refine ⟨nfe, rfl, ?_⟩
      simpa [Generator.IsNFCe, NFeProc.IsNFCe] using hn
  · rintro ⟨nfe, h, hm⟩
    exact ⟨_, NewGenerator_ok lib xmlContent nfe h, isNFCe_true_of_mod nfe hm⟩

/-- The caller's options after a call, from the outcome of the first two steps. -/
theorem options_after (α : Type) (r : Except GoError α) (isNFCe : α → Bool)
    (options : Option Options) :
    (((∃ g, r = .ok g ∧ isNFCe g = true) ∧ options = some { Format := utf8 "" }) →
      callerOptions (passesChecks r isNFCe) options = some { Format := utf8 "html" }) ∧
    (¬ ((∃ g, r = .ok g ∧ isNFCe g = true) ∧ options = some { Format := utf8 "" }) →
      callerOptions (passesChecks r isNFCe) options = options) := by
  constructor
  · rintro ⟨⟨g, rfl, hn⟩, ho⟩
    simp [callerOptions, passesChecks, hn, defaultOptions_caller, ho]
  · intro hnot
    cases r with
    | error err => rfl
    | ok g =>
      cases hn : isNFCe g
      · simp [callerOptions, passesChecks, hn]
      · simp only [callerOptions, passesChecks, hn, if_true, defaultOptions_caller]
        rw [if_neg]
        intro ho
        exact hnot ⟨⟨g, rfl, hn⟩, ho⟩

/-- C25: `GenerateDANFE` and `WriteDANFE` change the caller's options in one case only.
When the XML decodes to a document of model 65 and the options are not nil and have the
empty format, the caller's options have the format `html` after the call (also when the
generation goes on to fail); in every other case the caller's options are what they were.
The same holds for the two functions of `internal/danfe`, with the decoding and the
document-type check of the generator of `internal/nfce`. -/
theorem options_changed_once (lib : Lib) (nfce : InternalNfce) (xmlContent : Bytes)
    (writer : Writer) (options : Option Options) :
    (((∃ nfe, lib.xmlUnmarshal xmlContent = .ok nfe ∧ nfe.NFe.InfNFe.Ide.Mod = utf8 "65") ∧
        options = some { Format := utf8 "" }) →
      (GenerateDANFE lib xmlContent options).options = some { Format := utf8 "html" } ∧
      (WriteDANFE lib xmlContent writer options).options = some { Format := utf8 "html" }) ∧
    (¬ ((∃ nfe, lib.xmlUnmarshal xmlContent = .ok nfe ∧ nfe.NFe.InfNFe.Ide.Mod = utf8 "65") ∧
        options = some { Format := utf8 "" }) →
      (GenerateDANFE lib xmlContent options).options = options ∧
      (WriteDANFE lib xmlContent writer options).options = options) ∧
    (((∃ g, nfce.NewGenerator xmlContent = .ok g ∧ nfce.IsNFCe g = true) ∧
        options = some { Format := utf8 "" }) →
      (Internal.GenerateDANFE nfce xmlContent options).options =
        some { Format := utf8 "html" } ∧
      (Internal.WriteDANFE nfce xmlContent writer options).options =
        some { Format := utf8 "html" }) ∧
    (¬ ((∃ g, nfce.NewGenerator xmlContent = .ok g ∧ nfce.IsNFCe g = true) ∧
        options = some { Format := utf8 "" }) →
      (Internal.GenerateDANFE nfce xmlContent options).options = options ∧
      (Internal.WriteDANFE nfce xmlContent writer options).options = options) := by
  have hp := options_after Generator (NewGenerator lib xmlContent) Generator.IsNFCe options
  have hi := options_after nfce.Generator (nfce.NewGenerator xmlContent) nfce.IsNFCe options
  rw [NewGenerator_nfce_iff] at hp
  rw [GenerateDANFE_options, WriteDANFE_options, Internal_GenerateDANFE_options,
    Internal_WriteDANFE_options]
  exact ⟨fun h => ⟨hp.1 h, hp.1 h⟩, fun h => ⟨hp.2 h, hp.2 h⟩,
    fun h => ⟨hi.1 h, hi.1 h⟩, fun h => ⟨hi.2 h, hi.2 h⟩⟩

/-! ## Writing and generating -/

/-- Into a writer that accepts every write in full, the renderer writes the rendered
document after what the writer holds, without error. -/
theorem RenderToWriter_accepting (lib : Lib) (nfe : NFeProc) (writer : Writer)
    (hw : ∀ a p, writer.accept a p = (p.length, none)) :
    RenderToWriter lib nfe writer =
      ({ written := writer.written ++ rendered lib nfe, accept := writer.accept }, none) := by
  obtain ⟨chunks, hc⟩ := danfeTemplate_ok lib nfe
  have hr : rendered lib nfe = chunks.flatten := by
    rw [rendered, RenderToWriter, hc, execute_ok _ _ (fun _ _ => rfl)]
    simp [newBuffer]
  rw [RenderToWriter, hc, execute_ok _ _ hw, hr]

/-- The generator on a writer that accepts every write in full, against the generator on
an empty buffer: the same error, and the bytes of the buffer after what the writer held;
on an error the buffer is empty. -/
theorem GenerateToWriter_accepting (lib : Lib) (g : Generator) (writer : Writer)
    (options : GenerateOptions) (hw : ∀ a p, writer.accept a p = (p.length, none)) :
    (g.GenerateToWriter lib writer options).2 = (g.GenerateToWriter lib newBuffer options).2 ∧
    (g.GenerateToWriter lib writer options).1.written =
      writer.written ++ (g.GenerateToWriter lib newBuffer options).1.written ∧
    ((g.GenerateToWriter lib newBuffer options).2 ≠ none →
      (g.GenerateToWriter lib newBuffer options).1.written = []) := by
  have hne : FormatPDF ≠ FormatHTML := by decide
  unfold Generator.GenerateToWriter
  by_cases h1 : options.Format = FormatHTML
  · simp only [h1, if_true, Generator.generateHTML]
    rw [RenderToWriter_accepting lib g.nfe writer hw,
      RenderToWriter_accepting lib g.nfe newBuffer (fun _ _ => rfl)]
    simp [newBuffer]
  · by_cases h2 : options.Format = FormatPDF
    · simp only [h2, hne, if_true, if_false, Generator.generatePDF]
      rw [RenderToWriter_buffer]
      simp only
      cases ConvertHTMLToPDF lib (NewPDFConverter lib) (rendered lib g.nfe) with
      | error err => simp [newBuffer]
      | ok pdfBytes => simp [Writer.Write, hw, newBuffer]
    · simp [h1, h2, newBuffer]

/-- `WriteDANFE` on a writer that accepts every write in full, against `GenerateDANFE`:
the error of the one is the error of the other, the bytes written are the bytes
returned, and the caller's options are the same. -/
theorem WriteDANFE_accepting (lib : Lib) (xmlContent : Bytes) (writer : Writer)
    (options : Option Options) (hw : ∀ a p, writer.accept a p = (p.length, none)) :
    (∀ b, (GenerateDANFE lib xmlContent options).result = .ok b →
      (WriteDANFE lib xmlContent writer options).err = none ∧
      (WriteDANFE lib xmlContent writer options).writer.written = writer.written ++ b) ∧
    (∀ err, (GenerateDANFE lib xmlContent options).result = .error err →
      (WriteDANFE lib xmlContent writer options).err = some err ∧
      (WriteDANFE lib xmlContent writer options).writer.written = writer.written) := by
  unfold GenerateDANFE WriteDANFE
  cases NewGenerator lib xmlContent with
  | error err =>
    simp
  | ok g =>
    cases hn : g.IsNFCe
    · simp only [hn, Bool.not_false, if_true]
      simp
    · simp only [hn, Bool.not_true, Bool.false_eq_true, if_false]
      cases convertFormat (defaultOptions options).1.Format with
      | none =>
        simp
      | some format =>
        obtain ⟨h1, h2, h3⟩ := GenerateToWriter_accepting lib g writer { Format := format } hw
        simp only
        generalize g.GenerateToWriter lib newBuffer { Format := format } = r at h1 h2 h3
        generalize g.GenerateToWriter lib writer { Format := format } = r1 at h1 h2 h3
        obtain ⟨w, e⟩ := r
        obtain ⟨w1, e1⟩ := r1
        simp only at h1 h2 h3
        subst h1
        cases e1 with
        | none =>
          refine ⟨fun b h => ?_, fun e h => ?_⟩
          · simp only [Except.ok.injEq] at h
            subst h
            exact ⟨rfl, h2⟩
          · cases h
        | some err =>
          refine ⟨fun b h => ?_, fun e h => ?_⟩
          · cases h
          · simp only [Except.error.injEq] at h
            subst h
            refine ⟨rfl, ?_⟩
            rw [h2, h3 (by simp)]
            simp

/-- The functions of `internal/danfe` over a package `internal/nfce` whose three functions
are those of `nfce.go`, through a map `f` of its generators: they are the functions of
`danfe.go`. -/
theorem Internal_agrees (lib : Lib) (nfce : InternalNfce) (f : nfce.Generator → Generator)
    (hnew : ∀ y, (nfce.NewGenerator y).map f = NewGenerator lib y)
    (hnfce : ∀ g, nfce.IsNFCe g = (f g).IsNFCe)
    (hgen : ∀ g w opts, nfce.GenerateToWriter g w opts = (f g).GenerateToWriter lib w opts)
    (xmlContent : Bytes) (writer : Writer) (options : Option Options) :
    Internal.GenerateDANFE nfce xmlContent options = GenerateDANFE lib xmlContent options ∧
    Internal.WriteDANFE nfce xmlContent writer options =
      WriteDANFE lib xmlContent writer options := by
  have h := hnew xmlContent
  unfold Internal.GenerateDANFE Internal.WriteDANFE GenerateDANFE WriteDANFE
  cases hi : nfce.NewGenerator xmlContent with
  | error err =>
    rw [hi] at h
    rw [← h]
    exact ⟨rfl, rfl⟩
  | ok g =>
    rw [hi] at h
    rw [← h]
    simp [Except.map, hnfce, hgen]

/-- C26: for every XML input and options, and a writer that accepts every write in full,
`WriteDANFE` returns no error exactly when `GenerateDANFE` returns bytes; then the bytes
it writes, after what the writer held, are the bytes `GenerateDANFE` returns; when
`GenerateDANFE` fails, `WriteDANFE` fails with the same error and writes nothing; both
leave the caller's options the same.  The functions of `internal/danfe` are the functions
of `danfe.go` on every input, when the three functions of `internal/nfce` they call are
those of `nfce.go` (through a map `f` of the generators). -/
theorem WriteDANFE_iff_GenerateDANFE (lib : Lib) (xmlContent : Bytes) (writer : Writer)
    (options : Option Options) (hw : ∀ a p, writer.accept a p = (p.length, none)) :
    ((WriteDANFE lib xmlContent writer options).err = none ↔
      ∃ b, (GenerateDANFE lib xmlContent options).result = .ok b) ∧
    (∀ b, (GenerateDANFE lib xmlContent options).result = .ok b →
      (WriteDANFE lib xmlContent writer options).writer.written = writer.written ++ b) ∧
    (∀ err, (GenerateDANFE lib xmlContent options).result = .error err →
      (WriteDANFE lib xmlContent writer options).err = some err ∧
      (WriteDANFE lib xmlContent writer options).writer.written = writer.written) ∧
    (WriteDANFE lib xmlContent writer options).options =
      (GenerateDANFE lib xmlContent options).options ∧
    (∀ (nfce : InternalNfce) (f : nfce.Generator → Generator),
      (∀ y, (nfce.NewGenerator y).map f = NewGenerator lib y) →
      (∀ g, nfce.IsNFCe g = (f g).IsNFCe) →
      (∀ g w opts, nfce.GenerateToWriter g w opts = (f g).GenerateToWriter lib w opts) →
      Internal.GenerateDANFE nfce xmlContent options = GenerateDANFE lib xmlContent options ∧
      Internal.WriteDANFE nfce xmlContent writer options =
        WriteDANFE lib xmlContent writer options) := by
  obtain ⟨hok, herr⟩ := WriteDANFE_accepting lib xmlContent writer options hw
  refine ⟨?_, fun b h => (hok b h).2, herr, ?_, ?_⟩
  · constructor
    · intro h
      cases hr : (GenerateDANFE lib xmlContent options).result with
      | ok b => exact ⟨b, rfl⟩
      | error err =>
        rw [(herr err hr).1] at h
        cases h
    · rintro ⟨b, hb⟩
      exact (hok b hb).1
  · rw [WriteDANFE_options, GenerateDANFE_options]
  · intro nfce f hnew hnfce hgen
    exact Internal_agrees lib nfce f hnew hnfce hgen xmlContent writer options

/-- C26, at an input: an NFC-e whose other fields are zero values, nil options and an
empty buffer as writer; the package `nfce.go` stands for `internal/nfce`. -/
theorem WriteDANFE_iff_GenerateDANFE_witness :
    (∀ a p, newBuffer.accept a p = (p.length, none)) ∧
    ((WriteDANFE (exampleLib (.ok nfeModel65)) [] newBuffer none).err = none ↔
      ∃ b, (GenerateDANFE (exampleLib (.ok nfeModel65)) [] none).result = .ok b) ∧
    Internal.GenerateDANFE (publicNfce (exampleLib (.ok nfeModel65))) [] none =
      GenerateDANFE (exampleLib (.ok nfeModel65)) [] none :=
  ⟨fun _ _ => rfl,
    (WriteDANFE_iff_GenerateDANFE (exampleLib (.ok nfeModel65)) [] newBuffer none
      (fun _ _ => rfl)).1,
    ((WriteDANFE_iff_GenerateDANFE (exampleLib (.ok nfeModel65)) [] newBuffer none
      (fun _ _ => rfl)).2.2.2.2 (publicNfce (exampleLib (.ok nfeModel65))) id
        (fun _ => rfl) (fun _ => rfl) (fun _ _ _ => rfl)).1⟩

/-! ## Decoding -/

/-- On an empty buffer the generator reports no error, or the wrapped error of the PDF
conversion, or (for a format that is neither `html` nor `pdf`) the unsupported format. -/
theorem GenerateToWriter_buffer_error (lib : Lib) (g : Generator) (format : Format)
    (err : GoError)
    (h : (g.GenerateToWriter lib newBuffer { Format := format }).2 = some err) :
    (∃ c, err = errorfW "erro ao converter para PDF: " c) ∨
      (format ≠ FormatHTML ∧ format ≠ FormatPDF) := by
  unfold Generator.GenerateToWriter at h
  by_cases h1 : format = FormatHTML
  · simp only [h1, if_true, Generator.generateHTML] at h
    rw [RenderToWriter_buffer] at h
    cases h
  · by_cases h2 : format = FormatPDF
    · left
      simp only [h1, h2, if_true, if_false, Generator.generatePDF] at h
      have hne : FormatPDF ≠ FormatHTML := by decide
      simp only [hne, if_false] at h
      rw [RenderToWriter_buffer] at h
      simp only at h
      cases hc : ConvertHTMLToPDF lib (NewPDFConverter lib) (rendered lib g.nfe) with
      | error c =>
        rw [hc] at h
        simp only [Option.some.injEq] at h
        exact ⟨c, h.symm⟩
      | ok pdfBytes =>
        rw [hc] at h
        simp [Writer.Write, newBuffer] at h
    · exact Or.inr ⟨h1, h2⟩

theorem convertFormat_some (format : Bytes) (f : Format) (h : convertFormat format = some f) :
    f = FormatHTML ∨ f = FormatPDF := by
  unfold convertFormat at h
  split_ifs at h
  · left; exact (Option.some.inj h).symm
  · right; exact (Option.some.inj h).symm

/-- The errors of `GenerateDANFE` after a successful decoding. -/
theorem GenerateDANFE_later_errors (lib : Lib) (xmlContent : Bytes) (nfe : NFeProc)
    (hdec : lib.xmlUnmarshal xmlContent = .ok nfe) (options : Option Options) (err : GoError)
    (h : (GenerateDANFE lib xmlContent options).result = .error err) :
    err = errNotNFCe ∨ (∃ format, err = errUnsupportedFormat format) ∨
      ∃ c, err = errorfW "erro ao converter para PDF: " c := by
  unfold GenerateDANFE at h
  rw [NewGenerator_ok lib xmlContent nfe hdec] at h
  simp only at h
  cases hn : (Generator.mk nfe).IsNFCe
  · simp only [hn, Bool.not_false, if_true, Except.error.injEq] at h
    exact Or.inl h.symm
  · simp only [hn, Bool.not_true, Bool.false_eq_true, if_false] at h
    cases hf : convertFormat (defaultOptions options).1.Format with
    | none =>
      rw [hf] at h
      simp only [Except.error.injEq] at h
      exact Or.inr (Or.inl ⟨_, h.symm⟩)
    | some format =>
      rw [hf] at h
      simp only at h
      have hb := GenerateToWriter_buffer_error lib ⟨nfe⟩ format
      generalize (Generator.mk nfe).GenerateToWriter lib newBuffer { Format := format } = r
        at h hb
      obtain ⟨w, e⟩ := r
      cases e with
      | none => cases h
      | some e0 =>
        simp only [Except.error.injEq] at h
        subst h
        rcases hb e0 rfl with hc | ⟨h1, h2⟩
        · exact Or.inr (Or.inr hc)
        · rcases convertFormat_some _ _ hf with h3 | h3
          · exact absurd h3 h1
          · exact absurd h3 h2

/-- C23, the input that shows the difference: the root element `nfeProc` without
children.  The decoder reports no error (an absent element leaves its field at the zero
value), so `ParseXML` returns an envelope, although the header, the emitter, the totals
and the authorization stamp are missing: their fields are empty; `NewGenerator` succeeds
as well, and `GenerateDANFE` fails with the document-type error, not a decoding error. -/
theorem ParseXML_missing_parts_counterexample :
    ParseXML decoderLib (utf8 "<nfeProc></nfeProc>") = .ok {} ∧
    ({} : NFeProc).NFe.InfNFe.Ide.Mod = [] ∧
    ({} : NFeProc).NFe.InfNFe.Emit.CNPJ = [] ∧
    ({} : NFeProc).NFe.InfNFe.Emit.XNome = [] ∧
    ({} : NFeProc).NFe.InfNFe.Total.ICMSTot.VNF = Float64.zero ∧
    ({} : NFeProc).ProtNFe.InfProt.NProt = [] ∧
    NewGenerator decoderLib (utf8 "<nfeProc></nfeProc>") = .ok { nfe := {} } ∧
    (GenerateDANFE decoderLib (utf8 "<nfeProc></nfeProc>") none).result =
      .error errNotNFCe := by
  decide

/-- C23, as the code has it: `ParseXML` returns the envelope the decoder returns, or fails
with the decoder's error wrapped; it fails exactly when the decoder (`xml.Unmarshal`)
reports an error, and checks nothing else.  `NewGenerator` fails exactly when `ParseXML`
fails, with the error of `ParseXML` wrapped, and `GenerateDANFE` then fails with the error
of `NewGenerator` wrapped and leaves the options as they were.  When the decoding
succeeds, `NewGenerator` succeeds, and an error of `GenerateDANFE` is the document-type
error, the unsupported-format error or the wrapped error of the PDF conversion. -/
theorem ParseXML_by_decoder (lib : Lib) (xmlContent : Bytes) :
    (∀ nfe, lib.xmlUnmarshal xmlContent = .ok nfe →
      ParseXML lib xmlContent = .ok nfe ∧
      NewGenerator lib xmlContent = .ok { nfe := nfe } ∧
      ∀ options err, (GenerateDANFE lib xmlContent options).result = .error err →
        err = errNotNFCe ∨ (∃ format, err = errUnsupportedFormat format) ∨
          ∃ c, err = errorfW "erro ao converter para PDF: " c) ∧
    (∀ err, lib.xmlUnmarshal xmlContent = .error err →
      ParseXML lib xmlContent = .error (errorfW "erro ao fazer parse do XML: " err)) ∧
    (∀ err, ParseXML lib xmlContent = .error err →
      NewGenerator lib xmlContent = .error (errorfW "erro ao fazer parse do XML: " err) ∧
      ∀ options, GenerateDANFE lib xmlContent options =
        { result := .error (errorfW "erro ao criar gerador: "
            (errorfW "erro ao fazer parse do XML: " err)),
          options := options }) ∧
    ((∃ err, ParseXML lib xmlContent = .error err) ↔
      ∃ err, lib.xmlUnmarshal xmlContent = .error err) ∧
    ((∃ err, NewGenerator lib xmlContent = .error err) ↔
      ∃ err, ParseXML lib xmlContent = .error err) := by
  cases hdec : lib.xmlUnmarshal xmlContent with
  | ok nfe =>
    have hp : ParseXML lib xmlContent = .ok nfe := by simp [ParseXML, hdec]
    have hg := NewGenerator_ok lib xmlContent nfe hdec
    refine ⟨?_, ?_, ?_, ?_, ?_⟩
    · intro nfe1 h1
      cases h1
      exact ⟨hp, hg, fun options err h =>
        GenerateDANFE_later_errors lib xmlContent nfe hdec options err h⟩
    · intro err h
      cases h
    · intro err h
      rw [hp] at h
      cases h
    · simp [hp]
    · simp [hp, hg]
  | error err =>
    have hp : ParseXML lib xmlContent = .error (errorfW "erro ao fazer parse do XML: " err) := by
      simp [ParseXML, hdec]
    have hg : NewGenerator lib xmlContent =
        .error (errorfW "erro ao fazer parse do XML: "
          (errorfW "erro ao fazer parse do XML: " err)) := NewGenerator_error lib xmlContent err hdec
    refine ⟨?_, ?_, ?_, ?_, ?_⟩
    · intro nfe h
      cases h
    · intro err1 h
      cases h
      exact hp
    · intro err1 h
      rw [hp] at h
      cases h
      refine ⟨hg, fun options => ?_⟩
      simp [GenerateDANFE, hg]
    · simp [hp]
    · simp [hp, hg]

/-! ## The currency formatter -/

/-- Rounding a quotient of natural numbers to the nearest whole number, ties to even: the
result is within one half of the quotient, and at one half only when it is even. -/
theorem round_half_even (num den : Nat) (hden : 0 < den) :
    |(((if den < 2 * (num % den) ∨ (2 * (num % den) = den ∧ (num / den) % 2 = 1)
        then num / den + 1 else num / den : Nat) : ℚ)) - (num : ℚ) / den| ≤ 1 / 2 ∧
    (|(((if den < 2 * (num % den) ∨ (2 * (num % den) = den ∧ (num / den) % 2 = 1)
        then num / den + 1 else num / den : Nat) : ℚ)) - (num : ℚ) / den| = 1 / 2 →
      (if den < 2 * (num % den) ∨ (2 * (num % den) = den ∧ (num / den) % 2 = 1)
        then num / den + 1 else num / den) % 2 = 0) := by
  have hd : (0 : ℚ) < den := by exact_mod_cast hden
  have hr : num % den < den := Nat.mod_lt _ hden
  have hsplit : (num : ℚ) / den = (num / den : Nat) + ((num % den : Nat) : ℚ) / den := by
    have h := Nat.div_add_mod num den
    have h2 : (num : ℚ) = (den : ℚ) * (num / den : Nat) + (num % den : Nat) := by
      exact_mod_cast h.symm
    field_simp
    linarith
  generalize num / den = q at hsplit ⊢
  generalize num % den = r at hsplit hr ⊢
  have hrq : (r : ℚ) < den := by exact_mod_cast hr
  have hr0 : (0 : ℚ) ≤ r := by exact_mod_cast Nat.zero_le r
  split_ifs with hc
  · have h2r : den ≤ 2 * r := by
      rcases hc with hc | ⟨hc, _⟩ <;> omega
    have h2rq : (den : ℚ) ≤ 2 * r := by exact_mod_cast h2r
    have hval : ((q + 1 : Nat) : ℚ) - (num : ℚ) / den = ((den : ℚ) - r) / den := by
      rw [hsplit]
      push_cast
      field_simp
      ring
    rw [hval]
    have hnn : (0 : ℚ) ≤ ((den : ℚ) - r) / den := div_nonneg (by linarith) hd.le
    rw [abs_of_nonneg hnn]
    constructor
    · rw [div_le_iff₀ hd]
      linarith
    · intro heq
      rw [div_eq_iff hd.ne'] at heq
      have h3 : (2 : ℚ) * r = den := by linarith
      have h4 : 2 * r = den := by exact_mod_cast h3
      rcases hc with hc | ⟨_, hq⟩
      · omega
      · omega
  · have h2r : 2 * r ≤ den := by
      by_contra hlt
      exact hc (Or.inl (by omega))
    have h2rq : (2 : ℚ) * r ≤ den := by exact_mod_cast h2r
    have hval : ((q : Nat) : ℚ) - (num : ℚ) / den = -((r : ℚ) / den) := by
      rw [hsplit]
      ring
    rw [hval, abs_neg]
    have hnn : (0 : ℚ) ≤ (r : ℚ) / den := div_nonneg hr0 hd.le
    rw [abs_of_nonneg hnn]
    constructor
    · rw [div_le_iff₀ hd]
      linarith
    · intro heq
      rw [div_eq_iff hd.ne'] at heq
      have h3 : (2 : ℚ) * r = den := by linarith
      have h4 : 2 * r = den := by exact_mod_cast h3
      by_contra hodd
      exact hc (Or.inr ⟨h4, by omega⟩)

/-- The hundredths `fixed2` prints are the magnitude times 100 rounded to the nearest whole
number: they differ from it by at most one half, and by one half only when even. -/
theorem roundedHundredths_nearest (m : Nat) (e : Int) :
    |(roundedHundredths m e : ℚ) - (m : ℚ) * 2 ^ e * 100| ≤ 1 / 2 ∧
    (|(roundedHundredths m e : ℚ) - (m : ℚ) * 2 ^ e * 100| = 1 / 2 →
      roundedHundredths m e % 2 = 0) := by
  by_cases he : e < 0
  · have hden : 0 < 2 ^ (-e).toNat := Nat.pow_pos (by decide)
    have h := round_half_even (m * 100) (2 ^ (-e).toNat) hden
    have hval : (m : ℚ) * 2 ^ e * 100 = ((m * 100 : Nat) : ℚ) / ((2 ^ (-e).toNat : Nat) : ℚ) := by
      have he2 : e = -(((-e).toNat : ℕ) : ℤ) := by
        rw [Int.toNat_of_nonneg (by omega)]
        ring
      rw [he2, zpow_neg, zpow_natCast]
      simp only [Int.toNat_neg_nat, neg_neg, Int.toNat_ofNat]
      push_cast
      field_simp
    have hdef : roundedHundredths m e =
        (if 2 ^ (-e).toNat < 2 * ((m * 100) % 2 ^ (-e).toNat) ∨
            (2 * ((m * 100) % 2 ^ (-e).toNat) = 2 ^ (-e).toNat ∧
              ((m * 100) / 2 ^ (-e).toNat) % 2 = 1)
          then (m * 100) / 2 ^ (-e).toNat + 1 else (m * 100) / 2 ^ (-e).toNat) := by
      simp only [roundedHundredths, he, if_true]
    rw [hdef, hval]
    exact h
  · have h := round_half_even (m * 2 ^ e.toNat * 100) 1 (by decide)
    have hval : (m : ℚ) * 2 ^ e * 100 = ((m * 2 ^ e.toNat * 100 : Nat) : ℚ) / ((1 : Nat) : ℚ) := by
      have he2 : e = ((e.toNat : ℕ) : ℤ) := by
        rw [Int.toNat_of_nonneg (by omega)]
      rw [he2, zpow_natCast]
      simp only [Int.toNat_ofNat]
      push_cast
      ring
    have hdef : roundedHundredths m e =
        (if 1 < 2 * ((m * 2 ^ e.toNat * 100) % 1) ∨
            (2 * ((m * 2 ^ e.toNat * 100) % 1) = 1 ∧ ((m * 2 ^ e.toNat * 100) / 1) % 2 = 1)
          then (m * 2 ^ e.toNat * 100) / 1 + 1 else (m * 2 ^ e.toNat * 100) / 1) := by
      simp only [roundedHundredths, he, if_false]
    rw [hdef, hval]
    exact h

theorem sprintf02d_two (n : Nat) (h : n < 100) : sprintf02d n = [48 + n / 10, 48 + n % 10] := by
  rw [sprintf02d_eq]
  split_ifs with h10
  · have h1 : n / 10 = 0 := by omega
    have h2 : n % 10 = n := by omega
    rw [h1, h2]
  · have hn : n = (n - 1) + 1 := by omega
    have h1 : n / 10 < 10 := by omega
    rw [decimal, decimalAux]
    simp only [h10, if_false]
    rw [hn, decimalAux, ← hn]
    simp [h1]

/-- What `fixed2` prints for a finite value: the sign, the whole part of the rounded
hundredths in decimal, a point, and the two digits of the rest. -/
theorem fixed2_finite (negative : Bool) (m : Nat) (e : Int) :
    fixed2 (.finite negative m e) =
      (if negative then utf8 "-" else []) ++ decimal (roundedHundredths m e / 100) ++ utf8 "." ++
        [48 + roundedHundredths m e % 100 / 10, 48 + roundedHundredths m e % 10] := by
  have h2 := sprintf02d_two (roundedHundredths m e % 100) (Nat.mod_lt _ (by decide))
  have h3 : roundedHundredths m e % 100 % 10 = roundedHundredths m e % 10 := by omega
  rw [h3] at h2
  rw [← h2]
  rfl

/-- C21, the input that shows the difference: for the value NaN (decoded from
`<vProd>NaN</vProd>`) `FormatCurrency` returns `R$ NaN`, and for the infinities `R$ +Inf`
and `R$ -Inf`: no decimal point and no digits. -/
theorem FormatCurrency_nan_counterexample :
    FormatCurrency (exampleLib (.ok nfeModel65)) .nan = utf8 "R$ NaN" ∧
    FormatCurrency (exampleLib (.ok nfeModel65)) (.inf false) = utf8 "R$ +Inf" ∧
    FormatCurrency (exampleLib (.ok nfeModel65)) (.inf true) = utf8 "R$ -Inf" ∧
    46 ∉ FormatCurrency (exampleLib (.ok nfeModel65)) .nan ∧
    (∀ b ∈ FormatCurrency (exampleLib (.ok nfeModel65)) .nan, ¬ (48 ≤ b ∧ b ≤ 57)) := by
  decide

/-- C21, amended: with `%.2f` as `fmt` prints it, for every finite value
`(-1)^negative * m * 2^e` the result of `FormatCurrency` is `R$ `, a minus sign when the
value is negative, the decimal digits of the whole part, a point and exactly two digits;
the number of hundredths printed is the magnitude rounded to the nearest hundredth (at
most 1/200 away, and exactly 1/200 away only when even).  10 gives `R$ 10.00` and 3.5
gives `R$ 3.50`.  NaN and the infinities give `R$ NaN`, `R$ +Inf` and `R$ -Inf`. -/
theorem FormatCurrency_two_decimals (lib : Lib) (hlib : lib.sprintfFixed2 = fixed2)
    (negative : Bool) (m : Nat) (e : Int) :
    FormatCurrency lib (.finite negative m e) =
      utf8 "R$ " ++ ((if negative then utf8 "-" else []) ++
        decimal (roundedHundredths m e / 100) ++ utf8 "." ++
        [48 + roundedHundredths m e % 100 / 10, 48 + roundedHundredths m e % 10]) ∧
    (∀ b ∈ decimal (roundedHundredths m e / 100), 48 ≤ b ∧ b ≤ 57) ∧
    digitsValue (decimal (roundedHundredths m e / 100)) = roundedHundredths m e / 100 ∧
    roundedHundredths m e % 100 / 10 < 10 ∧ roundedHundredths m e % 10 < 10 ∧
    roundedHundredths m e =
      roundedHundredths m e / 100 * 100 + roundedHundredths m e % 100 / 10 * 10 +
        roundedHundredths m e % 10 ∧
    |(roundedHundredths m e : ℚ) / 100 - (m : ℚ) * 2 ^ e| ≤ 1 / 200 ∧
    (|(roundedHundredths m e : ℚ) / 100 - (m : ℚ) * 2 ^ e| = 1 / 200 →
      roundedHundredths m e % 2 = 0) ∧
    FormatCurrency lib (.finite false 10 0) = utf8 "R$ 10.00" ∧
    FormatCurrency lib (.finite false 7 (-1)) = utf8 "R$ 3.50" ∧
    FormatCurrency lib .nan = utf8 "R$ NaN" ∧
    FormatCurrency lib (.inf false) = utf8 "R$ +Inf" ∧
    FormatCurrency lib (.inf true) = utf8 "R$ -Inf" := by
  obtain ⟨hle, htie⟩ := roundedHundredths_nearest m e
  have hrw : (roundedHundredths m e : ℚ) / 100 - (m : ℚ) * 2 ^ e =
      ((roundedHundredths m e : ℚ) - (m : ℚ) * 2 ^ e * 100) / 100 := by
    field_simp
    ring
  have habs : |(roundedHundredths m e : ℚ) / 100 - (m : ℚ) * 2 ^ e| =
      |(roundedHundredths m e : ℚ) - (m : ℚ) * 2 ^ e * 100| / 100 := by
    rw [hrw, abs_div]
    norm_num
  refine ⟨?_, decimal_digits _, digitsValue_decimal _, by omega, by omega, by omega, ?_, ?_,
    ?_, ?_, ?_, ?_, ?_⟩
  · rw [FormatCurrency, hlib, fixed2_finite]
  · rw [habs]
    linarith
  · intro h
    apply htie
    rw [habs] at h
    linarith
  · rw [FormatCurrency, hlib]
    decide
  · rw [FormatCurrency, hlib]
    decide
  · rw [FormatCurrency, hlib]
    decide
  · rw [FormatCurrency, hlib]
    decide
  · rw [FormatCurrency, hlib]
    decide

/-- C21, amended, at an input: the library of the examples prints `%.2f` as `fixed2`; the
value 2.675 as a `float64`, which is less than the decimal 2.675, is printed as `R$ 2.67`. -/
theorem FormatCurrency_two_decimals_witness :
    (exampleLib (.ok nfeModel65)).sprintfFixed2 = fixed2 ∧
    FormatCurrency (exampleLib (.ok nfeModel65)) (.finite false 3011782250804019 (-50)) =
      utf8 "R$ 2.67" :=
  ⟨rfl, (FormatCurrency_two_decimals (exampleLib (.ok nfeModel65)) rfl false
    3011782250804019 (-50)).1.trans (by decide)⟩

/-! ## The quantity formatter: the stored form and the search -/

theorem shiftDown_value (fuel : Nat) : ∀ (m : Nat) (e : Int),
    ((shiftDown fuel m e).1 : ℚ) * 2 ^ (shiftDown fuel m e).2 = (m : ℚ) * 2 ^ e := by
  induction fuel with
  | zero => intro m e; rfl
  | succ fuel ih =>
    intro m e
    unfold shiftDown
    split_ifs with h
    · rw [ih]
      have hm : m = m / 2 * 2 := by omega
      have h2 : ((m / 2 : Nat) : ℚ) * 2 = (m : ℚ) := by exact_mod_cast hm.symm
      rw [zpow_add_one₀ (by norm_num : (2 : ℚ) ≠ 0), ← h2]
      ring
    · rfl

theorem shiftUp_value (fuel : Nat) : ∀ (m : Nat) (e : Int),
    ((shiftUp fuel m e).1 : ℚ) * 2 ^ (shiftUp fuel m e).2 = (m : ℚ) * 2 ^ e := by
  induction fuel with
  | zero => intro m e; rfl
  | succ fuel ih =>
    intro m e
    unfold shiftUp
    split_ifs with h
    · rw [ih]
      rw [zpow_sub_one₀ (by norm_num : (2 : ℚ) ≠ 0)]
      push_cast
      field_simp
      ring
    · rfl

theorem shiftDown_pos (fuel : Nat) : ∀ (m : Nat) (e : Int), 0 < m →
    0 < (shiftDown fuel m e).1 := by
  induction fuel with
  | zero => intro m e h; exact h
  | succ fuel ih =>
    intro m e h
    unfold shiftDown
    split_ifs with hc
    · exact ih _ _ (by omega)
    · exact h

theorem shiftUp_pos (fuel : Nat) : ∀ (m : Nat) (e : Int), 0 < m →
    0 < (shiftUp fuel m e).1 := by
  induction fuel with
  | zero => intro m e h; exact h
  | succ fuel ih =>
    intro m e h
    unfold shiftUp
    split_ifs with hc
    · exact ih _ _ (by omega)
    · exact h

/-- The stored form denotes the value. -/
theorem float64Form_value (m : Nat) (e : Int) :
    ((float64Form m e).1 : ℚ) * 2 ^ (float64Form m e).2 = (m : ℚ) * 2 ^ e := by
  rw [float64Form, shiftUp_value, shiftDown_value]

theorem float64Form_pos (m : Nat) (e : Int) (h : 0 < m) : 0 < (float64Form m e).1 :=
  shiftUp_pos _ _ _ (shiftDown_pos _ _ _ h)

theorem inUnit_lt (E : Int) (a b : Nat) (h : a < b) : inUnit E a < inUnit E b := by
  unfold inUnit
  have h1 : 0 < 2 ^ (E - 2).toNat := Nat.pow_pos (by decide)
  have h2 : 0 < 10 ^ scaleP E := Nat.pow_pos (by decide)
  exact Nat.mul_lt_mul_of_pos_right (Nat.mul_lt_mul_of_pos_right h h1) h2

theorem lowerBound_pos (M : Nat) (E : Int) (h : 0 < M) : 0 < lowerBound M E := by
  have h0 : inUnit E 0 = 0 := by simp [inUnit]
  rw [← h0]
  apply inUnit_lt
  split_ifs <;> omega

theorem lowerBound_lt_central (M : Nat) (E : Int) (h : 0 < M) :
    lowerBound M E < central M E := by
  apply inUnit_lt
  split_ifs <;> omega

theorem central_lt_upperBound (M : Nat) (E : Int) : central M E < upperBound M E := by
  apply inUnit_lt
  omega

theorem admissible_central (M : Nat) (E : Int) (h : 0 < M) :
    admissible M E (central M E) = true := by
  have h1 := lowerBound_lt_central M E h
  have h2 := central_lt_upperBound M E
  unfold admissible
  split_ifs
  · exact decide_eq_true ⟨h1.le, h2.le⟩
  · exact decide_eq_true ⟨h1, h2⟩

theorem admissible_pos (M : Nat) (E : Int) (x : Nat) (h : 0 < M)
    (ha : admissible M E x = true) : 0 < x := by
  have h1 := lowerBound_pos M E h
  unfold admissible at ha
  split_ifs at ha
  · have := of_decide_eq_true ha
    omega
  · have := of_decide_eq_true ha
    omega

/-- The value is a whole number of units `2^(-P)`. -/
theorem central_dvd (M : Nat) (E : Int) : 2 ^ scaleP E ∣ central M E := by
  unfold central inUnit
  have h : (10 : Nat) ^ scaleP E = 2 ^ scaleP E * 5 ^ scaleP E := by
    rw [← Nat.mul_pow]
  rw [h]
  exact ⟨4 * M * 2 ^ (E - 2).toNat * 5 ^ scaleP E, by ring⟩

/-- What the search returns is admissible and positive. -/
theorem shortestAt_admissible (M : Nat) (E : Int) (h : 0 < M) (j : Nat) :
    admissible M E ((shortestAt M E j).1 * (10 ^ (shortestAt M E j).2 * 2 ^ scaleP E)) = true := by
  induction j with
  | zero =>
    simp only [shortestAt, pow_zero, one_mul]
    rw [Nat.div_mul_cancel (central_dvd M E)]
    exact admissible_central M E h
  | succ j ih =>
    unfold shortestAt
    simp only
    split_ifs with h1 h2 h3 h4
    · simp only [Bool.and_eq_true] at h1
      exact h1.1
    · simp only [Bool.and_eq_true] at h1
      exact h1.2
    · exact h3
    · exact h4
    · exact ih

theorem shortestAt_pos (M : Nat) (E : Int) (h : 0 < M) (j : Nat) :
    0 < (shortestAt M E j).1 := by
  have h1 := admissible_pos M E _ h (shortestAt_admissible M E h j)
  exact Nat.pos_of_mul_pos_right h1

theorem trimZeros_value (fuel : Nat) : ∀ d j : Nat,
    (trimZeros fuel d j).1 * 10 ^ (trimZeros fuel d j).2 = d * 10 ^ j := by
  induction fuel with
  | zero => intro d j; rfl
  | succ fuel ih =>
    intro d j
    unfold trimZeros
    split_ifs with hc
    · rw [ih, pow_succ]
      have hd : d = d / 10 * 10 := by omega
      conv_rhs => rw [hd]
      ring
    · rfl

theorem trimZeros_last (fuel : Nat) : ∀ d j : Nat, d ≤ fuel → 0 < d →
    (trimZeros fuel d j).1 % 10 ≠ 0 := by
  induction fuel with
  | zero => intro d j h1 h2; omega
  | succ fuel ih =>
    intro d j h1 h2
    unfold trimZeros
    split_ifs with hc
    · exact ih _ _ (by omega) (by omega)
    · intro h0
      exact hc ⟨h0, by omega⟩

/-! ## The quantity formatter: the digits round to the value -/

theorem two_zpow_split (x : Int) :
    (2 : ℚ) ^ x * 2 ^ (-x).toNat = 2 ^ x.toNat := by
  have hx : (x.toNat : Int) - ((-x).toNat : Int) = x := Int.toNat_sub_toNat_neg x
  have h2 : (2 : ℚ) ≠ 0 := by norm_num
  have hpos : (2 : ℚ) ^ (-x).toNat ≠ 0 := pow_ne_zero _ h2
  have h := zpow_sub₀ h2 (x.toNat : Int) ((-x).toNat : Int)
  rw [hx, zpow_natCast, zpow_natCast] at h
  rw [h]
  field_simp

/-- A number of quarters of the last place, as a rational number times the common
denominator. -/
theorem inUnit_cast (E : Int) (q : Nat) :
    ((inUnit E q : Nat) : ℚ) =
      (q : ℚ) * 2 ^ (E - 2) * (2 ^ scaleP E * 10 ^ scaleP E) := by
  have h := two_zpow_split (E - 2)
  unfold inUnit scaleP
  push_cast
  rw [← h]
  ring

/-- A multiple of a power of ten, as a rational number times the common denominator. -/
theorem multiple_cast (D j P : Nat) :
    ((D * (10 ^ j * 2 ^ P) : Nat) : ℚ) =
      (D : ℚ) * 10 ^ ((j : Int) - (P : Int)) * (2 ^ P * 10 ^ P) := by
  have h10 : (10 : ℚ) ≠ 0 := by norm_num
  rw [zpow_sub₀ h10, zpow_natCast, zpow_natCast]
  push_cast
  have hpos : (10 : ℚ) ^ P ≠ 0 := pow_ne_zero _ h10
  field_simp
  ring

/-- An admissible multiple rounds to the value. -/
theorem admissible_roundsTo (M : Nat) (E : Int) (D j : Nat)
    (h : admissible M E (D * (10 ^ j * 2 ^ scaleP E)) = true) :
    roundsTo M E ((D : ℚ) * 10 ^ ((j : Int) - (scaleP E : Int))) := by
  have hT : (0 : ℚ) < 2 ^ scaleP E * 10 ^ scaleP E := by positivity
  have hx := multiple_cast D j (scaleP E)
  have hlo := inUnit_cast E (if M = 2 ^ 52 ∧ -1074 < E then 4 * M - 1 else 4 * M - 2)
  have hhi := inUnit_cast E (4 * M + 2)
  unfold admissible lowerBound upperBound at h
  unfold roundsTo
  generalize (if M = 2 ^ 52 ∧ -1074 < E then 4 * M - 1 else 4 * M - 2) = lq at h hlo ⊢
  generalize D * (10 ^ j * 2 ^ scaleP E) = x at h hx
  by_cases hc : M % 2 = 0
  · simp only [hc, if_true] at h ⊢
    obtain ⟨h1, h2⟩ := of_decide_eq_true h
    have h1q : ((inUnit E lq : Nat) : ℚ) ≤ ((x : Nat) : ℚ) := by exact_mod_cast h1
    have h2q : ((x : Nat) : ℚ) ≤ ((inUnit E (4 * M + 2) : Nat) : ℚ) := by exact_mod_cast h2
    rw [hlo, hx] at h1q
    rw [hhi, hx] at h2q
    exact ⟨le_of_mul_le_mul_right h1q hT, le_of_mul_le_mul_right h2q hT⟩
  · simp only [hc, if_false] at h ⊢
    obtain ⟨h1, h2⟩ := of_decide_eq_true h
    have h1q : ((inUnit E lq : Nat) : ℚ) < ((x : Nat) : ℚ) := by exact_mod_cast h1
    have h2q : ((x : Nat) : ℚ) < ((inUnit E (4 * M + 2) : Nat) : ℚ) := by exact_mod_cast h2
    rw [hlo, hx] at h1q
    rw [hhi, hx] at h2q
    exact ⟨lt_of_mul_lt_mul_right h1q hT.le, lt_of_mul_lt_mul_right h2q hT.le⟩

/-- The shortest digits: a positive number without trailing zero, and the decimal it
stands for rounds to the value. -/
theorem shortestDigits_spec (m : Nat) (e : Int) (hm : 0 < m) :
    0 < (shortestDigits m e).1 ∧ (shortestDigits m e).1 % 10 ≠ 0 ∧
    roundsTo (float64Form m e).1 (float64Form m e).2
      (((shortestDigits m e).1 : ℚ) * 10 ^ (shortestDigits m e).2) := by
  have hM := float64Form_pos m e hm
  generalize hMe : (float64Form m e).1 = M at hM
  generalize hEe : (float64Form m e).2 = E
  have hdef : shortestDigits m e =
      ((trimZeros (shortestAt M E (decimal (upperBound M E / 2 ^ scaleP E)).length).1
          (shortestAt M E (decimal (upperBound M E / 2 ^ scaleP E)).length).1
          (shortestAt M E (decimal (upperBound M E / 2 ^ scaleP E)).length).2).1,
        ((trimZeros (shortestAt M E (decimal (upperBound M E / 2 ^ scaleP E)).length).1
          (shortestAt M E (decimal (upperBound M E / 2 ^ scaleP E)).length).1
          (shortestAt M E (decimal (upperBound M E / 2 ^ scaleP E)).length).2).2 : Int) -
          (scaleP E : Int)) := by
    simp only [shortestDigits, hMe, hEe]
  generalize (decimal (upperBound M E / 2 ^ scaleP E)).length = J at hdef
  have hadm := shortestAt_admissible M E hM J
  have hpos := shortestAt_pos M E hM J
  generalize shortestAt M E J = r at hdef hadm hpos
  have hval := trimZeros_value r.1 r.1 r.2
  have hlast := trimZeros_last r.1 r.1 r.2 (le_refl _) hpos
  generalize trimZeros r.1 r.1 r.2 = t at hdef hval hlast
  rw [hdef]
  simp only
  refine ⟨by omega, hlast, ?_⟩
  apply admissible_roundsTo
  have hre : t.1 * (10 ^ t.2 * 2 ^ scaleP E) = r.1 * (10 ^ r.2 * 2 ^ scaleP E) := by
    rw [← Nat.mul_assoc, hval, Nat.mul_assoc]
  rw [hre]
  exact hadm

/-! ## The quantity formatter: the positional notation -/

theorem digitsValue_append (a b : Bytes) :
    digitsValue (a ++ b) = digitsValue a * 10 ^ b.length + digitsValue b := by
  simp only [digitsValue, List.foldl_append]
  rw [digitsValue_foldl]
  simp [digitsValue]

theorem digitsValue_zeros (n : Nat) : digitsValue (List.replicate n 48) = 0 := by
  induction n with
  | zero => rfl
  | succ n ih =>
    rw [List.replicate_succ, digitsValue_cons, ih]
    simp

theorem decimalAux_suffix (fuel : Nat) : ∀ (n : Nat) (acc : Bytes),
    ∃ pre, decimalAux fuel n acc = pre ++ acc := by
  induction fuel with
  | zero => intro n acc; exact ⟨[], rfl⟩
  | succ fuel ih =>
    intro n acc
    unfold decimalAux
    split_ifs with h
    · exact ⟨[48 + n], rfl⟩
    · obtain ⟨pre, hp⟩ := ih (n / 10) ((48 + n % 10) :: acc)
      exact ⟨pre ++ [48 + n % 10], by rw [hp]; simp⟩

/-- The last digit `decimal` prints is the digit of the units. -/
theorem decimal_getLast (n : Nat) : (decimal n).getLast? = some (48 + n % 10) := by
  rw [decimal, decimalAux]
  split_ifs with h
  · have : n % 10 = n := by omega
    rw [this]
    rfl
  · obtain ⟨pre, hp⟩ := decimalAux_suffix n (n / 10) [48 + n % 10]
    rw [hp]
    simp

/-- The notation `%f` of digits `s` that denote `D` and do not end in a zero, with the
point `-k` places from the end (`k` zeros added when `k` is positive): a whole part and,
after a point, a fraction part that does not end in a zero; together they denote
`D * 10^k`. -/
theorem fmtF_digits (s : Bytes) (D : Nat) (k : Int) (hs : s ≠ [])
    (hdig : ∀ b ∈ s, 48 ≤ b ∧ b ≤ 57) (hval : digitsValue s = D)
    (hlast : s.getLast? ≠ some 48) :
    ∃ whole frac : Bytes,
      fmtF s (s.length + k) = whole ++ (if frac = [] then [] else 46 :: frac) ∧
      whole ≠ [] ∧ (∀ b ∈ whole, 48 ≤ b ∧ b ≤ 57) ∧ (∀ b ∈ frac, 48 ≤ b ∧ b ≤ 57) ∧
      frac.getLast? ≠ some 48 ∧
      (digitsValue whole : ℚ) + (digitsValue frac : ℚ) / 10 ^ frac.length = (D : ℚ) * 10 ^ k := by
  have hnd : 0 < s.length := List.length_pos.mpr hs
  have h10 : (10 : ℚ) ≠ 0 := by norm_num
  by_cases hk : 0 ≤ k
  · obtain ⟨n, rfl⟩ := Int.eq_ofNat_of_zero_le hk
    refine ⟨s ++ List.replicate n 48, [], ?_, ?_, ?_, ?_, ?_, ?_⟩
    · have h1 : (0 : Int) < (s.length : Int) + (n : Int) := by omega
      have h2 : ((s.length : Int) + (n : Int)).toNat = s.length + n := by omega
      have h3 : ¬ ((s.length : Int) + (n : Int) < (s.length : Int)) := by omega
      simp only [fmtF, h1, h2, h3, if_true, if_false, List.append_nil]
      rw [List.take_of_length_le (by omega)]
      congr 2
      omega
    · simp [hs]
    · intro b hb
      rw [List.mem_append, List.mem_replicate] at hb
      rcases hb with hb | ⟨_, rfl⟩
      · exact hdig b hb
      · omega
    · intro b hb
      cases hb
    · simp
    · rw [digitsValue_append, digitsValue_zeros, hval]
      simp [digitsValue, zpow_natCast]
  · have hf : k = -(((-k).toNat : Nat) : Int) := by omega
    have hfpos : 0 < (-k).toNat := by omega
    generalize (-k).toNat = f at hf hfpos
    subst hf
    by_cases hlt : f < s.length
    · refine ⟨s.take (s.length - f), s.drop (s.length - f), ?_, ?_, ?_, ?_, ?_, ?_⟩
      · have h1 : (0 : Int) < (s.length : Int) + -(f : Int) := by omega
        have h2 : ((s.length : Int) + -(f : Int)).toNat = s.length - f := by omega
        have h3 : (s.length : Int) + -(f : Int) < (s.length : Int) := by omega
        have h4 : (-((s.length : Int) + -(f : Int))).toNat = 0 := by omega
        have h5 : s.drop (s.length - f) ≠ [] := by
          intro h0
          have := congrArg List.length h0
          simp only [List.length_drop, List.length_nil] at this
          omega
        simp only [fmtF, h1, h2, h3, h4, if_true, h5, if_false, List.replicate_zero,
          List.nil_append]
        have h6 : s.length - f - s.length = 0 := by omega
        rw [h6]
        simp
      · intro h0
        have := congrArg List.length h0
        simp only [List.length_take, List.length_nil] at this
        omega
      · intro b hb
        exact hdig b (List.mem_of_mem_take hb)
      · intro b hb
        exact hdig b (List.mem_of_mem_drop hb)
      · have hsplit : s = s.take (s.length - f) ++ s.drop (s.length - f) :=
          (List.take_append_drop _ _).symm
        have h5 : s.drop (s.length - f) ≠ [] := by
          intro h0
          have := congrArg List.length h0
          simp only [List.length_drop, List.length_nil] at this
          omega
        have h6 : s.getLast? = (s.drop (s.length - f)).getLast? := by
          conv_lhs => rw [hsplit]
          rw [List.getLast?_append_of_ne_nil _ h5]
        rw [← h6]
        exact hlast
      · have hsplit : s = s.take (s.length - f) ++ s.drop (s.length - f) :=
          (List.take_append_drop _ _).symm
        have hlen : (s.drop (s.length - f)).length = f := by
          rw [List.length_drop]
          omega
        have hD : digitsValue (s.take (s.length - f)) * 10 ^ f +
            digitsValue (s.drop (s.length - f)) = D := by
          rw [← hval]
          conv_rhs => rw [hsplit]
          rw [digitsValue_append, hlen]
        rw [hlen, zpow_neg, zpow_natCast]
        have hDq : ((digitsValue (s.take (s.length - f)) : ℚ)) * 10 ^ f +
            (digitsValue (s.drop (s.length - f)) : ℚ) = (D : ℚ) := by exact_mod_cast hD
        rw [← hDq]
        have hp : (10 : ℚ) ^ f ≠ 0 := pow_ne_zero _ h10
        field_simp
    · refine ⟨[48], List.replicate (f - s.length) 48 ++ s, ?_, ?_, ?_, ?_, ?_, ?_⟩
      · have h1 : ¬ ((0 : Int) < (s.length : Int) + -(f : Int)) := by omega
        have h3 : (s.length : Int) + -(f : Int) < (s.length : Int) := by omega
        have h4 : (-((s.length : Int) + -(f : Int))).toNat = f - s.length := by omega
        have h2 : ((s.length : Int) + -(f : Int)).toNat = 0 := by omega
        have h5 : List.replicate (f - s.length) 48 ++ s ≠ [] := by simp [hs]
        simp only [fmtF, h1, h2, h3, h4, if_true, h5, if_false, List.drop_zero]
      · simp
      · intro b hb
        simp only [List.mem_singleton] at hb
        omega
      · intro b hb
        rw [List.mem_append, List.mem_replicate] at hb
        rcases hb with ⟨_, rfl⟩ | hb
        · omega
        · exact hdig b hb
      · rw [List.getLast?_append_of_ne_nil _ hs]
        exact hlast
      · have hlen : (List.replicate (f - s.length) 48 ++ s).length = f := by
          rw [List.length_append, List.length_replicate]
          omega
        rw [hlen, digitsValue_append, digitsValue_zeros, hval, zpow_neg, zpow_natCast]
        have hp : (10 : ℚ) ^ f ≠ 0 := pow_ne_zero _ h10
        simp [digitsValue]
        field_simp

/-! ## The quantity formatter: no decimal with fewer digits rounds to the value -/

theorem digitsValue_lt (s : Bytes) (h : ∀ b ∈ s, 48 ≤ b ∧ b ≤ 57) :
    digitsValue s < 10 ^ s.length := by
  induction s with
  | nil => simp [digitsValue]
  | cons b s ih =>
    have hb := h b (List.mem_cons_self b s)
    have hs := ih (fun x hx => h x (List.mem_cons_of_mem b hx))
    rw [digitsValue_cons, List.length_cons, pow_succ]
    have h9 : b - 48 ≤ 9 := by omega
    have hm : (b - 48) * 10 ^ s.length ≤ 9 * 10 ^ s.length := Nat.mul_le_mul_right _ h9
    omega

/-- A number is below the power of ten of the number of its digits. -/
theorem lt_pow_decimal_length (n : Nat) : n < 10 ^ (decimal n).length := by
  have h := digitsValue_lt (decimal n) (decimal_digits n)
  rw [digitsValue_decimal] at h
  exact h

theorem decimalAux_length_le (fuel : Nat) : ∀ (n : Nat) (acc : Bytes) (L : Nat),
    0 < L → n < 10 ^ L → (decimalAux fuel n acc).length ≤ L + acc.length := by
  induction fuel with
  | zero => intro n acc L _ _; simp [decimalAux]
  | succ fuel ih =>
    intro n acc L hL hn
    unfold decimalAux
    split_ifs with h10
    · simp only [List.length_cons]
      omega
    · have hL2 : 1 < L := by
        by_contra hc
        have : L = 1 := by omega
        rw [this] at hn
        omega
      have hn2 : n / 10 < 10 ^ (L - 1) := by
        have hp : 10 ^ L = 10 ^ (L - 1) * 10 := by
          rw [← pow_succ]
          congr 1
          omega
        rw [hp] at hn
        exact Nat.div_lt_of_lt_mul (by rw [Nat.mul_comm]; exact hn)
      have := ih (n / 10) ((48 + n % 10) :: acc) (L - 1) (by omega) hn2
      simp only [List.length_cons] at this
      omega

/-- A number below `10^L` has at most `L` digits. -/
theorem decimal_length_le (n L : Nat) (hL : 0 < L) (h : n < 10 ^ L) :
    (decimal n).length ≤ L := by
  have := decimalAux_length_le (n + 1) n [] L hL h
  simpa [decimal] using this

theorem decimal_length_mono (a b : Nat) (h : a ≤ b) :
    (decimal a).length ≤ (decimal b).length :=
  decimal_length_le a _ (decimal_length_pos b) (lt_of_le_of_lt h (lt_pow_decimal_length b))

theorem trimZeros_le (fuel : Nat) : ∀ d j : Nat, (trimZeros fuel d j).1 ≤ d := by
  induction fuel with
  | zero => intro d j; exact le_refl _
  | succ fuel ih =>
    intro d j
    unfold trimZeros
    split_ifs with hc
    · exact le_trans (ih _ _) (Nat.div_le_self d 10)
    · exact le_refl _

/-- Between two admissible numbers every number is admissible. -/
theorem admissible_between (M : Nat) (E : Int) (x y z : Nat)
    (hx : admissible M E x = true) (hz : admissible M E z = true) (h1 : x ≤ y) (h2 : y ≤ z) :
    admissible M E y = true := by
  unfold admissible at hx hz ⊢
  split_ifs at hx hz ⊢
  · have a := of_decide_eq_true hx
    have b := of_decide_eq_true hz
    exact decide_eq_true ⟨by omega, by omega⟩
  · have a := of_decide_eq_true hx
    have b := of_decide_eq_true hz
    exact decide_eq_true ⟨by omega, by omega⟩

/-- When a multiple of `u` is admissible, one of the two multiples next to the value is. -/
theorem admissible_candidates (M : Nat) (E : Int) (hM : 0 < M) (u n : Nat) (hu : 0 < u)
    (h : admissible M E (n * u) = true) :
    admissible M E (central M E / u * u) = true ∨
      admissible M E ((central M E / u + 1) * u) = true := by
  have hc := admissible_central M E hM
  by_cases hn : n ≤ central M E / u
  · left
    have h1 : n * u ≤ central M E / u * u := Nat.mul_le_mul_right u hn
    have h2 : central M E / u * u ≤ central M E := Nat.div_mul_le_self _ _
    exact admissible_between M E _ _ _ h hc h1 h2
  · right
    have hn2 : central M E / u + 1 ≤ n := by omega
    have h1 : (central M E / u + 1) * u ≤ n * u := Nat.mul_le_mul_right u hn2
    have h2 : central M E ≤ (central M E / u + 1) * u := by
      have h3 := Nat.div_add_mod (central M E) u
      have h4 := Nat.mod_lt (central M E) hu
      rw [Nat.add_mul, Nat.one_mul, Nat.mul_comm]
      omega
    exact admissible_between M E _ _ _ hc h h2 h1

theorem shortestAt_le (M : Nat) (E : Int) (J : Nat) : (shortestAt M E J).2 ≤ J := by
  induction J with
  | zero => simp [shortestAt]
  | succ J ih =>
    unfold shortestAt
    simp only
    split_ifs
    · exact le_refl _
    · exact le_refl _
    · exact le_refl _
    · exact le_refl _
    · exact Nat.le_succ_of_le ih

/-- The search stops at the largest power: no larger power up to the start has an
admissible multiple. -/
theorem shortestAt_maximal (M : Nat) (E : Int) (hM : 0 < M) (J : Nat) :
    ∀ j', (shortestAt M E J).2 < j' → j' ≤ J →
      ∀ n, admissible M E (n * (10 ^ j' * 2 ^ scaleP E)) = false := by
  induction J with
  | zero =>
    intro j' h1 h2 n
    simp only [shortestAt] at h1
    omega
  | succ J ih =>
    intro j' hlt hle n
    unfold shortestAt at hlt
    simp only at hlt
    split_ifs at hlt with h1 h2 h3 h4
    · simp only at hlt; omega
    · simp only at hlt; omega
    · simp only at hlt; omega
    · simp only at hlt; omega
    · by_cases hj : j' = J + 1
      · subst hj
        by_contra hadm
        have hadm2 : admissible M E (n * (10 ^ (J + 1) * 2 ^ scaleP E)) = true := by
          simpa using hadm
        have hu : 0 < 10 ^ (J + 1) * 2 ^ scaleP E :=
          Nat.mul_pos (Nat.pow_pos (by decide)) (Nat.pow_pos (by decide))
        rcases admissible_candidates M E hM _ n hu hadm2 with h | h
        · exact h3 h
        · exact h4 h
      · exact ih j' hlt (by omega) n

/-- A power of ten with as many zeros as the upper end has digits has no admissible
multiple. -/
theorem not_admissible_large (M : Nat) (E : Int) (hM : 0 < M) (j' : Nat)
    (hj : (decimal (upperBound M E / 2 ^ scaleP E)).length ≤ j') (n : Nat) :
    admissible M E (n * (10 ^ j' * 2 ^ scaleP E)) = false := by
  by_contra hadm
  have hadm2 : admissible M E (n * (10 ^ j' * 2 ^ scaleP E)) = true := by simpa using hadm
  have hpos := admissible_pos M E _ hM hadm2
  have hn : 0 < n := Nat.pos_of_mul_pos_right hpos
  have h2 : 0 < 2 ^ scaleP E := Nat.pow_pos (by decide)
  have hlt := lt_pow_decimal_length (upperBound M E / 2 ^ scaleP E)
  have hpow : 10 ^ (decimal (upperBound M E / 2 ^ scaleP E)).length ≤ 10 ^ j' :=
    Nat.pow_le_pow_right (by decide) hj
  have hup : upperBound M E < 10 ^ j' * 2 ^ scaleP E := by
    have h3 : upperBound M E / 2 ^ scaleP E < 10 ^ j' := lt_of_lt_of_le hlt hpow
    exact (Nat.div_lt_iff_lt_mul h2).mp h3
  have hge : 10 ^ j' * 2 ^ scaleP E ≤ n * (10 ^ j' * 2 ^ scaleP E) :=
    Nat.le_mul_of_pos_left _ hn
  unfold admissible at hadm2
  split_ifs at hadm2
  · have := of_decide_eq_true hadm2
    omega
  · have := of_decide_eq_true hadm2
    omega

/-- No power of ten above the one the search returns has an admissible multiple. -/
theorem no_admissible_above (M : Nat) (E : Int) (hM : 0 < M) (j' : Nat)
    (hj : (shortestAt M E (decimal (upperBound M E / 2 ^ scaleP E)).length).2 < j') (n : Nat) :
    admissible M E (n * (10 ^ j' * 2 ^ scaleP E)) = false := by
  by_cases h : j' ≤ (decimal (upperBound M E / 2 ^ scaleP E)).length
  · exact shortestAt_maximal M E hM _ j' hj h n
  · exact not_admissible_large M E hM j' (by omega) n

/-- Between two numbers that round to the value every number rounds to it. -/
theorem roundsTo_between (M : Nat) (E : Int) (x y z : ℚ)
    (hx : roundsTo M E x) (hz : roundsTo M E z) (h1 : x ≤ y) (h2 : y ≤ z) :
    roundsTo M E y := by
  unfold roundsTo at hx hz ⊢
  by_cases hc : M % 2 = 0
  · simp only [hc, if_true] at hx hz ⊢
    exact ⟨le_trans hx.1 h1, le_trans h2 hz.2⟩
  · simp only [hc, if_false] at hx hz ⊢
    exact ⟨lt_of_lt_of_le hx.1 h1, lt_of_le_of_lt h2 hz.2⟩

/-- A multiple that rounds to the value is admissible. -/
theorem roundsTo_admissible (M : Nat) (E : Int) (D j : Nat)
    (h : roundsTo M E ((D : ℚ) * 10 ^ ((j : Int) - (scaleP E : Int)))) :
    admissible M E (D * (10 ^ j * 2 ^ scaleP E)) = true := by
  have hT : (0 : ℚ) < 2 ^ scaleP E * 10 ^ scaleP E := by positivity
  have hx := multiple_cast D j (scaleP E)
  have hlo := inUnit_cast E (if M = 2 ^ 52 ∧ -1074 < E then 4 * M - 1 else 4 * M - 2)
  have hhi := inUnit_cast E (4 * M + 2)
  unfold roundsTo at h
  unfold admissible lowerBound upperBound
  generalize (if M = 2 ^ 52 ∧ -1074 < E then 4 * M - 1 else 4 * M - 2) = lq at h hlo ⊢
  generalize D * (10 ^ j * 2 ^ scaleP E) = x at hx ⊢
  by_cases hc : M % 2 = 0
  · simp only [hc, if_true] at h ⊢
    have h1q : ((inUnit E lq : Nat) : ℚ) ≤ ((x : Nat) : ℚ) := by
      rw [hlo, hx]
      exact mul_le_mul_of_nonneg_right h.1 hT.le
    have h2q : ((x : Nat) : ℚ) ≤ ((inUnit E (4 * M + 2) : Nat) : ℚ) := by
      rw [hhi, hx]
      exact mul_le_mul_of_nonneg_right h.2 hT.le
    exact decide_eq_true ⟨by exact_mod_cast h1q, by exact_mod_cast h2q⟩
  · simp only [hc, if_false] at h ⊢
    have h1q : ((inUnit E lq : Nat) : ℚ) < ((x : Nat) : ℚ) := by
      rw [hlo, hx]
      exact mul_lt_mul_of_pos_right h.1 hT
    have h2q : ((x : Nat) : ℚ) < ((inUnit E (4 * M + 2) : Nat) : ℚ) := by
      rw [hhi, hx]
      exact mul_lt_mul_of_pos_right h.2 hT
    exact decide_eq_true ⟨by exact_mod_cast h1q, by exact_mod_cast h2q⟩

/-- No decimal with fewer digits than the shortest digits rounds to the value: a decimal
`D1 * 10^k1` that rounds to it has at least as many digits in `D1`. -/
theorem shortestDigits_minimal (m : Nat) (e : Int) (hm : 0 < m) (D1 : Nat) (k1 : Int)
    (hr : roundsTo (float64Form m e).1 (float64Form m e).2 ((D1 : ℚ) * 10 ^ k1)) :
    (decimal (shortestDigits m e).1).length ≤ (decimal D1).length := by
  have hM := float64Form_pos m e hm
  generalize hMe : (float64Form m e).1 = M at hM hr
  generalize hEe : (float64Form m e).2 = E at hr
  have hdef : (shortestDigits m e).1 =
      (trimZeros (shortestAt M E (decimal (upperBound M E / 2 ^ scaleP E)).length).1
          (shortestAt M E (decimal (upperBound M E / 2 ^ scaleP E)).length).1
          (shortestAt M E (decimal (upperBound M E / 2 ^ scaleP E)).length).2).1 := by
    simp only [shortestDigits, hMe, hEe]
  have hmax := no_admissible_above M E hM
  generalize (decimal (upperBound M E / 2 ^ scaleP E)).length = J at hdef hmax
  have hadm := shortestAt_admissible M E hM J
  generalize shortestAt M E J = r at hdef hadm hmax
  have hle := trimZeros_le r.1 r.1 r.2
  rw [hdef]
  refine le_trans (decimal_length_mono _ _ hle) ?_
  apply decimal_length_le _ _ (decimal_length_pos D1)
  by_contra hge
  have hge2 : 10 ^ (decimal D1).length ≤ r.1 := by omega
  have h10 : (10 : ℚ) ≠ 0 := by norm_num
  have hx := admissible_roundsTo M E r.1 r.2 hadm
  have hD1 := lt_pow_decimal_length D1
  have hLpos := decimal_length_pos D1
  generalize (decimal D1).length = L at hge2 hD1 hLpos
  have hk0 : (((r.2 + 1 : Nat) : Int) - (scaleP E : Int)) =
      ((r.2 : Int) - (scaleP E : Int)) + 1 := by
    push_cast
    ring
  by_cases hk : k1 ≤ (r.2 : Int) - (scaleP E : Int)
  · have hpk : (0 : ℚ) < 10 ^ ((r.2 : Int) - (scaleP E : Int)) := by positivity
    have hpk1 : (0 : ℚ) < 10 ^ k1 := by positivity
    have hy1 : (D1 : ℚ) * 10 ^ k1 ≤ (10 : ℚ) ^ L * 10 ^ ((r.2 : Int) - (scaleP E : Int)) := by
      have a1 : (D1 : ℚ) ≤ (10 : ℚ) ^ L := by exact_mod_cast hD1.le
      have a2 : (10 : ℚ) ^ k1 ≤ 10 ^ ((r.2 : Int) - (scaleP E : Int)) :=
        zpow_le_zpow_right₀ (by norm_num) hk
      exact mul_le_mul a1 a2 hpk1.le (by positivity)
    have hy2 : (10 : ℚ) ^ L * 10 ^ ((r.2 : Int) - (scaleP E : Int)) ≤
        (r.1 : ℚ) * 10 ^ ((r.2 : Int) - (scaleP E : Int)) := by
      have a1 : (10 : ℚ) ^ L ≤ (r.1 : ℚ) := by exact_mod_cast hge2
      exact mul_le_mul_of_nonneg_right a1 hpk.le
    have hy := roundsTo_between M E _ _ _ hr hx hy1 hy2
    have hyeq : (10 : ℚ) ^ L * 10 ^ ((r.2 : Int) - (scaleP E : Int)) =
        ((10 ^ (L - 1) : Nat) : ℚ) * 10 ^ (((r.2 + 1 : Nat) : Int) - (scaleP E : Int)) := by
      have hL : L = (L - 1) + 1 := by omega
      rw [hk0, zpow_add_one₀ h10]
      conv_lhs => rw [hL, pow_succ]
      push_cast
      ring
    rw [hyeq] at hy
    have hA := roundsTo_admissible M E _ _ hy
    rw [hmax (r.2 + 1) (by omega) _] at hA
    cases hA
  · have hk2 : k1 = (((r.2 + 1 : Nat) : Int) - (scaleP E : Int)) +
        (((k1 - (((r.2 + 1 : Nat) : Int) - (scaleP E : Int))).toNat : Nat) : Int) := by
      rw [Int.toNat_of_nonneg (by rw [hk0]; omega)]
      ring
    generalize (k1 - (((r.2 + 1 : Nat) : Int) - (scaleP E : Int))).toNat = t at hk2
    have hyeq : (D1 : ℚ) * 10 ^ k1 =
        ((D1 * 10 ^ t : Nat) : ℚ) * 10 ^ (((r.2 + 1 : Nat) : Int) - (scaleP E : Int)) := by
      rw [hk2, zpow_add₀ h10, zpow_natCast]
      push_cast
      ring
    rw [hyeq] at hr
    have hA := roundsTo_admissible M E _ _ hr
    rw [hmax (r.2 + 1) (by omega) _] at hA
    cases hA

/-- C22, the inputs that show the difference.  For NaN (decoded from `<qCom>NaN</qCom>`)
and the infinities `FormatQuantity` returns `NaN`, `+Inf` and `-Inf`, which are not decimal
renderings.  For the `float64` nearest to one tenth, `3602879701896397 * 2^-55`, it
returns `0.1`, which denotes one tenth and not that value. -/
theorem FormatQuantity_counterexample :
    FormatQuantity numLib .nan = utf8 "NaN" ∧
    FormatQuantity numLib (.inf false) = utf8 "+Inf" ∧
    FormatQuantity numLib (.inf true) = utf8 "-Inf" ∧
    FormatQuantity numLib (.finite false 3602879701896397 (-55)) = utf8 "0.1" ∧
    (3602879701896397 : ℚ) * 2 ^ (-55 : Int) ≠ 1 / 10 := by
  refine ⟨by decide, by decide, by decide, by decide, ?_⟩
  norm_num

/-- C22, amended: with `strconv.FormatFloat(v, 'f', -1, 64)` as `strconv` prints it, for
every finite value `(-1)^negative * m * 2^e` other than zero the result of `FormatQuantity`
is a minus sign when the value is negative, a whole part of decimal digits and, when there
are decimals, a point and a fraction part of decimal digits that does not end in a zero:
no exponent, no trailing zero after the point, no trailing point.  The number these
digits denote rounds to the value as a `float64` (it lies between the points half way to
the values next to it), so it reads back as the value; it need not be the value.  It is
the shortest such decimal: written as `D * 10^k` with `D` not ending in a zero, `D` has at
most as many digits as `D1` has in any decimal `D1 * 10^k1` that rounds to the value.
Here `M` and `E` are the mantissa and exponent as a `float64` stores the value.  2.5 gives
`2.5`, 1 gives `1`, the zeros give `0` and `-0`, and NaN and the infinities give `NaN`,
`+Inf` and `-Inf`. -/
theorem FormatQuantity_shortest (lib : Lib) (hlib : lib.formatFloat = formatFloatF)
    (negative : Bool) (m : Nat) (e : Int) (hm : 0 < m) :
    ((float64Form m e).1 : ℚ) * 2 ^ (float64Form m e).2 = (m : ℚ) * 2 ^ e ∧
    (∃ (whole frac : Bytes) (D : Nat) (k : Int),
      FormatQuantity lib (.finite negative m e) =
        (if negative then utf8 "-" else []) ++
          (whole ++ (if frac = [] then [] else 46 :: frac)) ∧
      whole ≠ [] ∧ (∀ b ∈ whole, 48 ≤ b ∧ b ≤ 57) ∧ (∀ b ∈ frac, 48 ≤ b ∧ b ≤ 57) ∧
      frac.getLast? ≠ some 48 ∧
      roundsTo (float64Form m e).1 (float64Form m e).2
        ((digitsValue whole : ℚ) + (digitsValue frac : ℚ) / 10 ^ frac.length) ∧
      (digitsValue whole : ℚ) + (digitsValue frac : ℚ) / 10 ^ frac.length = (D : ℚ) * 10 ^ k ∧
      D % 10 ≠ 0 ∧
      ∀ (D1 : Nat) (k1 : Int),
        roundsTo (float64Form m e).1 (float64Form m e).2 ((D1 : ℚ) * 10 ^ k1) →
        (decimal D).length ≤ (decimal D1).length) ∧
    FormatQuantity lib (.finite false 5 (-1)) = utf8 "2.5" ∧
    FormatQuantity lib (.finite false 1 0) = utf8 "1" ∧
    FormatQuantity lib (.finite false 0 0) = utf8 "0" ∧
    FormatQuantity lib (.finite true 0 0) = utf8 "-0" ∧
    FormatQuantity lib .nan = utf8 "NaN" ∧
    FormatQuantity lib (.inf false) = utf8 "+Inf" ∧
    FormatQuantity lib (.inf true) = utf8 "-Inf" := by
  obtain ⟨hpos, hlast, hround⟩ := shortestDigits_spec m e hm
  have hs : decimal (shortestDigits m e).1 ≠ [] :=
    List.length_pos.mp (decimal_length_pos _)
  have hl : (decimal (shortestDigits m e).1).getLast? ≠ some 48 := by
    rw [decimal_getLast]
    intro h
    have h2 := Option.some.inj h
    omega
  obtain ⟨whole, frac, h1, h2, h3, h4, h5, h6⟩ :=
    fmtF_digits (decimal (shortestDigits m e).1) (shortestDigits m e).1 (shortestDigits m e).2
      hs (decimal_digits _) (digitsValue_decimal _) hl
  refine ⟨float64Form_value m e,
    ⟨whole, frac, (shortestDigits m e).1, (shortestDigits m e).2, ?_, h2, h3, h4, h5, ?_, h6,
      hlast, fun D1 k1 hr => shortestDigits_minimal m e hm D1 k1 hr⟩,
    ?_, ?_, ?_, ?_, ?_, ?_, ?_⟩
  · have hm0 : m ≠ 0 := by omega
    rw [FormatQuantity, hlib]
    simp only [formatFloatF, hm0, if_false]
    rw [h1]
  · rw [h6]
    exact hround
  · rw [FormatQuantity, hlib]
    decide
  · rw [FormatQuantity, hlib]
    decide
  · rw [FormatQuantity, hlib]
    decide
  · rw [FormatQuantity, hlib]
    decide
  · rw [FormatQuantity, hlib]
    decide
  · rw [FormatQuantity, hlib]
    decide
  · rw [FormatQuantity, hlib]
    decide

/-- C22, amended, at an input: the library of the examples prints as `formatFloatF`; the
`float64` nearest to one tenth is printed as `0.1`; one tenth rounds to it, and no decimal
with fewer digits does. -/
theorem FormatQuantity_shortest_witness :
    numLib.formatFloat = formatFloatF ∧ 0 < 3602879701896397 ∧
    float64Form 3602879701896397 (-55) = (7205759403792794, -56) ∧
    FormatQuantity numLib (.finite false 3602879701896397 (-55)) = utf8 "0.1" ∧
    shortestDigits 3602879701896397 (-55) = (1, -1) ∧
    ∃ (whole frac : Bytes) (D : Nat) (k : Int),
      FormatQuantity numLib (.finite false 3602879701896397 (-55)) =
        (if false then utf8 "-" else []) ++
          (whole ++ (if frac = [] then [] else 46 :: frac)) ∧
      whole ≠ [] ∧ (∀ b ∈ whole, 48 ≤ b ∧ b ≤ 57) ∧ (∀ b ∈ frac, 48 ≤ b ∧ b ≤ 57) ∧
      frac.getLast? ≠ some 48 ∧
      roundsTo (float64Form 3602879701896397 (-55)).1 (float64Form 3602879701896397 (-55)).2
        ((digitsValue whole : ℚ) + (digitsValue frac : ℚ) / 10 ^ frac.length) ∧
      (digitsValue whole : ℚ) + (digitsValue frac : ℚ) / 10 ^ frac.length = (D : ℚ) * 10 ^ k ∧
      D % 10 ≠ 0 ∧
      ∀ (D1 : Nat) (k1 : Int),
        roundsTo (float64Form 3602879701896397 (-55)).1
          (float64Form 3602879701896397 (-55)).2 ((D1 : ℚ) * 10 ^ k1) →
        (decimal D).length ≤ (decimal D1).length :=
  ⟨rfl, by decide, by decide, by decide, by decide,
    (FormatQuantity_shortest numLib rfl false 3602879701896397 (-55) (by decide)).2.1⟩

end NFCe
